import Mathlib

/-! Module discovery of `starport/pkg/cosmosanalysis/module`.

A shallow embedding of `module.go`: the filter of schema packages
(`findModuleProtoPkgs`), the classification of one package (`discover`) and
the driver (`Discover`), followed by the properties proved about them.

Go strings are `String`; a Go slice is a `List` (`nil` is `[]`, `append` adds
at the end). External collaborators of the package (the dependency manifest
reader, the schema package index and the source inspector) are fields of `Env`.
-/

namespace Starport

/-! ## Go values -/

/-- Go `error` values that reach `module.go`: the package's sentinel
`ErrModuleNotFound` and any other error, kept by its message. -/
inductive GoError where
  | errModuleNotFound
  | other (msg : String)
  deriving DecidableEq, Repr

/-- How a call ends when it does not return normally: with a Go `error`, or
with the run-time panic of an index out of range. -/
inductive Fault where
  | error (e : GoError)
  | indexOutOfRange
  deriving DecidableEq, Repr

/-- Results `(value, error)` of Go calls are compared by case and content. -/
instance instDecidableEqExcept {ε α : Type} [DecidableEq ε] [DecidableEq α] :
    DecidableEq (Except ε α)
  | .ok a, .ok b => if h : a = b then isTrue (by rw [h]) else isFalse (fun hab => h (Except.ok.inj hab))
  | .error a, .error b =>
    if h : a = b then isTrue (by rw [h]) else isFalse (fun hab => h (Except.error.inj hab))
  | .ok _, .error _ => isFalse (fun hab => Except.noConfusion hab)
  | .error _, .ok _ => isFalse (fun hab => Except.noConfusion hab)

/-- `strings.HasPrefix(s, pre)`. -/
def HasPrefix (s pre : String) : Bool :=
  pre.data.isPrefixOf s.data

/-- `strings.TrimPrefix(s, pre)`. -/
def TrimPrefix (s pre : String) : String :=
  if HasPrefix s pre then String.mk (s.data.drop pre.data.length) else s

/-- The pieces of a character sequence between occurrences of `sep`. -/
def splitChars (sep : Char) : List Char → List (List Char)
  | [] => [[]]
  | c :: cs =>
    if c = sep then [] :: splitChars sep cs
    else
      match splitChars sep cs with
      | [] => [[c]]
      | seg :: segs => (c :: seg) :: segs

/-- `strings.Split(s, sep)` for a separator of one character. -/
def Split (s : String) (sep : Char) : List String :=
  (splitChars sep s.data).map String.mk

/-! ## The schema package model (`protoanalysis`) -/

/-- Modelled from the spec: `protoanalysis.HTTPAnnotations`, whose declaration
is outside the analysed sources; the spec calls it opaque REST-binding
metadata, so it is carried as uninterpreted tokens. -/
structure HTTPAnnotations where
  raw : List String := []
  deriving DecidableEq, Repr

/-- Modelled from the spec: `protoanalysis.Message`, a schema message
`{Name, FilePath}`; `module.go` reads the fields `Name` and `Path`. -/
structure Message where
  Name : String := ""
  Path : String := ""
  deriving DecidableEq, Repr

/-- Modelled from the spec: `protoanalysis.RPCFunc`, an RPC method
`{Name, RequestType, ReturnType, HTTPAnnotations}`; `module.go` reads the
return type as `ReturnsType`. -/
structure RPCFunc where
  Name : String := ""
  RequestType : String := ""
  ReturnsType : String := ""
  HTTPAnnotations : HTTPAnnotations := {}
  deriving DecidableEq, Repr

/-- Modelled from the spec: `protoanalysis.Service`, `{Name, RPCMethods}`;
`module.go` reads the methods as `RPCFuncs`. -/
structure Service where
  Name : String := ""
  RPCFuncs : List RPCFunc := []
  deriving DecidableEq, Repr

/-- Modelled from the spec: `protoanalysis.Package`,
`{Name, ImportPath, Messages, Services}`; `module.go` reads the import path as
`GoImportName` and the schema location as `Path`. -/
structure Package where
  Name : String := ""
  Path : String := ""
  GoImportName : String := ""
  Messages : List Message := []
  Services : List Service := []
  deriving DecidableEq, Repr

/-- Modelled from the spec: `Package.MessageByName`, declared outside the
analysed sources; it succeeds exactly when a schema message with that name
exists in the package and then returns the first such message. -/
def Package.MessageByName (p : Package) (name : String) : Option Message :=
  p.Messages.find? (fun m => m.Name == name)

/-! ## `module.go` -/

/-- Msg keeps metadata about an sdk.Msg implementation. -/
structure Msg where
  Name : String := ""
  URI : String := ""
  FilePath : String := ""
  deriving DecidableEq, Repr

/-- Query is an sdk Query. -/
structure Query where
  Name : String := ""
  FullName : String := ""
  HTTPAnnotations : HTTPAnnotations := {}
  deriving DecidableEq, Repr

/-- Go's `Type`, a proto type that might be used by module (`Type` is reserved
in Lean, hence the longer name). -/
structure ModuleType where
  Name : String := ""
  FilePath : String := ""
  deriving DecidableEq, Repr

/-- Module keeps metadata about a Cosmos SDK module; the default of every
field is Go's zero value, so `{}` is `Module{}`. -/
structure Module where
  Name : String := ""
  Pkg : Package := {}
  Msgs : List Msg := []
  Queries : List Query := []
  Types : List ModuleType := []
  deriving DecidableEq, Repr

/-- The receiver of `discover` and `findModuleProtoPkgs`. -/
structure moduleDiscoverer where
  sourcePath : String
  basegopath : String
  deriving DecidableEq, Repr

/-- The collaborators `module.go` calls into and that live outside it:
`gomodule.ParseAt` (reduced to the module path it yields),
`protoanalysis.DiscoverPackages`, the source inspector `DiscoverMessages`,
`Package.GoImportPath` and `filepath.Join`. -/
structure Env where
  parseAt : String → Except GoError String
  discoverPackages : String → Except GoError (List Package)
  discoverMessages : String → Except GoError (List String)
  goImportPath : Package → String
  join : String → String → String

/-- The loop of `findModuleProtoPkgs` over all proto packages. -/
def filterModuleProtoPkgs (basegopath : String) (allprotopkgs : List Package) : List Package :=
  allprotopkgs.foldl
    (fun xprotopkgs pkg =>
      if !HasPrefix pkg.GoImportName basegopath then xprotopkgs
      else xprotopkgs ++ [pkg])
    []

/-- `moduleDiscoverer.findModuleProtoPkgs`. -/
def findModuleProtoPkgs (env : Env) (d : moduleDiscoverer) : Except GoError (List Package) :=
  match env.discoverPackages d.sourcePath with
  | .error err => .error err
  | .ok allprotopkgs => .ok (filterModuleProtoPkgs d.basegopath allprotopkgs)

/-- The "fill sdk Msgs" loop of `discover`. -/
def fillMsgs (pkg : Package) (msgs : List String) : List Msg :=
  msgs.foldl
    (fun acc msg =>
      match pkg.MessageByName msg with
      | none => acc
      | some pkgmsg =>
        acc ++ [{ Name := msg, URI := pkg.Name ++ "." ++ msg, FilePath := pkgmsg.Path }])
    []

/-- The closure `isType` of `discover`. -/
def isType (pkg : Package) (msgs : List String) (protomsg : Message) : Bool :=
  if protomsg.Name = "GenesisState" then false
  else if msgs.any (fun msg => msg == protomsg.Name) then false
  else if pkg.Services.any (fun s => s.RPCFuncs.any (fun q =>
      q.RequestType == protomsg.Name || q.ReturnsType == protomsg.Name)) then false
  else true

/-- The "fill types" loop of `discover`. -/
def fillTypes (pkg : Package) (msgs : List String) : List ModuleType :=
  pkg.Messages.foldl
    (fun acc protomsg =>
      if !isType pkg msgs protomsg then acc
      else acc ++ [{ Name := protomsg.Name, FilePath := protomsg.Path }])
    []

/-- The "fill queries" loops of `discover`. -/
def fillQueries (pkg : Package) : List Query :=
  pkg.Services.foldl
    (fun acc s =>
      s.RPCFuncs.foldl
        (fun acc q =>
          let fullName := s.Name ++ q.Name
          match pkg.MessageByName fullName with
          | some _ => acc
          | none =>
            acc ++ [{ Name := q.Name, FullName := fullName, HTTPAnnotations := q.HTTPAnnotations }])
        acc)
    []

/-- The source directory `discover` hands to the inspector:
`filepath.Join(d.sourcePath, strings.TrimPrefix(pkg.GoImportPath(), d.basegopath))`. -/
def pkgpath (env : Env) (d : moduleDiscoverer) (pkg : Package) : String :=
  let pkgrelpath := TrimPrefix (env.goImportPath pkg) d.basegopath
  env.join d.sourcePath pkgrelpath

/-- `moduleDiscoverer.discover`. -/
def discover (env : Env) (d : moduleDiscoverer) (pkg : Package) : Except Fault Module :=
  match env.discoverMessages (pkgpath env d pkg) with
  | .error err =>
    if err = GoError.errModuleNotFound then .ok {}
    else .error (Fault.error err)
  | .ok msgs =>
    let namesplit := Split pkg.Name '.'
    match namesplit.get? (namesplit.length - 1) with
    | none => .error Fault.indexOutOfRange
    | some name =>
      .ok { Name := name
            Pkg := pkg
            Msgs := fillMsgs pkg msgs
            Queries := fillQueries pkg
            Types := fillTypes pkg msgs }

/-- The loop of `Discover` over the kept packages. -/
def discoverEach (env : Env) (md : moduleDiscoverer) :
    List Package → List Module → Except Fault (List Module)
  | [], modules => .ok modules
  | pkg :: pkgs, modules =>
    match discover env md pkg with
    | .error err => .error err
    | .ok m => discoverEach env md pkgs (modules ++ [m])

/-- `Discover`. -/
def Discover (env : Env) (sourcePath : String) : Except Fault (List Module) :=
  match env.parseAt sourcePath with
  | .error err => .error (Fault.error err)
  | .ok basegopath =>
    let md : moduleDiscoverer := { sourcePath := sourcePath, basegopath := basegopath }
    match findModuleProtoPkgs env md with
    | .error err => .error (Fault.error err)
    | .ok pkgs => discoverEach env md pkgs []

/-- The loop of `Discover`, together with the directories handed to the source
inspector so far: `discover` consults the inspector once, first thing, with
`pkgpath`. -/
def discoverEachTraced (env : Env) (md : moduleDiscoverer) :
    List Package → List Module → List String → Except Fault (List Module) × List String
  | [], modules, consulted => (.ok modules, consulted)
  | pkg :: pkgs, modules, consulted =>
    match discover env md pkg with
    | .error err => (.error err, consulted ++ [pkgpath env md pkg])
    | .ok m => discoverEachTraced env md pkgs (modules ++ [m]) (consulted ++ [pkgpath env md pkg])

/-- `Discover`, together with the directories for which it consulted the
source inspector, in order. -/
def DiscoverTraced (env : Env) (sourcePath : String) :
    Except Fault (List Module) × List String :=
  match env.parseAt sourcePath with
  | .error err => (.error (Fault.error err), [])
  | .ok basegopath =>
    let md : moduleDiscoverer := { sourcePath := sourcePath, basegopath := basegopath }
    match findModuleProtoPkgs env md with
    | .error err => (.error (Fault.error err), [])
    | .ok pkgs => discoverEachTraced env md pkgs [] []

/-! ## `cosmosgen`: options and generator (`cosmosgen.go`) -/

/-- generateOptions used to configure code generation. `jsOut` is a function
value, nil until an option sets it. -/
structure generateOptions where
  includeDirs : List String := []
  gomodPath : String := ""
  jsOut : Option (Module → String) := none
  jsIncludeThirdParty : Bool := false
  vuexStoreRootPath : String := ""

/-- Go's `Option`, a function that configures code generation. -/
abbrev GenOption := generateOptions → generateOptions

/-- WithJSGeneration adds JS code generation. -/
def WithJSGeneration (includeThirdPartyModules : Bool) (out : Option (Module → String)) :
    GenOption :=
  fun o => { o with jsOut := out, jsIncludeThirdParty := includeThirdPartyModules }

/-- WithVuexGeneration adds Vuex code generation. -/
def WithVuexGeneration (includeThirdPartyModules : Bool) (out : Option (Module → String))
    (storeRootPath : String) : GenOption :=
  fun o => { o with jsOut := out, jsIncludeThirdParty := includeThirdPartyModules,
                    vuexStoreRootPath := storeRootPath }

/-- WithGoGeneration adds Go code generation. -/
def WithGoGeneration (gomodPath : String) : GenOption :=
  fun o => { o with gomodPath := gomodPath }

/-- IncludeDirs configures the third party proto dirs that used by app's proto. -/
def IncludeDirs (dirs : List String) : GenOption :=
  fun o => { o with includeDirs := dirs }

set_option linter.dupNamespace false in
/-- A dependency, `module.Version` of `golang.org/x/mod`. -/
structure Version where
  Path : String := ""
  Version : String := ""
  deriving DecidableEq, Repr

/-- The generator of code for sdk and sdk apps (its `ctx` carries cancellation
only and is left out). -/
structure generator where
  appPath : String
  protoDir : String
  o : generateOptions
  deps : List Version := []

/-- The receiver of the JS generation. -/
structure jsGenerator where
  g : generator
  tsprotoPluginPath : String

/-- Library functions on paths and names used by the JS generation:
`filepath.Join` of two elements, `filepath.Dir`, `filepath.Base`,
`filepath.Rel` and `strcase.ToCamel`. -/
structure PathLib where
  join : String → String → String
  dir : String → String
  base : String → String
  rel : String → String → Except GoError String
  toCamel : String → String

/-- `strings.ReplaceAll(s, old, new)` for `old` and `new` of one character. -/
def ReplaceAll (s : String) (old new : Char) : String :=
  String.mk (s.data.map (fun c => if c = old then new else c))

/-- Modelled from the spec: `tsc.CompilerOptions`, declared outside the analysed
sources; the field is the one `tscConfig` sets. -/
structure CompilerOptions where
  Declaration : Bool := false
  deriving DecidableEq, Repr

/-- Modelled from the spec: `tsc.Config`, declared outside the analysed sources;
the fields are those `tscConfig` sets. -/
structure TscConfig where
  Include : List String := []
  CompilerOptions : CompilerOptions := {}
  deriving DecidableEq, Repr

/-- `tscConfig`. -/
def tscConfig (includes : List String) : TscConfig :=
  { Include := includes, CompilerOptions := { Declaration := true } }

/-- `tsOut`. -/
def tsOut : List String := ["--ts_proto_out=."]

/-- `openAPIOut`. -/
def openAPIOut : List String := ["--openapiv2_out=logtostderr=true,allow_merge=true:."]

/-- `vuexRootMarker`. -/
def vuexRootMarker : String := "vuex-root"

/-! ## `cosmosgen`: one module task (`generateModule`) -/

/-- The context a call receives: the generator's own, or the one of the task
group, cancelled when a task of the group fails. -/
inductive Ctx where
  | generator
  | group
  deriving DecidableEq, Repr

/-- The calls `generateModule` makes into its collaborators, one constructor per
call site, with the arguments passed. -/
inductive ModuleEvent where
  /-- `g.g.resolveInclude(appPath)` -/
  | resolveInclude (appPath : String)
  /-- `os.RemoveAll(out)` -/
  | removeAllOut (path : String)
  /-- `os.MkdirAll(typesOut, 0755)` -/
  | mkdirAll (path : String) (perm : Nat)
  /-- `protoc.Generate` of the ts-proto types -/
  | protocTypes (ctx : Ctx) (out protoPath : String) (includePaths args : List String)
      (plugin : String)
  /-- `ioutil.TempDir("", "")` -/
  | tempDir (dir pattern : String)
  /-- `protoc.Generate` of the OpenAPI spec -/
  | protocOpenAPI (ctx : Ctx) (out protoPath : String) (includePaths args : List String)
  /-- `sta.Generate` of the REST client -/
  | staGenerate (ctx : Ctx) (outPath srcspec flag : String)
  /-- `templateJSClient.Write` -/
  | templateJSClientWrite (dst pp : String) (m : Module)
  /-- `templateVuexStore.Write` -/
  | templateVuexStoreWrite (dst pp : String) (m : Module)
  /-- `tsc.Generate` -/
  | tscGenerate (ctx : Ctx) (config : TscConfig)
  /-- the deferred `os.RemoveAll(oaitemp)` -/
  | removeAllTemp (path : String)
  deriving DecidableEq, Repr

/-- What each call of one `generateModule` task returns in a run, if the task
makes it. A task makes each call at most once, so a run of the task is described
by these results. The result of the deferred removal is discarded by the code. -/
structure ModuleRun where
  resolveInclude : Except GoError (List String) := .ok []
  removeAllOut : Option GoError := none
  mkdirAll : Option GoError := none
  protocTypes : Option GoError := none
  tempDir : Except GoError String := .ok ""
  protocOpenAPI : Option GoError := none
  staGenerate : Option GoError := none
  templateJSClientWrite : Option GoError := none
  templateVuexStoreWrite : Option GoError := none
  tscGenerate : Option GoError := none
  removeAllTemp : Option GoError := none

/-- The part of `generateModule` after the `defer`: from the OpenAPI compile to
the final `tsc.Generate`. Returns the error and the calls made, after those in
`calls`. -/
def generateModuleDeferred (lib : PathLib) (g : jsGenerator) (run : ModuleRun)
    (appPath : String) (m : Module) (out storeDirPath : String) (includePaths : List String)
    (oaitemp : String) (calls : List ModuleEvent) : Option GoError × List ModuleEvent :=
  let calls := calls ++ [.protocOpenAPI Ctx.group oaitemp m.Pkg.Path includePaths openAPIOut]
  match run.protocOpenAPI with
  | some err => (some err, calls)
  | none =>
    let srcspec := lib.join oaitemp "apidocs.swagger.json"
    let outREST := lib.join out "rest.ts"
    let calls := calls ++ [.staGenerate Ctx.generator outREST srcspec "-1"]
    match run.staGenerate with
    | some err => (some err, calls)
    | none =>
      let pp := lib.join appPath g.g.protoDir
      let calls := calls ++ [.templateJSClientWrite out pp m]
      match run.templateJSClientWrite with
      | some err => (some err, calls)
      | none =>
        if g.g.o.vuexStoreRootPath ≠ "" then
          let calls := calls ++ [.templateVuexStoreWrite storeDirPath pp m]
          match run.templateVuexStoreWrite with
          | some err => (some err, calls)
          | none =>
            (run.tscGenerate,
              calls ++ [.tscGenerate Ctx.generator (tscConfig [storeDirPath ++ "/**/*.ts"])])
        else
          (run.tscGenerate,
            calls ++ [.tscGenerate Ctx.generator (tscConfig [storeDirPath ++ "/**/*.ts"])])

/-- `jsGenerator.generateModule`: the error it returns and the calls it makes,
in order. `jsOut` is the non-nil `g.g.o.jsOut` that `Generate` checked. -/
def generateModule (lib : PathLib) (g : jsGenerator) (jsOut : Module → String)
    (run : ModuleRun) (tsprotoPluginPath appPath : String) (m : Module) :
    Option GoError × List ModuleEvent :=
  let out := jsOut m
  let storeDirPath := lib.dir out
  let typesOut := lib.join out "types"
  let calls := [ModuleEvent.resolveInclude appPath]
  match run.resolveInclude with
  | .error err => (some err, calls)
  | .ok includePaths =>
    let calls := calls ++ [.removeAllOut out]
    match run.removeAllOut with
    | some err => (some err, calls)
    | none =>
      let calls := calls ++ [.mkdirAll typesOut 0o755]
      match run.mkdirAll with
      | some err => (some err, calls)
      | none =>
        let calls := calls ++
          [.protocTypes Ctx.generator typesOut m.Pkg.Path includePaths tsOut tsprotoPluginPath]
        match run.protocTypes with
        | some err => (some err, calls)
        | none =>
          let calls := calls ++ [.tempDir "" ""]
          match run.tempDir with
          | .error err => (some err, calls)
          | .ok oaitemp =>
            let (err, calls) := generateModuleDeferred lib g run appPath m out storeDirPath
              includePaths oaitemp calls
            (err, calls ++ [.removeAllTemp oaitemp])

/-! ## `cosmosgen`: all module tasks (`generateModules`) -/

/-- What one source-path task did: the path it handed to `discoverModules` and,
per module found, the calls of its `generateModule` task. The module tasks run
concurrently; each list is the order inside one task. -/
structure SourceTaskTrace where
  sourcePath : String
  moduleTasks : List (List ModuleEvent) := []
  deriving DecidableEq, Repr

/-- The local type `module` of `generateVuexModuleLoader`. -/
structure LoaderModule where
  Name : String := ""
  Path : String := ""
  FullName : String := ""
  FullPath : String := ""
  deriving DecidableEq, Repr

/-- The calls `generateJS` makes, directly or through `generateModules` and
`generateVuexModuleLoader`, into their collaborators. -/
inductive JSEvent where
  /-- `tsproto.BinaryPath()` in `newJSGenerator` -/
  | binaryPath
  /-- `gomodule.LocatePath(dep)` -/
  | locatePath (dep : Version)
  /-- the task group of `generateModules`, one task per source path -/
  | sourceTasks (tasks : List SourceTaskTrace)
  /-- `zglob.Glob` of the marker files -/
  | glob (pattern : String)
  /-- `templateVuexRoot.Write` -/
  | templateVuexRootWrite (dst pp : String) (modules : List LoaderModule)
  /-- `tsc.Generate` of the root loader -/
  | tscGenerate (ctx : Ctx) (config : TscConfig)
  deriving DecidableEq, Repr

/-- What the calls of one source-path task return in a run: `discoverModules`
and, for the module task started at each position, its `ModuleRun`. -/
structure SourceRun where
  discoverModules : Except GoError (List Module) := .ok []
  modules : Nat → ModuleRun := fun _ => {}

/-- What the calls of `generateVuexModuleLoader` return in a run. -/
structure LoaderRun where
  glob : Except GoError (List String) := .ok []
  templateVuexRootWrite : Option GoError := none
  tscGenerate : Option GoError := none

/-- What the calls of `generateJS` return in a run. `waitSources` and
`waitModules i` stand for `errgroup.Group.Wait` of the outer group and of the
group of the source path at position `i`: from the errors the tasks returned,
listed in the order the tasks were started, the error `Wait` returns, which is
the one of the task that failed first in time. -/
structure JSRun where
  binaryPath : Except GoError String := .ok ""
  locatePath : Version → Except GoError String := fun _ => .ok ""
  source : Nat → SourceRun := fun _ => {}
  waitSources : List (Option GoError) → Option GoError
  waitModules : Nat → List (Option GoError) → Option GoError
  loader : LoaderRun := {}

/-- The module tasks of one source path, started in the order of `modules`;
the task at position `j` is described by `run j`. -/
def moduleTasks (lib : PathLib) (g : jsGenerator) (jsOut : Module → String)
    (run : Nat → ModuleRun) (sourcePath : String) :
    Nat → List Module → List (Option GoError × List ModuleEvent)
  | _, [] => []
  | j, m :: modules =>
    generateModule lib g jsOut (run j) g.tsprotoPluginPath sourcePath m
      :: moduleTasks lib g jsOut run sourcePath (j + 1) modules

/-- The function `generateModules` starts for one source path. -/
def sourceTask (lib : PathLib) (g : jsGenerator) (jsOut : Module → String) (run : SourceRun)
    (wait : List (Option GoError) → Option GoError) (sourcePath : String) :
    Option GoError × SourceTaskTrace :=
  match run.discoverModules with
  | .error err => (some err, { sourcePath := sourcePath })
  | .ok modules =>
    let tasks := moduleTasks lib g jsOut run.modules sourcePath 0 modules
    (wait (tasks.map Prod.fst),
      { sourcePath := sourcePath, moduleTasks := tasks.map Prod.snd })

/-- The source-path tasks, started in the order of `sourcePaths`. -/
def sourceTasks (lib : PathLib) (g : jsGenerator) (jsOut : Module → String) (run : JSRun) :
    Nat → List String → List (Option GoError × SourceTaskTrace)
  | _, [] => []
  | i, sourcePath :: sourcePaths =>
    sourceTask lib g jsOut (run.source i) (run.waitModules i) sourcePath
      :: sourceTasks lib g jsOut run (i + 1) sourcePaths

/-- The loop of `generateModules` over the dependencies. -/
def locateDeps (run : JSRun) :
    List Version → List String → List JSEvent → Except GoError (List String) × List JSEvent
  | [], sourcePaths, calls => (.ok sourcePaths, calls)
  | dep :: deps, sourcePaths, calls =>
    match run.locatePath dep with
    | .error err => (.error err, calls ++ [.locatePath dep])
    | .ok deppath => locateDeps run deps (sourcePaths ++ [deppath]) (calls ++ [.locatePath dep])

/-- The first part of `generateModules`: the source paths, the app's own first
and, with `jsIncludeThirdParty`, the located dependencies after it. -/
def locateSourcePaths (g : jsGenerator) (run : JSRun) :
    Except GoError (List String) × List JSEvent :=
  if g.g.o.jsIncludeThirdParty then locateDeps run g.g.deps [g.g.appPath] []
  else (.ok [g.g.appPath], [])

/-- `jsGenerator.generateModules`. -/
def generateModules (lib : PathLib) (g : jsGenerator) (jsOut : Module → String) (run : JSRun) :
    Option GoError × List JSEvent :=
  match locateSourcePaths g run with
  | (.error err, calls) => (some err, calls)
  | (.ok sourcePaths, calls) =>
    let tasks := sourceTasks lib g jsOut run 0 sourcePaths
    (run.waitSources (tasks.map Prod.fst), calls ++ [.sourceTasks (tasks.map Prod.snd)])

/-! ## `cosmosgen`: the root loader and `generateJS` -/

/-- The loop of `generateVuexModuleLoader` over the marker files found. -/
def loaderModules (lib : PathLib) (vuexStoreRootPath : String) :
    List String → List LoaderModule → Except GoError (List LoaderModule)
  | [], modules => .ok modules
  | path :: modulePaths, modules =>
    match lib.rel vuexStoreRootPath path with
    | .error err => .error err
    | .ok pathrel =>
      let fullPath := lib.dir pathrel
      let fullName := lib.toCamel (ReplaceAll fullPath '/' '_')
      let path := lib.base fullPath
      let name := lib.toCamel path
      loaderModules lib vuexStoreRootPath modulePaths
        (modules ++ [{ Name := name, Path := path, FullName := fullName, FullPath := fullPath }])

/-- `jsGenerator.generateVuexModuleLoader`. -/
def generateVuexModuleLoader (lib : PathLib) (g : jsGenerator) (run : LoaderRun) :
    Option GoError × List JSEvent :=
  let calls := [JSEvent.glob (lib.join g.g.o.vuexStoreRootPath ("/**/" ++ vuexRootMarker))]
  match run.glob with
  | .error err => (some err, calls)
  | .ok modulePaths =>
    match loaderModules lib g.g.o.vuexStoreRootPath modulePaths [] with
    | .error err => (some err, calls)
    | .ok modules =>
      let loaderPath := lib.join g.g.o.vuexStoreRootPath "index.ts"
      let calls := calls ++ [.templateVuexRootWrite g.g.o.vuexStoreRootPath "" modules]
      match run.templateVuexRootWrite with
      | some err => (some err, calls)
      | none => (run.tscGenerate, calls ++ [.tscGenerate Ctx.generator (tscConfig [loaderPath])])

/-- `generator.generateJS`, with `newJSGenerator` inlined. -/
def generateJS (lib : PathLib) (g : generator) (jsOut : Module → String) (run : JSRun) :
    Option GoError × List JSEvent :=
  match run.binaryPath with
  | .error err => (some err, [.binaryPath])
  | .ok tsprotoPluginPath =>
    let jsg : jsGenerator := { g := g, tsprotoPluginPath := tsprotoPluginPath }
    match generateModules lib jsg jsOut run with
    | (some err, calls) => (some err, .binaryPath :: calls)
    | (none, calls) =>
      match generateVuexModuleLoader lib jsg run.loader with
      | (some err, loaderCalls) => (some err, .binaryPath :: calls ++ loaderCalls)
      | (none, loaderCalls) => (none, .binaryPath :: calls ++ loaderCalls)

/-! ## `cosmosgen`: `Generate` -/

/-- The calls of `Generate`: `g.setup()`, `g.generateGo()` and
`g.generateJS()`, the last with the calls made inside it. -/
inductive GenCall where
  | setup
  | generateGo
  | generateJS (calls : List JSEvent)
  deriving DecidableEq, Repr

/-- What the calls of `Generate` return in a run. `setup` and `generateGo` are
methods of the generator declared outside the analysed sources: of the
generator's fields, `Generate` sets all but `deps`, which `generateModules`
reads, so `setup` is taken to yield the dependencies. -/
structure GenRun where
  setup : Except GoError (List Version) := .ok []
  generateGo : Option GoError := none
  js : JSRun

/-- The loop of `Generate` that applies the options to empty `generateOptions`. -/
def applyOptions (options : List GenOption) : generateOptions :=
  options.foldl (fun o apply => apply o) {}

/-- `Generate`: the error it returns and the calls it makes, in order. -/
def Generate (lib : PathLib) (run : GenRun) (appPath protoDir : String)
    (options : List GenOption) : Option GoError × List GenCall :=
  let o := applyOptions options
  match run.setup with
  | .error err => (some err, [.setup])
  | .ok deps =>
    let g : generator := { appPath := appPath, protoDir := protoDir, o := o, deps := deps }
    let golang : Option GoError × List GenCall :=
      if g.o.gomodPath ≠ "" then (run.generateGo, [.setup, .generateGo])
      else (none, [.setup])
    match golang with
    | (some err, calls) => (some err, calls)
    | (none, calls) =>
      match g.o.jsOut with
      | none => (none, calls)
      | some jsOut =>
        match generateJS lib g jsOut run.js with
        | (some err, jsCalls) => (some err, calls ++ [.generateJS jsCalls])
        | (none, jsCalls) => (none, calls ++ [.generateJS jsCalls])

/-! ## `chainconf` (`config.go`) -/

namespace conf

/-- A Go `map[string]interface{}` read from YAML, kept as the list of its keys
with the text of their values. -/
abbrev YamlObject := List (String × String)

/-- Account holds the options related to setting up Cosmos wallets. -/
structure Account where
  Name : String := ""
  Coins : List String := []
  Mnemonic : String := ""
  Address : String := ""
  RPCAddress : String := ""
  deriving DecidableEq, Repr

/-- Validator holds info related to validator settings. -/
structure Validator where
  Name : String := ""
  Staked : String := ""
  deriving DecidableEq, Repr

/-- Proto holds proto build configs. -/
structure Proto where
  Path : String := ""
  ThirdPartyPaths : List String := []
  deriving DecidableEq, Repr

/-- Build holds build configs. -/
structure Build where
  Binary : String := ""
  Proto : Proto := {}
  deriving DecidableEq, Repr

/-- Vuex configures code generation for Vuex. -/
structure Vuex where
  Path : String := ""
  deriving DecidableEq, Repr

/-- Client configures code generation for clients. -/
structure Client where
  Vuex : Vuex := {}
  deriving DecidableEq, Repr

/-- Faucet configuration. `Name` is a pointer, nil when the faucet is not
enabled; `Port` is a Go `int`. -/
structure Faucet where
  Name : Option String := none
  Coins : List String := []
  CoinsMax : List String := []
  Host : String := ""
  Port : Int := 0
  deriving DecidableEq, Repr

/-- Init overwrites sdk configurations with given values. -/
structure Init where
  App : YamlObject := []
  Config : YamlObject := []
  Home : String := ""
  CLIHome : String := ""
  KeyringBackend : String := ""
  deriving DecidableEq, Repr

/-- Host keeps configuration related to started servers. -/
structure Host where
  RPC : String := ""
  P2P : String := ""
  Prof : String := ""
  GRPC : String := ""
  API : String := ""
  Frontend : String := ""
  DevUI : String := ""
  deriving DecidableEq, Repr

/-- Config is the user given configuration to do additional setup during
serve; the default of every field is Go's zero value, so `{}` is `Config{}`. -/
structure Config where
  Accounts : List Account := []
  Validator : Validator := {}
  Faucet : Faucet := {}
  Client : Client := {}
  Build : Build := {}
  Init : Init := {}
  Genesis : YamlObject := []
  Host : Host := {}
  deriving DecidableEq, Repr

/-- DefaultConf holds default configuration. -/
def DefaultConf : Config :=
  { Host := { RPC := ":26657", P2P := ":26656", Prof := ":6060", GRPC := ":9090",
              API := ":1317", Frontend := ":8080", DevUI := ":12345" }
    Build := { Proto := { Path := "proto"
                          ThirdPartyPaths := ["third_party/proto", "proto_vendor"] } }
    Faucet := { Host := ":4500" } }

/-- ValidationError is returned when a configuration is invalid. -/
structure ValidationError where
  Message : String
  deriving DecidableEq, Repr

/-- The errors `Parse` returns: a `*ValidationError`, or the error of the YAML
decoder or of the merge. -/
inductive ParseError where
  | validation (e : ValidationError)
  | other (e : GoError)
  deriving DecidableEq, Repr

/-- The collaborators of `Parse` and `ParseFile`: the YAML decoder, by the
config it leaves and the error it returns for the text read; `mergo.Merge` of
a config with the defaults; and `os.Open`, by the text of the file. -/
structure Env where
  decode : String → Config × Option GoError
  merge : Config → Config → Except GoError Config
  openFile : String → Except GoError String

/-- `validate` validates user config. -/
def validate (conf : Config) : Option ValidationError :=
  if conf.Accounts.length = 0 then some { Message := "at least 1 account is needed" }
  else if conf.Validator.Name = "" then some { Message := "validator is required" }
  else none

/-- `Parse` parses config.yml into UserConfig. -/
def Parse (env : Env) (r : String) : Config × Option ParseError :=
  match env.decode r with
  | (conf, some err) => (conf, some (.other err))
  | (conf, none) =>
    match env.merge conf DefaultConf with
    | .error err => ({}, some (.other err))
    | .ok conf => (conf, (validate conf).map ParseError.validation)

/-- `ParseFile` parses config.yml from the path. -/
def ParseFile (env : Env) (path : String) : Config × Option ParseError :=
  match env.openFile path with
  | .error _ => ({}, none)
  | .ok file => Parse env file

/-- `FaucetHost` returns the faucet host to use; `fmt.Sprintf(":%d", port)` is
a colon and the decimal digits of the port. -/
def FaucetHost (conf : Config) : String :=
  let host := conf.Faucet.Host
  if conf.Faucet.Port ≠ 0 then ":" ++ toString conf.Faucet.Port
  else host

end conf

/-! ## `protopath` (`protopath.go`) -/

namespace protopath

/-- Module represents a go module that hosts dependency proto paths; the field
`include` of the source is `includes` here, `include` being reserved. -/
structure Module where
  importPath : String := ""
  includes : List String := []
  deriving DecidableEq, Repr

/-- NewModule cretes a new go module representation to look for protoPaths. -/
def NewModule (importPath : String) (protoPaths : List String) : Module :=
  { importPath := importPath, includes := protoPaths }

/-- How `ResolveDependencyPaths` fails: with its own error "go.mod has missing
proto modules", a value no other call can return; with the error of
`gomodule.LocatePath`; or with an index out of range. -/
inductive ResolveError where
  | missingProtoModules
  | locate (err : GoError)
  | indexOutOfRange
  deriving DecidableEq, Repr

/-- The package variable `globalInclude` (two expanded environment paths) and
the collaborators: `gomodule.FilterVersions`, `gomodule.LocatePath` and
`filepath.Join` of two elements. -/
structure Env where
  globalInclude : List String
  filterVersions : List Version → List String → List Version
  locatePath : Version → Except GoError String
  join : String → String → String

/-- The loop of `ResolveDependencyPaths` over the matched versions, `i` being
the index of the next one. -/
def resolveEach (env : Env) (modules : List Module) :
    List Version → Nat → List String → Except ResolveError (List String)
  | [], _, paths => .ok paths
  | v :: vs, i, paths =>
    match env.locatePath v with
    | .error err => .error (.locate err)
    | .ok path =>
      match modules.get? i with
      | none => .error .indexOutOfRange
      | some mod =>
        resolveEach env modules vs (i + 1)
          (mod.includes.foldl (fun paths relpath => paths ++ [env.join path relpath]) paths)

/-- `ResolveDependencyPaths` resolves dependency proto paths (the include flags) for
modules over given r inside go modules. -/
def ResolveDependencyPaths (env : Env) (versions : List Version) (modules : List Module) :
    Except ResolveError (List String) :=
  let paths : List String := [] ++ env.globalInclude
  let importPaths := modules.foldl (fun importPaths mod => importPaths ++ [mod.importPath]) []
  let vs := env.filterVersions versions importPaths
  if vs.length ≠ modules.length then .error .missingProtoModules
  else resolveEach env modules vs 0 paths

end protopath

/-! ## `services/chain` (`faucet.go`) -/

/-- `err.Error()`, the text of an error. -/
def GoError.Error : GoError → String
  | .errModuleNotFound => "sdk module not found"
  | .other msg => msg

namespace chain

/-- The options `Faucet` builds for `cosmosfaucet.New`: `cosmosfaucet.Account`,
`ChainID`, `OpenAPI` and `Coin`, each with its arguments. -/
inductive FaucetOption where
  | Account (name mnemonic : String)
  | ChainID (id : String)
  | OpenAPI (apiAddress : String)
  | Coin (amount maxAmount : Nat) (denom : String)
  deriving DecidableEq, Repr

/-- The calls of `Faucet` that the properties speak of: `cosmoscoin.Parse` of a
text and `cosmosfaucet.New` with the options. -/
inductive FaucetCall where
  | Parse (coin : String)
  | New (options : List FaucetOption)
  deriving DecidableEq, Repr

/-- ErrFaucetIsNotEnabled is returned when faucet is not enabled in the
config.yml. -/
def ErrFaucetIsNotEnabled : GoError :=
  GoError.other "faucet is not enabled in the config.yml"

/-- ErrFaucetAccountDoesNotExist returned when specified faucet account in the
config.yml does not exist. -/
def ErrFaucetAccountDoesNotExist : GoError :=
  GoError.other "specified account (faucet.name) does not exist"

/-- The chain as `Faucet` sees it, and the collaborators of `Faucet`: the
results of `c.ID()`, `c.Config()`, `c.Commands(ctx)` and of
`commands.ShowAccount`; the sentinel `chaincmdrunner.ErrAccountDoesNotExist`;
the package variable `envAPIAddress`; `xurl.HTTP`; `cosmoscoin.Parse`, by the
amount and denom of a text; and `cosmosfaucet.New`, `F` being the type
`cosmosfaucet.Faucet` of its result. -/
structure Chain (F : Type) where
  ID : Except GoError String
  Config : Except GoError conf.Config
  Commands : Option GoError
  ShowAccount : String → Option GoError
  ErrAccountDoesNotExist : GoError
  envAPIAddress : String
  HTTP : String → String
  Parse : String → Except GoError (Nat × String)
  New : List FaucetOption → Except GoError F

/-- `fmt.Errorf("%s: %s", err, coin)`. -/
def coinError (err : GoError) (coin : String) : GoError :=
  GoError.other (err.Error ++ ": " ++ coin)

/-- The inner loop of `Faucet`: the max amount for the coin `coin` of denom
`denom`, `amountMax` starting at zero. -/
def findAmountMax {F : Type} (c : Chain F) (coin denom : String) :
    List String → List FaucetCall → Except GoError Nat × List FaucetCall
  | [], calls => (.ok 0, calls)
  | coinMax :: coinsMax, calls =>
    match c.Parse coinMax with
    | .error err => (.error (coinError err coin), calls ++ [.Parse coinMax])
    | .ok (amount, denomMax) =>
      if denomMax = denom then (.ok amount, calls ++ [.Parse coinMax])
      else findAmountMax c coin denom coinsMax (calls ++ [.Parse coinMax])

/-- The outer loop of `Faucet` over the coins of the faucet. -/
def coinOptions {F : Type} (c : Chain F) (coinsMax : List String) :
    List String → List FaucetOption → List FaucetCall →
      Except GoError (List FaucetOption) × List FaucetCall
  | [], faucetOptions, calls => (.ok faucetOptions, calls)
  | coin :: coins, faucetOptions, calls =>
    match c.Parse coin with
    | .error err => (.error (coinError err coin), calls ++ [.Parse coin])
    | .ok (amount, denom) =>
      match findAmountMax c coin denom coinsMax (calls ++ [.Parse coin]) with
      | (.error err, calls) => (.error err, calls)
      | (.ok amountMax, calls) =>
        coinOptions c coinsMax coins (faucetOptions ++ [.Coin amount amountMax denom]) calls

/-- `Chain.Faucet` returns the faucet for the chain or an error if the faucet
configuration is wrong or not configured (not enabled) at all; with it, the
calls of `cosmoscoin.Parse` and `cosmosfaucet.New` made, in order. -/
def Chain.Faucet {F : Type} (c : Chain F) : Except GoError F × List FaucetCall :=
  match c.ID with
  | .error err => (.error err, [])
  | .ok id =>
    match c.Config with
    | .error err => (.error err, [])
    | .ok conf =>
      match c.Commands with
      | some err => (.error err, [])
      | none =>
        match conf.Faucet.Name with
        | none => (.error ErrFaucetIsNotEnabled, [])
        | some name =>
          match c.ShowAccount name with
          | some err =>
            if err = c.ErrAccountDoesNotExist then (.error ErrFaucetAccountDoesNotExist, [])
            else (.error err, [])
          | none =>
            let apiAddress := if c.envAPIAddress ≠ "" then c.envAPIAddress else conf.Host.API
            let faucetOptions : List FaucetOption :=
              [.Account name "", .ChainID id, .OpenAPI (c.HTTP apiAddress)]
            match coinOptions c conf.Faucet.CoinsMax conf.Faucet.Coins faucetOptions [] with
            | (.error err, calls) => (.error err, calls)
            | (.ok faucetOptions, calls) => (c.New faucetOptions, calls ++ [.New faucetOptions])

end chain

/-! ## `strings.Index`, `strings.Count` and `strings.Replace` -/

/-- `strings.Index` on the characters of the texts: the first position at which
`substr` occurs in the text, `none` for Go's `-1`. -/
def indexChars (substr : List Char) : List Char → Option Nat
  | [] => if substr.isPrefixOf [] then some 0 else none
  | c :: cs =>
    if substr.isPrefixOf (c :: cs) then some 0 else (indexChars substr cs).map (· + 1)

/-- The loop of `strings.Count` for a non-empty `substr`: find the next
occurrence, count it and go on after it; `fuel` bounds the number of rounds. -/
def countLoop (substr : List Char) : Nat → List Char → Nat
  | 0, _ => 0
  | fuel + 1, s =>
    match indexChars substr s with
    | none => 0
    | some i => 1 + countLoop substr fuel (s.drop (i + substr.length))

/-- `strings.Count`: the number of non-overlapping instances of `substr` in `s`;
for an empty `substr`, one more than the number of characters. Every round of
the loop drops at least one character, so the length of `s` is fuel enough. -/
def Count (s substr : String) : Nat :=
  if substr.data = [] then s.data.length + 1
  else countLoop substr.data s.data.length s.data

/-- The loop of `strings.Replace` for a non-empty `old`: at most `n` times, copy
the text up to the next occurrence of `old`, then `new`, and go on after the
occurrence. -/
def replaceLoop (old new : List Char) : Nat → List Char → List Char
  | 0, s => s
  | n + 1, s =>
    match indexChars old s with
    | none => s
    | some j => s.take j ++ new ++ replaceLoop old new n (s.drop (j + old.length))

/-- `strings.Replace` for an empty `old`: `new` is put at the beginning of the
text and after each character, at most `n` times in all. -/
def replaceEmpty (new : List Char) : Nat → List Char → List Char
  | 0, s => s
  | _ + 1, [] => new
  | n + 1, c :: cs => new ++ c :: replaceEmpty new n cs

/-- `strings.Replace` with a limit `n ≥ 0`: a copy of `s` with the first `n`
non-overlapping instances of `old` replaced by `new`. -/
def Replace (s old new : String) (n : Nat) : String :=
  if old.data = [] then String.mk (replaceEmpty new.data n s.data)
  else String.mk (replaceLoop old.data new.data n s.data)

/-! ## `templates/typed` (`placeholders.go`, `options.go`, `genesis.go`) -/

namespace typed

/-- The placeholder of the imports of `genesis.proto`. -/
def PlaceholderGenesisProtoImport : String :=
  "// this line is used by starport scaffolding # genesis/proto/import"

/-- The placeholder of the state of `genesis.proto`. -/
def PlaceholderGenesisProtoState : String :=
  "// this line is used by starport scaffolding # genesis/proto/state"

/-- The placeholder that follows each field of the state of `genesis.proto`. -/
def PlaceholderGenesisProtoStateField : String :=
  "// this line is used by starport scaffolding # genesis/proto/stateField"

/-- Field of a scaffolded type. -/
structure Field where
  Name : String := ""
  Datatype : String := ""
  DatatypeName : String := ""
  deriving DecidableEq, Repr

/-- Options of the scaffolding of a type. -/
structure Options where
  AppName : String := ""
  ModuleName : String := ""
  ModulePath : String := ""
  OwnerName : String := ""
  TypeName : String := ""
  Fields : List Field := []
  Legacy : Bool := false
  deriving DecidableEq, Repr

/-- `Validate` checks that options are usable: it accepts every value. -/
def Options.Validate (_opts : Options) : Option GoError := none

/-- The runner as `genesisProtoModify` uses it: `r.Disk.Find`, by the text of
the file found at a path, and `r.File`, by its error for a path and a text. -/
structure Runner where
  Find : String → Except GoError String
  File : String → String → Option GoError

/-- `replacementProtoImport`: the placeholder of the imports and, on the next
line, the import of the proto file of the type. -/
def replacementProtoImport (opts : Options) : String :=
  PlaceholderGenesisProtoImport ++ "\nimport \"" ++ opts.ModuleName ++ "/" ++ opts.TypeName
    ++ ".proto\";"

/-- `replacementProtoState`: the state placeholder and, on the next line, the
list field of the type with its number, followed by the field placeholder;
`Title` is `strings.Title`. -/
def replacementProtoState (Title : String → String) (opts : Options) (fieldNumber : Nat) :
    String :=
  PlaceholderGenesisProtoState ++ "\n\t\trepeated " ++ Title opts.TypeName ++ " "
    ++ opts.TypeName ++ "List = " ++ toString fieldNumber ++ "; "
    ++ PlaceholderGenesisProtoStateField

/-- The text part of `genesisProtoModify`: from the text `f` of `genesis.proto`,
the field number determined and the new content. -/
def genesisProtoContent (Title : String → String) (opts : Options) (f : String) :
    Nat × String :=
  let content := Replace f PlaceholderGenesisProtoImport (replacementProtoImport opts) 1
  let fieldNumber := Count content PlaceholderGenesisProtoStateField + 1
  let content :=
    Replace content PlaceholderGenesisProtoState
      (replacementProtoState Title opts fieldNumber) 1
  (fieldNumber, content)

/-- `genesisProtoModify` as run by the runner `r`: its error and the file, path
and content, given to `r.File`, if any. -/
def genesisProtoModify (Title : String → String) (opts : Options) (r : Runner) :
    Option GoError × Option (String × String) :=
  let path := "proto/" ++ opts.ModuleName ++ "/genesis.proto"
  match r.Find path with
  | .error err => (some err, none)
  | .ok f =>
    let content := (genesisProtoContent Title opts f).2
    (r.File path content, some (path, content))

end typed

/-! ## Vocabulary of the properties -/

/-- The Msg record `discover` builds for an inspector name, if the package has
a schema message of that name. -/
def msgRecord (pkg : Package) (msg : String) : Option Msg :=
  (pkg.MessageByName msg).map
    (fun pkgmsg => { Name := msg, URI := pkg.Name ++ "." ++ msg, FilePath := pkgmsg.Path })

/-- The Query records `discover` emits for one RPC method of one service. -/
def queryRecords (pkg : Package) (s : Service) (q : RPCFunc) : List Query :=
  match pkg.MessageByName (s.Name ++ q.Name) with
  | some _ => []
  | none => [{ Name := q.Name, FullName := s.Name ++ q.Name, HTTPAnnotations := q.HTTPAnnotations }]

/-- The Query record of an RPC method `q` of a service `s`: the method name,
the service name joined to it without separator, and the method's annotations. -/
def queryOf (s : Service) (q : RPCFunc) : Query :=
  { Name := q.Name, FullName := s.Name ++ q.Name, HTTPAnnotations := q.HTTPAnnotations }

/-- Total number of RPC methods across all services of the package. -/
def rpcTotal (pkg : Package) : Nat :=
  (pkg.Services.map (fun s => s.RPCFuncs.length)).sum

/-- Number of RPC methods whose service name joined to the method name is the
name of a schema message of the package (a naming collision). -/
def rpcCollisions (pkg : Package) : Nat :=
  (pkg.Services.map (fun s =>
    s.RPCFuncs.countP (fun q => pkg.Messages.any (fun M => M.Name == s.Name ++ q.Name)))).sum

/-- The contract of `errgroup.Group.Wait`: it returns nil exactly when every
task returned nil, and otherwise the error some task returned. -/
def LawfulWait (wait : List (Option GoError) → Option GoError) : Prop :=
  ∀ results, (wait results = none ↔ ∀ r ∈ results, r = none) ∧
    ∀ e, wait results = some e → some e ∈ results

/-- The call sites of `generateModule`. -/
inductive Site where
  | resolveInclude
  | removeAllOut
  | mkdirAll
  | protocTypes
  | tempDir
  | protocOpenAPI
  | staGenerate
  | templateJSClientWrite
  | templateVuexStoreWrite
  | tscGenerate
  | removeAllTemp
  deriving DecidableEq, Repr

/-- The call site of a call. -/
def ModuleEvent.site : ModuleEvent → Site
  | .resolveInclude _ => .resolveInclude
  | .removeAllOut _ => .removeAllOut
  | .mkdirAll _ _ => .mkdirAll
  | .protocTypes _ _ _ _ _ _ => .protocTypes
  | .tempDir _ _ => .tempDir
  | .protocOpenAPI _ _ _ _ _ => .protocOpenAPI
  | .staGenerate _ _ _ _ => .staGenerate
  | .templateJSClientWrite _ _ _ => .templateJSClientWrite
  | .templateVuexStoreWrite _ _ _ => .templateVuexStoreWrite
  | .tscGenerate _ _ => .tscGenerate
  | .removeAllTemp _ => .removeAllTemp

/-- The error a call site returns in a run (nil is `none`). -/
def ModuleRun.outcome (run : ModuleRun) : Site → Option GoError
  | .resolveInclude => match run.resolveInclude with | .error err => some err | .ok _ => none
  | .removeAllOut => run.removeAllOut
  | .mkdirAll => run.mkdirAll
  | .protocTypes => run.protocTypes
  | .tempDir => match run.tempDir with | .error err => some err | .ok _ => none
  | .protocOpenAPI => run.protocOpenAPI
  | .staGenerate => run.staGenerate
  | .templateJSClientWrite => run.templateJSClientWrite
  | .templateVuexStoreWrite => run.templateVuexStoreWrite
  | .tscGenerate => run.tscGenerate
  | .removeAllTemp => run.removeAllTemp

/-- The stages of a module task in the order the spec gives them: resolve the
include paths; recreate the output directory (remove, then create); compile
the typed bindings; compile the API description (into a fresh scratch
directory); convert it to the REST client; render the module wrapper; render
the store wrapper, with store generation only; batch-compile. -/
def stagePlan (store : Bool) : List Site :=
  [.resolveInclude, .removeAllOut, .mkdirAll, .protocTypes, .tempDir, .protocOpenAPI,
   .staGenerate, .templateJSClientWrite]
  ++ (if store then [.templateVuexStoreWrite] else []) ++ [.tscGenerate]

/-- The stage calls of a task: the call sites of its calls, the deferred
cleanup of the scratch directory left out. -/
def stageSites (calls : List ModuleEvent) : List Site :=
  (calls.map ModuleEvent.site).filter (fun s => s ≠ Site.removeAllTemp)

/-- A plan of calls, each with the error it returns, executed in order up to
and including the first call that fails: the error returned and the calls
made. -/
def runPlan : List (Site × Option GoError) → Option GoError × List Site
  | [] => (none, [])
  | (s, some err) :: _ => (some err, [s])
  | (s, none) :: plan => ((runPlan plan).1, s :: (runPlan plan).2)

/-- The errors returned by the tasks of one source path: by its discovery and,
when that succeeds, by each module task. -/
def sourceTaskResults (lib : PathLib) (g : jsGenerator) (jsOut : Module → String)
    (run : SourceRun) (sourcePath : String) : List (Option GoError) :=
  match run.discoverModules with
  | .error err => [some err]
  | .ok modules =>
    none :: (moduleTasks lib g jsOut run.modules sourcePath 0 modules).map Prod.fst

/-- The errors returned by the discovery and module tasks of all source paths. -/
def allTaskResults (lib : PathLib) (g : jsGenerator) (jsOut : Module → String) (run : JSRun) :
    Nat → List String → List (Option GoError)
  | _, [] => []
  | i, sourcePath :: sourcePaths =>
    sourceTaskResults lib g jsOut (run.source i) sourcePath
      ++ allTaskResults lib g jsOut run (i + 1) sourcePaths

/-- The calls of the root loader generator. -/
def JSEvent.isLoader : JSEvent → Bool
  | .glob _ => true
  | .templateVuexRootWrite _ _ _ => true
  | .tscGenerate _ _ => true
  | _ => false

/-- The task that failed first is the first one started. -/
def waitFirstStarted (results : List (Option GoError)) : Option GoError :=
  results.findSome? id

/-- The task that failed first is the last one started. -/
def waitLastStarted (results : List (Option GoError)) : Option GoError :=
  results.reverse.findSome? id

/-! ## Sample inputs -/

/-- Scenario A of the spec: package `a.b.mymodule` of the project with three
messages and no service. -/
def pkgMymodule : Package :=
  { Name := "a.b.mymodule"
    Path := "proto/mymodule"
    GoImportName := "github.com/acme/chain/x/mymodule/types"
    Messages := [{ Name := "MsgCreateX", Path := "proto/mymodule/tx.proto" },
                 { Name := "GenesisState", Path := "proto/mymodule/genesis.proto" },
                 { Name := "XStored", Path := "proto/mymodule/x.proto" }] }

/-- A package of a dependency, outside the project's base import path. -/
def pkgBank : Package :=
  { Name := "cosmos.bank.v1beta1"
    Path := "proto/cosmos/bank"
    GoImportName := "github.com/cosmos/cosmos-sdk/x/bank/types"
    Messages := [{ Name := "MsgSend", Path := "proto/cosmos/bank/tx.proto" }] }

/-- A package of the project with a `Msg` service, whose method collides with
the message `MsgCreatePost`, and a `Query` service, whose method does not. -/
def pkgBlog : Package :=
  { Name := "acme.chain.blog"
    Path := "proto/blog"
    GoImportName := "github.com/acme/chain/x/blog/types"
    Messages := [{ Name := "MsgCreatePost", Path := "proto/blog/tx.proto" },
                 { Name := "MsgCreatePostResponse", Path := "proto/blog/tx.proto" },
                 { Name := "GenesisState", Path := "proto/blog/genesis.proto" },
                 { Name := "Post", Path := "proto/blog/post.proto" },
                 { Name := "QueryGetPostRequest", Path := "proto/blog/query.proto" },
                 { Name := "QueryGetPostResponse", Path := "proto/blog/query.proto" }]
    Services := [{ Name := "Msg"
                   RPCFuncs := [{ Name := "CreatePost", RequestType := "MsgCreatePost",
                                  ReturnsType := "MsgCreatePostResponse" }] },
                 { Name := "Query"
                   RPCFuncs := [{ Name := "Post", RequestType := "QueryGetPostRequest",
                                  ReturnsType := "QueryGetPostResponse",
                                  HTTPAnnotations := { raw := ["/acme/chain/blog/post/{id}"] } }] }] }

/-- Scenario B of the spec: service `Query` with the RPC method `Balance`, and
no message named `QueryBalance`. -/
def pkgBalance : Package :=
  { Name := "acme.chain.bank"
    Path := "proto/bank"
    GoImportName := "github.com/acme/chain/x/bank/types"
    Messages := [{ Name := "QueryBalanceRequest", Path := "proto/bank/query.proto" },
                 { Name := "QueryBalanceResponse", Path := "proto/bank/query.proto" }]
    Services := [{ Name := "Query"
                   RPCFuncs := [{ Name := "Balance", RequestType := "QueryBalanceRequest",
                                  ReturnsType := "QueryBalanceResponse",
                                  HTTPAnnotations := { raw := ["/acme/chain/bank/balance"] } }] }] }

/-- Scenario C of the spec: as scenario B, with a message literally named
`QueryBalance`. -/
def pkgBalanceTaken : Package :=
  { pkgBalance with
    Messages := { Name := "QueryBalance", Path := "proto/bank/bank.proto" } :: pkgBalance.Messages }

/-- The receiver `Discover` builds for the sample project rooted at `/src`. -/
def sampleDiscoverer : moduleDiscoverer :=
  { sourcePath := "/src", basegopath := "github.com/acme/chain" }

/-- A project like `blogEnv` whose inspector reports "module not found" for
every directory. -/
def notFoundEnv : Env :=
  { parseAt := fun _ => .ok "github.com/acme/chain"
    discoverPackages := fun _ => .ok [pkgBlog]
    discoverMessages := fun _ => .error GoError.errModuleNotFound
    goImportPath := fun pkg => pkg.GoImportName
    join := fun dir rel => dir ++ rel }

/-- A project whose index lists `pkgBlog` and whose inspector finds the
implementations `MsgCreatePost` and `MsgInternal`, the second without a schema
message. -/
def blogEnv : Env :=
  { parseAt := fun _ => .ok "github.com/acme/chain"
    discoverPackages := fun _ => .ok [pkgBlog]
    discoverMessages := fun _ => .ok ["MsgCreatePost", "MsgInternal"]
    goImportPath := fun pkg => pkg.GoImportName
    join := fun dir rel => dir ++ rel }

/-- A project whose index lists the bank package of a dependency and the three
project packages `pkgMymodule`, `pkgBlog`, `pkgBalance`, and whose inspector
finds `MsgCreateX` in the first, fails with a parse error in the second and
would fail with another error in the third. -/
def fatalEnv : Env :=
  { parseAt := fun _ => .ok "github.com/acme/chain"
    discoverPackages := fun _ => .ok [pkgBank, pkgMymodule, pkgBlog, pkgBalance]
    discoverMessages := fun dir =>
      if dir = "/src/x/mymodule/types" then .ok ["MsgCreateX"]
      else if dir = "/src/x/blog/types" then .error (GoError.other "parse error")
      else .error (GoError.other "permission denied")
    goImportPath := fun pkg => pkg.GoImportName
    join := fun dir rel => dir ++ rel }

/-- The sample project seen through another filesystem layout: paths are joined
with a separator and the inspector answers only for the directory of
`pkgMymodule`. -/
def relocatedEnv : Env :=
  { parseAt := fun _ => .ok "github.com/acme/chain"
    discoverPackages := fun _ => .ok [pkgBank, pkgMymodule]
    discoverMessages := fun dir =>
      if dir = "/src//x/mymodule/types" then .ok ["MsgCreateX"]
      else .error (GoError.other "no such directory")
    goImportPath := fun pkg => pkg.GoImportName
    join := fun dir rel => dir ++ "/" ++ rel }

/-- A project whose manifest names `github.com/acme/chain`, whose index lists
the two sample packages and whose inspector finds `MsgCreateX` everywhere. -/
def sampleEnv : Env :=
  { parseAt := fun _ => .ok "github.com/acme/chain"
    discoverPackages := fun _ => .ok [pkgBank, pkgMymodule]
    discoverMessages := fun _ => .ok ["MsgCreateX"]
    goImportPath := fun pkg => pkg.GoImportName
    join := fun dir rel => dir ++ rel }

/-- The module of the package `a.b.mymodule` when the inspector names
`MsgCreateX`. -/
def mymoduleDiscovered : Module :=
  { Name := "mymodule", Pkg := pkgMymodule
    Msgs := [{ Name := "MsgCreateX", URI := "a.b.mymodule.MsgCreateX",
               FilePath := "proto/mymodule/tx.proto" }]
    Queries := []
    Types := [{ Name := "XStored", FilePath := "proto/mymodule/x.proto" }] }

/-- A project without a readable dependency manifest. -/
def noManifestEnv : Env :=
  { sampleEnv with parseAt := fun _ => .error (GoError.other "go.mod not found") }

/-- A project whose schema packages cannot be enumerated. -/
def noIndexEnv : Env :=
  { sampleEnv with discoverPackages := fun _ => .error (GoError.other "proto dir unreadable") }

/-- Paths with `/`: joining drops an empty element and puts one `/` between
the two others, none when the second element brings its own; the directory is
what precedes the last `/`, the base what follows it; names are left as they
are by the camel-case conversion. -/
def sampleLib : PathLib :=
  { join := fun dir elem =>
      if dir = "" then elem
      else if elem = "" then dir
      else if HasPrefix elem "/" then dir ++ elem
      else dir ++ "/" ++ elem
    dir := fun path => String.mk ((path.data.reverse.dropWhile (fun c => c ≠ '/')).drop 1).reverse
    base := fun path => String.mk (path.data.reverse.takeWhile (fun c => c ≠ '/')).reverse
    rel := fun root path =>
      if HasPrefix path (root ++ "/") then .ok (TrimPrefix path (root ++ "/"))
      else .error (GoError.other "Rel: can't make relative")
    toCamel := fun name => name }

/-- An output hook: one directory per module under the web app. -/
def sampleJsOut (m : Module) : String :=
  "/app/vue/src/store/generated/" ++ m.Name ++ "/module"

/-- The module of the blog package and the module of the bank package. -/
def sampleModules : List Module :=
  [{ Name := "blog", Pkg := pkgBlog }, { Name := "bank", Pkg := pkgBalance }]

/-- The module of the blog package. -/
def blogModule : Module :=
  { Name := "blog", Pkg := pkgBlog }

/-- A module task in which every call succeeds. -/
def okModuleRun : ModuleRun :=
  { resolveInclude := .ok ["/app/proto"], tempDir := .ok "/tmp/oai" }

/-- A module task whose REST client conversion fails and whose later calls
would fail too. -/
def staFailsRun : ModuleRun :=
  { okModuleRun with
    staGenerate := some (GoError.other "sta: exit status 1")
    tscGenerate := some (GoError.other "tsc: exit status 2") }

/-- A module task whose compile of the typed bindings fails. -/
def protocFailsRun : ModuleRun :=
  { okModuleRun with protocTypes := some (GoError.other "protoc: exit status 1") }

/-- A JS generator of an app with store generation into `/app/vue/src/store`. -/
def sampleJsGenerator : jsGenerator :=
  { g := { appPath := "/app", protoDir := "proto"
           o := { jsOut := some sampleJsOut, vuexStoreRootPath := "/app/vue/src/store" } }
    tsprotoPluginPath := "/tmp/protoc-gen-ts_proto" }

/-- The same JS generator without store generation. -/
def plainJsGenerator : jsGenerator :=
  { g := { appPath := "/app", protoDir := "proto", o := { jsOut := some sampleJsOut } }
    tsprotoPluginPath := "/tmp/protoc-gen-ts_proto" }

/-- A run of the JS generation in which the app has the two sample modules and
every call succeeds. -/
def okJsRun : JSRun :=
  { binaryPath := .ok "/tmp/protoc-gen-ts_proto"
    locatePath := fun dep => .ok ("/go/pkg/mod/" ++ dep.Path)
    source := fun _ => { discoverModules := .ok sampleModules, modules := fun _ => okModuleRun }
    waitSources := waitFirstStarted
    waitModules := fun _ => waitFirstStarted }

/-- A run of the JS generation in which the task of the first module fails at
the REST client and the task of the second at the typed bindings, the second
failing first in time. -/
def failingJsRun : JSRun :=
  { okJsRun with
    source := fun _ =>
      { discoverModules := .ok sampleModules
        modules := fun j => if j = 0 then staFailsRun else protocFailsRun }
    waitModules := fun _ => waitLastStarted }

/-- A run of the JS generation in which a dependency cannot be located. -/
def unlocatedJsRun : JSRun :=
  { okJsRun with locatePath := fun _ => .error (GoError.other "module not in cache") }

/-- A JS generator that includes third-party modules, with one dependency. -/
def thirdPartyJsGenerator : jsGenerator :=
  { g := { appPath := "/app", protoDir := "proto"
           o := { jsOut := some sampleJsOut, jsIncludeThirdParty := true }
           deps := [{ Path := "github.com/cosmos/cosmos-sdk", Version := "v0.42.1" }] }
    tsprotoPluginPath := "/tmp/protoc-gen-ts_proto" }

/-- A run of `Generate` in which every call succeeds. -/
def okGenRun : GenRun :=
  { setup := .ok [{ Path := "github.com/cosmos/cosmos-sdk", Version := "v0.42.1" }]
    js := okJsRun }

/-- A run of `Generate` in which Go generation fails. -/
def goFailsGenRun : GenRun :=
  { okGenRun with generateGo := some (GoError.other "protoc-gen-gocosmos: exit status 1") }

/-- A run of `Generate` in which the setup fails. -/
def setupFailsGenRun : GenRun :=
  { okGenRun with setup := .error (GoError.other "go.mod: no such file") }

/-- Options that enable Go generation and JS generation. -/
def bothOptions : List GenOption :=
  [IncludeDirs ["third_party/proto"], WithGoGeneration "github.com/acme/chain",
   WithJSGeneration false (some sampleJsOut)]

/-- Options that enable JS generation only. -/
def jsOnlyOptions : List GenOption :=
  [IncludeDirs ["third_party/proto"], WithJSGeneration false (some sampleJsOut)]

/-- Options that enable neither Go generation nor JS generation. -/
def neitherOptions : List GenOption :=
  [IncludeDirs ["third_party/proto"]]

/-! ## Vocabulary and samples for the written paths, the configuration, the faucet,
the proto paths and the genesis placeholders -/

/-- The filesystem paths a call of a module task deletes, creates or writes:
the directory removed, the directory created, the output directory of a
compile, the file or directory a generator or template writes to. The batch
compile writes next to the sources its patterns select; the patterns stand for
those paths. Resolving the include paths writes nothing, and the name of the
fresh scratch directory is known only from the calls that use it. -/
def ModuleEvent.writes : ModuleEvent → List String
  | .resolveInclude _ => []
  | .removeAllOut path => [path]
  | .mkdirAll path _ => [path]
  | .protocTypes _ out _ _ _ _ => [out]
  | .tempDir _ _ => []
  | .protocOpenAPI _ out _ _ _ => [out]
  | .staGenerate _ outPath _ _ => [outPath]
  | .templateJSClientWrite dst _ _ => [dst]
  | .templateVuexStoreWrite dst _ _ => [dst]
  | .tscGenerate _ config => config.Include
  | .removeAllTemp path => [path]

/-- A path lies inside a directory when it is the directory or is reached from
it by joining elements. -/
inductive Within (lib : PathLib) (root : String) : String → Prop where
  | self : Within lib root root
  | join (path elem : String) : Within lib root path → Within lib root (lib.join path elem)

/-- An output hook that places the modules side by side in one directory. -/
def flatJsOut (m : Module) : String :=
  "/app/vue/src/generated/" ++ m.Name

/-- The module of the bank package. -/
def bankModule : Module :=
  { Name := "bank", Pkg := pkgBalance }

/-- Camel case for names made of words joined by `_`: the first letter of each
word in upper case, the `_` dropped. -/
def camelChars : Bool → List Char → List Char
  | _, [] => []
  | up, c :: cs =>
    if c = '_' then camelChars true cs
    else (if up then c.toUpper else c) :: camelChars false cs

/-- The sample path library with that camel-case conversion. -/
def camelLib : PathLib :=
  { sampleLib with toCamel := fun name => String.mk (camelChars true name.data) }

/-- A run of the root loader generator that finds the markers of two stores. -/
def markersLoaderRun : LoaderRun :=
  { glob := .ok ["/app/vue/src/store/generated/acme/blog/vuex-root",
                 "/app/vue/src/store/generated/cosmos/bank/vuex-root"] }

/-- A JS generator with store generation whose modules are placed side by
side. -/
def flatJsGenerator : jsGenerator :=
  { g := { appPath := "/app", protoDir := "proto"
           o := { jsOut := some flatJsOut, vuexStoreRootPath := "/app/vue/src/generated" } }
    tsprotoPluginPath := "/tmp/protoc-gen-ts_proto" }

/-- The number of positions of a text at which `substr` occurs. -/
def occurrences (substr : List Char) : List Char → Nat
  | [] => 0
  | c :: cs => (if substr.isPrefixOf (c :: cs) then 1 else 0) + occurrences substr cs

/-- The text starts with two slashes. -/
def startsSlashes : List Char → Bool
  | '/' :: '/' :: _ => true
  | _ => false

/-- No slash of the text is followed by a slash or ends the text. -/
def quiet : List Char → Bool
  | [] => true
  | [c] => c != '/'
  | c :: d :: cs => !(c == '/' && d == '/') && quiet (d :: cs)

/-- The field numbers given by `genesisProtoModify` applied in a row for each
of the options, every run finding the content that the run before wrote, and
the last content. -/
def typed.genesisProtoModifyAll (Title : String → String) :
    List typed.Options → String → List Nat × String
  | [], f => ([], f)
  | opts :: rest, f =>
    ((typed.genesisProtoContent Title opts f).1
        :: (typed.genesisProtoModifyAll Title rest (typed.genesisProtoContent Title opts f).2).1,
      (typed.genesisProtoModifyAll Title rest (typed.genesisProtoContent Title opts f).2).2)

/-- The first letter of the text in upper case, for `strings.Title` on a
one-word name. -/
def sampleTitle (s : String) : String :=
  match s.data with
  | [] => ""
  | c :: cs => String.mk (c.toUpper :: cs)

/-- A fresh `genesis.proto`: the import placeholder and the state placeholder,
no field yet. -/
def freshGenesisProto : String :=
  "package acme.blog;\n"
    ++ "// this line is used by starport scaffolding # genesis/proto/import\n"
    ++ "message GenesisState \x7b\n"
    ++ "    // this line is used by starport scaffolding # genesis/proto/state\n"
    ++ "\x7d\n"

/-- Options for the type `post` of the module `blog`. -/
def postOptions : typed.Options := { ModuleName := "blog", TypeName := "post" }

/-- Options for the type `comment` of the module `blog`. -/
def commentOptions : typed.Options := { ModuleName := "blog", TypeName := "comment" }

/-- Options whose type name is the text of the field placeholder. -/
def placeholderNameOptions : typed.Options :=
  { ModuleName := "blog", TypeName := typed.PlaceholderGenesisProtoStateField }

/-- The module name, the type name and its title form hold no slash. -/
def typed.NamesWithoutSlash (Title : String → String) (opts : typed.Options) : Prop :=
  '/' ∉ opts.ModuleName.data ∧ '/' ∉ opts.TypeName.data ∧ '/' ∉ (Title opts.TypeName).data

/-! ### Sample configurations, chains and proto modules -/

/-- The accounts of the configuration tests. -/
def testAccounts : List conf.Account :=
  [{ Name := "me", Coins := ["1000token", "100000000stake"] },
   { Name := "you", Coins := ["5000token"] }]

/-- The configuration of `TestParseInvalid` as decoded: accounts, no
validator. -/
def invalidConfig : conf.Config := { Accounts := testAccounts }

/-- The configuration of `TestParse` as decoded. -/
def validConfig : conf.Config :=
  { Accounts := testAccounts, Validator := { Name := "user1", Staked := "100000000stake" } }

/-- A merge that fills the empty `Host`, `Build` and `Faucet.Host` fields of
the first config from the second. -/
def sampleMerge (dst src : conf.Config) : Except GoError conf.Config :=
  .ok { dst with
        Host := if dst.Host = {} then src.Host else dst.Host
        Build := if dst.Build = {} then src.Build else dst.Build
        Faucet := { dst.Faucet with
                    Host := if dst.Faucet.Host = "" then src.Faucet.Host else dst.Faucet.Host } }

/-- The configuration `TestParseInvalid` gets: `invalidConfig` with the
defaults. -/
def invalidMerged : conf.Config :=
  { invalidConfig with Host := conf.DefaultConf.Host, Build := conf.DefaultConf.Build
                       Faucet := { Host := ":4500" } }

/-- The configuration `TestParse` gets: `validConfig` with the defaults. -/
def validMerged : conf.Config :=
  { validConfig with Host := conf.DefaultConf.Host, Build := conf.DefaultConf.Build
                     Faucet := { Host := ":4500" } }

/-- A configuration environment with three files: one decoding to
`invalidConfig`, one to `validConfig`, one that is not YAML; every other path
cannot be opened. -/
def sampleConfEnv : conf.Env :=
  { decode := fun r =>
      if r = "accounts: [me, you]" then (invalidConfig, none)
      else if r = "accounts: [me, you]\nvalidator: user1" then (validConfig, none)
      else ({}, some (GoError.other "yaml: unmarshal errors"))
    merge := sampleMerge
    openFile := fun path =>
      if path = "/app/config.yml" then .ok "accounts: [me, you]\nvalidator: user1"
      else if path = "/app/invalid.yml" then .ok "accounts: [me, you]"
      else .error (GoError.other "open: no such file or directory") }

/-- A proto path environment: two global include paths, versions matched by
path, every version but `github.com/broken/dep` located under `/go/pkg/mod`. -/
def sampleProtoEnv : protopath.Env :=
  { globalInclude := ["/home/me/local/include", "/home/me/.local/include"]
    filterVersions := fun versions importPaths =>
      versions.filter (fun v => importPaths.contains v.Path)
    locatePath := fun v =>
      if v.Path = "github.com/broken/dep" then .error (GoError.other "module not found")
      else .ok ("/go/pkg/mod/" ++ v.Path ++ "@" ++ v.Version)
    join := fun path elem => path ++ "/" ++ elem }

/-- The versions required by a sample application. -/
def sampleVersions : List Version :=
  [{ Path := "github.com/cosmos/cosmos-sdk", Version := "v0.42.4" },
   { Path := "github.com/tendermint/tendermint", Version := "v0.34.9" },
   { Path := "github.com/broken/dep", Version := "v1.0.0" }]

/-- The proto module of the SDK, with two include paths. -/
def sdkProtoModule : protopath.Module :=
  protopath.NewModule "github.com/cosmos/cosmos-sdk" ["proto", "third_party/proto"]

/-- A proto module the sample application does not require. -/
def absentProtoModule : protopath.Module :=
  protopath.NewModule "github.com/absent/dep" ["proto"]

/-- The decimal digits at the head of a text, as a number. -/
def leadingAmount (cs : List Char) : Nat :=
  (cs.takeWhile Char.isDigit).foldl (fun n ch => 10 * n + (ch.toNat - 48)) 0

/-- A coin parser: the leading digits are the amount, the rest is the denom;
a text without leading digit or without denom is refused. -/
def sampleParseCoin (coin : String) : Except GoError (Nat × String) :=
  if coin.data.takeWhile Char.isDigit = [] ∨ coin.data.dropWhile Char.isDigit = [] then
    .error (GoError.other "invalid coin")
  else .ok (leadingAmount coin.data, String.mk (coin.data.dropWhile Char.isDigit))

/-- A chain whose faucet gives `5token` and `100stake`, with the given list of
max amounts; the faucet built is kept as its options. -/
def sampleChain (coinsMax : List String) : chain.Chain (List chain.FaucetOption) :=
  { ID := .ok "mars"
    Config := .ok { Accounts := testAccounts
                    Faucet := { Name := some "me", Coins := ["5token", "100stake"]
                                CoinsMax := coinsMax }
                    Host := { API := ":1317" } }
    Commands := none
    ShowAccount := fun _ => none
    ErrAccountDoesNotExist := GoError.other "account does not exist"
    envAPIAddress := ""
    HTTP := fun address => "http://" ++ address
    Parse := sampleParseCoin
    New := fun options => .ok options }

/-! ## The loops in closed form -/

/-- A loop that appends a block per element builds the blocks in order. -/
theorem foldl_append_flatMap {α β : Type} (f : α → List β) (xs : List α) (init : List β) :
    xs.foldl (fun acc x => acc ++ f x) init = init ++ xs.flatMap f := by
  induction xs generalizing init with
  | nil => simp
  | cons x xs ih => simp [List.foldl_cons, ih, List.flatMap_cons, List.append_assoc]

/-- A block of at most one element per input is a filter. -/
theorem flatMap_ite_singleton {α : Type} (p : α → Bool) (xs : List α) :
    xs.flatMap (fun x => if p x then [x] else []) = xs.filter p := by
  induction xs with
  | nil => rfl
  | cons x xs ih =>
    cases h : p x <;> simp [List.flatMap_cons, List.filter_cons, h, ih]

/-- A block of at most one element per input is a `filterMap`. -/
theorem flatMap_option_toList {α β : Type} (f : α → Option β) (xs : List α) :
    xs.flatMap (fun x => (f x).toList) = xs.filterMap f := by
  induction xs with
  | nil => rfl
  | cons x xs ih =>
    cases h : f x <;> simp [List.flatMap_cons, List.filterMap_cons, h, ih]

/-- `findModuleProtoPkgs` keeps, in order, the packages passing `HasPrefix`. -/
theorem filterModuleProtoPkgs_eq (basegopath : String) (allprotopkgs : List Package) :
    filterModuleProtoPkgs basegopath allprotopkgs
      = allprotopkgs.filter (fun pkg => HasPrefix pkg.GoImportName basegopath) := by
  have hstep : (fun (xprotopkgs : List Package) (pkg : Package) =>
        if !HasPrefix pkg.GoImportName basegopath then xprotopkgs else xprotopkgs ++ [pkg])
      = (fun xprotopkgs pkg =>
        xprotopkgs ++ (if HasPrefix pkg.GoImportName basegopath then [pkg] else [])) := by
    funext acc pkg
    cases HasPrefix pkg.GoImportName basegopath <;> simp
  unfold filterModuleProtoPkgs
  rw [hstep, foldl_append_flatMap, flatMap_ite_singleton]
  simp

/-- `HasPrefix s pre` holds exactly when `s` is `pre` followed by something. -/
theorem HasPrefix_iff (s pre : String) :
    HasPrefix s pre = true ↔ ∃ rest : String, s = pre ++ rest := by
  unfold HasPrefix
  rw [List.isPrefixOf_iff_prefix]
  constructor
  · rintro ⟨t, ht⟩
    exact ⟨String.mk t, String.ext (by simp [String.data_append, ht])⟩
  · rintro ⟨rest, rfl⟩
    exact ⟨rest.data, by simp [String.data_append]⟩

/-- The loop of `Discover` returns the modules received followed by one module
per package, in order, each the result of `discover` on that package. -/
theorem discoverEach_ok (env : Env) (md : moduleDiscoverer) (pkgs : List Package)
    (acc mods : List Module) (h : discoverEach env md pkgs acc = .ok mods) :
    ∃ news, mods = acc ++ news ∧
      List.Forall₂ (fun pkg m => discover env md pkg = .ok m) pkgs news := by
  induction pkgs generalizing acc with
  | nil =>
    simp only [discoverEach, Except.ok.injEq] at h
    exact ⟨[], by simp [h], List.Forall₂.nil⟩
  | cons pkg pkgs ih =>
    simp only [discoverEach] at h
    cases hd : discover env md pkg with
    | error e => simp [hd] at h
    | ok m =>
      simp only [hd] at h
      obtain ⟨news, hnews, hall⟩ := ih _ h
      exact ⟨m :: news, by simp [hnews], List.Forall₂.cons hd hall⟩

/-- `Split` never yields an empty slice. -/
theorem splitChars_ne_nil (sep : Char) (cs : List Char) : splitChars sep cs ≠ [] := by
  cases cs with
  | nil => simp [splitChars]
  | cons c cs =>
    unfold splitChars
    split
    · simp
    · split <;> simp

/-- The last piece of a split holds no separator and is what follows the last
separator, or everything when there is none. -/
theorem splitChars_getLast (sep : Char) (cs : List Char) :
    ∃ seg, (splitChars sep cs).getLast? = some seg ∧ sep ∉ seg ∧
      ((cs = seg ∧ splitChars sep cs = [seg]) ∨
        ((∃ pre, cs = pre ++ sep :: seg) ∧ 2 ≤ (splitChars sep cs).length)) := by
  induction cs with
  | nil => exact ⟨[], by simp [splitChars], by simp, Or.inl ⟨rfl, rfl⟩⟩
  | cons c cs ih =>
    obtain ⟨seg, hlast, hsep, hshape⟩ := ih
    by_cases hc : c = sep
    · refine ⟨seg, ?_, hsep, Or.inr ⟨?_, ?_⟩⟩
      · cases hsplit : splitChars sep cs with
        | nil => exact absurd hsplit (splitChars_ne_nil sep cs)
        | cons first others =>
          rw [hsplit] at hlast
          simpa [splitChars, hc, hsplit, List.getLast?_cons_cons] using hlast
      · rcases hshape with ⟨h, _⟩ | ⟨⟨pre, h⟩, _⟩
        · exact ⟨[], by simp [hc, h]⟩
        · exact ⟨c :: pre, by simp [h]⟩
      · have hpos : 1 ≤ (splitChars sep cs).length :=
          List.length_pos.mpr (splitChars_ne_nil sep cs)
        simp only [splitChars, hc, if_true, List.length_cons]
        omega
    · cases hsplit : splitChars sep cs with
      | nil => exact absurd hsplit (splitChars_ne_nil sep cs)
      | cons first others =>
        rw [hsplit] at hlast hshape
        cases others with
        | nil =>
          simp only [List.getLast?_singleton, Option.some.injEq] at hlast
          subst hlast
          rcases hshape with ⟨h, _⟩ | ⟨_, hlen⟩
          · refine ⟨c :: first, by simp [splitChars, hc, hsplit], ?_, Or.inl ⟨by rw [h], ?_⟩⟩
            · simp only [List.mem_cons, not_or]
              exact ⟨fun h => hc h.symm, hsep⟩
            · simp [splitChars, hc, hsplit]
          · simp at hlen
        | cons second others =>
          rcases hshape with ⟨_, h⟩ | ⟨⟨pre, h⟩, _⟩
          · simp at h
          · refine ⟨seg, ?_, hsep, Or.inr ⟨⟨c :: pre, by simp [h]⟩, ?_⟩⟩
            · simpa [splitChars, hc, hsplit, List.getLast?_cons_cons] using hlast
            · simp [splitChars, hc, hsplit]

/-- The Msgs loop yields, in the inspector's order, one record per name that
has a schema message. -/
theorem fillMsgs_eq (pkg : Package) (msgs : List String) :
    fillMsgs pkg msgs = msgs.filterMap (msgRecord pkg) := by
  have hstep : (fun (acc : List Msg) (msg : String) =>
        match pkg.MessageByName msg with
        | none => acc
        | some pkgmsg =>
          acc ++ [{ Name := msg, URI := pkg.Name ++ "." ++ msg, FilePath := pkgmsg.Path }])
      = (fun acc msg => acc ++ (msgRecord pkg msg).toList) := by
    funext acc msg
    unfold msgRecord
    cases pkg.MessageByName msg <;> simp
  unfold fillMsgs
  rw [hstep, foldl_append_flatMap, flatMap_option_toList]
  simp

/-- The Types loop yields, in the package's order, one record per schema
message accepted by `isType`. -/
theorem fillTypes_eq (pkg : Package) (msgs : List String) :
    fillTypes pkg msgs
      = (pkg.Messages.filter (isType pkg msgs)).map
          (fun protomsg => { Name := protomsg.Name, FilePath := protomsg.Path }) := by
  have hstep : (fun (acc : List ModuleType) (protomsg : Message) =>
        if !isType pkg msgs protomsg then acc
        else acc ++ [{ Name := protomsg.Name, FilePath := protomsg.Path }])
      = (fun acc protomsg =>
        acc ++ (if isType pkg msgs protomsg
          then [({ Name := protomsg.Name, FilePath := protomsg.Path } : ModuleType)] else [])) := by
    funext acc protomsg
    cases isType pkg msgs protomsg <;> simp
  unfold fillTypes
  rw [hstep, foldl_append_flatMap]
  simp only [List.nil_append]
  induction pkg.Messages with
  | nil => rfl
  | cons x xs ih =>
    cases h : isType pkg msgs x <;> simp [List.flatMap_cons, List.filter_cons, h, ih]

/-- The Queries loops yield, service by service and method by method, the
records of `queryRecords`. -/
theorem fillQueries_eq (pkg : Package) :
    fillQueries pkg
      = pkg.Services.flatMap (fun s => s.RPCFuncs.flatMap (fun q => queryRecords pkg s q)) := by
  have hinner : ∀ (s : Service) (acc : List Query),
      s.RPCFuncs.foldl
        (fun acc q =>
          let fullName := s.Name ++ q.Name
          match pkg.MessageByName fullName with
          | some _ => acc
          | none =>
            acc ++ [{ Name := q.Name, FullName := fullName, HTTPAnnotations := q.HTTPAnnotations }])
        acc
      = acc ++ s.RPCFuncs.flatMap (fun q => queryRecords pkg s q) := by
    intro s acc
    rw [← foldl_append_flatMap]
    congr 1
    funext acc q
    unfold queryRecords
    cases hm : pkg.MessageByName (s.Name ++ q.Name) <;> simp [hm]
  unfold fillQueries
  simp only [hinner]
  rw [foldl_append_flatMap]
  simp

/-- What `isType` decides, condition by condition. -/
theorem isType_iff (pkg : Package) (msgs : List String) (protomsg : Message) :
    isType pkg msgs protomsg = true ↔
      protomsg.Name ≠ "GenesisState" ∧ protomsg.Name ∉ msgs ∧
      ∀ s ∈ pkg.Services, ∀ q ∈ s.RPCFuncs,
        q.RequestType ≠ protomsg.Name ∧ q.ReturnsType ≠ protomsg.Name := by
  unfold isType
  by_cases h1 : protomsg.Name = "GenesisState"
  · simp [h1]
  · by_cases h2 : protomsg.Name ∈ msgs
    · have : msgs.any (fun msg => msg == protomsg.Name) = true := by
        simp only [List.any_eq_true, beq_iff_eq]
        exact ⟨_, h2, rfl⟩
      simp [h1, h2, this]
    · have h2b : msgs.any (fun msg => msg == protomsg.Name) = false := by
        rw [Bool.eq_false_iff]
        simp only [ne_eq, List.any_eq_true, beq_iff_eq, not_exists, not_and]
        intro x hx hxe
        exact h2 (hxe ▸ hx)
      simp only [h1, if_false, h2b, Bool.false_eq_true, ne_eq, not_false_eq_true, h2, true_and]
      by_cases h3 : pkg.Services.any (fun s => s.RPCFuncs.any (fun q =>
          q.RequestType == protomsg.Name || q.ReturnsType == protomsg.Name)) = true
      · simp only [h3, if_true, Bool.false_eq_true, false_iff]
        simp only [List.any_eq_true, Bool.or_eq_true, beq_iff_eq] at h3
        obtain ⟨s, hs, q, hq, hor⟩ := h3
        intro hall
        rcases hor with h | h
        · exact (hall s hs q hq).1 h
        · exact (hall s hs q hq).2 h
      · simp only [h3, if_false, true_iff]
        simp only [List.any_eq_true, Bool.or_eq_true, beq_iff_eq, not_exists, not_and,
          not_or] at h3
        simp only [Bool.false_eq_true, if_false, true_iff]
        intro s hs q hq
        exact h3 s hs q hq

/-- With a name list from the inspector, `discover` returns the classified
module, named by the last piece of the package name. -/
theorem discover_of_msgs (env : Env) (d : moduleDiscoverer) (pkg : Package) (msgs : List String)
    (h : env.discoverMessages (pkgpath env d pkg) = .ok msgs) :
    ∃ name, (Split pkg.Name '.').getLast? = some name ∧
      discover env d pkg = .ok { Name := name, Pkg := pkg, Msgs := fillMsgs pkg msgs,
                                 Queries := fillQueries pkg, Types := fillTypes pkg msgs } := by
  have hne : Split pkg.Name '.' ≠ [] := by
    simp [Split, splitChars_ne_nil]
  obtain ⟨name, hname⟩ : ∃ name, (Split pkg.Name '.').getLast? = some name := by
    cases hs : Split pkg.Name '.' with
    | nil => exact absurd hs hne
    | cons x xs => exact ⟨_, List.getLast?_eq_getLast _ (by simp)⟩
  refine ⟨name, hname, ?_⟩
  have hget : (Split pkg.Name '.').get? ((Split pkg.Name '.').length - 1) = some name := by
    rw [List.get?_eq_getElem?, ← List.getLast?_eq_getElem?]
    exact hname
  simp only [discover, h, hget]

/-- With "module not found" from the inspector, `discover` returns the
zero-valued module and no error. -/
theorem discover_of_notFound (env : Env) (d : moduleDiscoverer) (pkg : Package)
    (h : env.discoverMessages (pkgpath env d pkg) = .error GoError.errModuleNotFound) :
    discover env d pkg = .ok {} := by
  simp [discover, h]

/-- A module returned by `discover` is the zero value (inspector: "module not
found") or the classified module (inspector: a name list). -/
theorem discover_ok_cases (env : Env) (d : moduleDiscoverer) (pkg : Package) (m : Module)
    (h : discover env d pkg = .ok m) :
    (env.discoverMessages (pkgpath env d pkg) = .error GoError.errModuleNotFound ∧ m = {}) ∨
    ∃ msgs name, env.discoverMessages (pkgpath env d pkg) = .ok msgs ∧
      (Split pkg.Name '.').getLast? = some name ∧
      m = { Name := name, Pkg := pkg, Msgs := fillMsgs pkg msgs,
            Queries := fillQueries pkg, Types := fillTypes pkg msgs } := by
  cases hin : env.discoverMessages (pkgpath env d pkg) with
  | error e =>
    by_cases he : e = GoError.errModuleNotFound
    · subst he
      rw [discover_of_notFound env d pkg hin] at h
      exact Or.inl ⟨rfl, (Except.ok.inj h).symm⟩
    · simp [discover, hin, he] at h
  | ok msgs =>
    obtain ⟨name, hname, hd⟩ := discover_of_msgs env d pkg msgs hin
    rw [hd] at h
    exact Or.inr ⟨msgs, name, rfl, hname, (Except.ok.inj h).symm⟩

/-- A message found by name belongs to the package and has that name. -/
theorem MessageByName_some (pkg : Package) (name : String) (pkgmsg : Message)
    (h : pkg.MessageByName name = some pkgmsg) :
    pkgmsg ∈ pkg.Messages ∧ pkgmsg.Name = name := by
  unfold Package.MessageByName at h
  exact ⟨List.mem_of_find?_eq_some h, by simpa using List.find?_some h⟩

/-- No message is found by name exactly when the package has none so named. -/
theorem MessageByName_none (pkg : Package) (name : String) :
    pkg.MessageByName name = none ↔ ∀ M ∈ pkg.Messages, M.Name ≠ name := by
  unfold Package.MessageByName
  simp [List.find?_eq_none]

/-- Every schema message of the package is found under its own name. -/
theorem MessageByName_of_mem (pkg : Package) (M : Message) (hM : M ∈ pkg.Messages) :
    ∃ pkgmsg, pkg.MessageByName M.Name = some pkgmsg := by
  cases h : pkg.MessageByName M.Name with
  | some pkgmsg => exact ⟨pkgmsg, rfl⟩
  | none => exact absurd rfl ((MessageByName_none pkg M.Name).mp h M hM)

/-- The records of the Msgs loop. -/
theorem mem_fillMsgs (pkg : Package) (msgs : List String) (x : Msg) :
    x ∈ fillMsgs pkg msgs ↔
      ∃ msg ∈ msgs, ∃ pkgmsg, pkg.MessageByName msg = some pkgmsg ∧
        x = { Name := msg, URI := pkg.Name ++ "." ++ msg, FilePath := pkgmsg.Path } := by
  rw [fillMsgs_eq, List.mem_filterMap]
  constructor
  · rintro ⟨msg, hmsg, hrec⟩
    unfold msgRecord at hrec
    cases hfind : pkg.MessageByName msg with
    | none => simp [hfind] at hrec
    | some pkgmsg =>
      simp only [hfind, Option.map_some', Option.some.injEq] at hrec
      exact ⟨msg, hmsg, pkgmsg, hfind, hrec.symm⟩
  · rintro ⟨msg, hmsg, pkgmsg, hfind, rfl⟩
    exact ⟨msg, hmsg, by simp [msgRecord, hfind]⟩

/-- `isType` looks at the name of the message only. -/
theorem isType_congr (pkg : Package) (msgs : List String) (M M' : Message)
    (h : M.Name = M'.Name) : isType pkg msgs M = isType pkg msgs M' := by
  unfold isType
  rw [h]

/-- The records of the Types loop. -/
theorem mem_fillTypes (pkg : Package) (msgs : List String) (t : ModuleType) :
    t ∈ fillTypes pkg msgs ↔
      ∃ M ∈ pkg.Messages, isType pkg msgs M = true ∧ t = { Name := M.Name, FilePath := M.Path } := by
  rw [fillTypes_eq, List.mem_map]
  constructor
  · rintro ⟨M, hM, rfl⟩
    rw [List.mem_filter] at hM
    exact ⟨M, hM.1, hM.2, rfl⟩
  · rintro ⟨M, hM, hty, rfl⟩
    exact ⟨M, List.mem_filter.mpr ⟨hM, hty⟩, rfl⟩

/-- The names of the Msgs records against the inspector's names: a schema
message has a Msg record exactly when the inspector lists its name. -/
theorem msgs_name_iff (pkg : Package) (msgs : List String) (M : Message)
    (hM : M ∈ pkg.Messages) :
    M.Name ∈ msgs ↔ ∃ x ∈ fillMsgs pkg msgs, x.Name = M.Name := by
  constructor
  · intro hin
    obtain ⟨pkgmsg, hfind⟩ := MessageByName_of_mem pkg M hM
    exact ⟨_, (mem_fillMsgs pkg msgs _).mpr ⟨M.Name, hin, pkgmsg, hfind, rfl⟩, rfl⟩
  · rintro ⟨x, hx, hname⟩
    obtain ⟨msg, hmsg, pkgmsg, _, rfl⟩ := (mem_fillMsgs pkg msgs x).mp hx
    exact hname ▸ hmsg

/-- A colliding name is one `MessageByName` finds. -/
theorem any_name_eq_isSome (pkg : Package) (name : String) :
    pkg.Messages.any (fun M => M.Name == name) = (pkg.MessageByName name).isSome := by
  rw [Bool.eq_iff_iff, List.any_eq_true]
  unfold Package.MessageByName
  rw [List.find?_isSome]

/-- Without a collision an RPC method yields its one Query record. -/
theorem queryRecords_of_free (pkg : Package) (s : Service) (q : RPCFunc)
    (h : ∀ M ∈ pkg.Messages, M.Name ≠ s.Name ++ q.Name) :
    queryRecords pkg s q = [queryOf s q] := by
  unfold queryRecords
  rw [(MessageByName_none pkg _).mpr h]
  rfl

/-- With a collision an RPC method yields no Query record. -/
theorem queryRecords_of_taken (pkg : Package) (s : Service) (q : RPCFunc)
    (h : ∃ M ∈ pkg.Messages, M.Name = s.Name ++ q.Name) :
    queryRecords pkg s q = [] := by
  obtain ⟨M, hM, hname⟩ := h
  obtain ⟨pkgmsg, hfind⟩ := MessageByName_of_mem pkg M hM
  unfold queryRecords
  rw [← hname, hfind]

/-- The records of the Queries loops. -/
theorem mem_fillQueries (pkg : Package) (r : Query) :
    r ∈ fillQueries pkg ↔
      ∃ s ∈ pkg.Services, ∃ q ∈ s.RPCFuncs,
        (∀ M ∈ pkg.Messages, M.Name ≠ s.Name ++ q.Name) ∧ r = queryOf s q := by
  rw [fillQueries_eq, List.mem_flatMap]
  constructor
  · rintro ⟨s, hs, hr⟩
    rw [List.mem_flatMap] at hr
    obtain ⟨q, hq, hr⟩ := hr
    by_cases hfree : ∀ M ∈ pkg.Messages, M.Name ≠ s.Name ++ q.Name
    · rw [queryRecords_of_free pkg s q hfree, List.mem_singleton] at hr
      exact ⟨s, hs, q, hq, hfree, hr⟩
    · have htaken : ∃ M ∈ pkg.Messages, M.Name = s.Name ++ q.Name := by
        simpa using hfree
      rw [queryRecords_of_taken pkg s q htaken] at hr
      simp at hr
  · rintro ⟨s, hs, q, hq, hfree, rfl⟩
    refine ⟨s, hs, List.mem_flatMap.mpr ⟨q, hq, ?_⟩⟩
    rw [queryRecords_of_free pkg s q hfree]
    exact List.mem_singleton.mpr rfl

/-- Within one service, every RPC method is emitted or collides. -/
theorem service_queries_length (pkg : Package) (s : Service) (qs : List RPCFunc) :
    (qs.flatMap (fun q => queryRecords pkg s q)).length
      + qs.countP (fun q => pkg.Messages.any (fun M => M.Name == s.Name ++ q.Name))
      = qs.length := by
  induction qs with
  | nil => rfl
  | cons q qs ih =>
    rw [List.flatMap_cons, List.length_append, List.countP_cons, List.length_cons,
      any_name_eq_isSome]
    cases hfind : pkg.MessageByName (s.Name ++ q.Name) with
    | none =>
      have : queryRecords pkg s q = [queryOf s q] := by
        unfold queryRecords
        rw [hfind]
        rfl
      simp only [this, List.length_singleton, Option.isSome_none, Bool.false_eq_true, if_false]
      omega
    | some pkgmsg =>
      have : queryRecords pkg s q = [] := by
        unfold queryRecords
        rw [hfind]
      simp only [this, List.length_nil, Option.isSome_some, if_true]
      omega

/-- Across the services, emitted Queries and collisions add up to all RPC
methods. -/
theorem fillQueries_length (pkg : Package) :
    (fillQueries pkg).length + rpcCollisions pkg = rpcTotal pkg := by
  rw [fillQueries_eq]
  unfold rpcCollisions rpcTotal
  induction pkg.Services with
  | nil => rfl
  | cons s ss ih =>
    have hs := service_queries_length pkg s s.RPCFuncs
    simp only [List.flatMap_cons, List.length_append, List.map_cons, List.sum_cons]
    omega

/-- Occurrences of a record whose full name collides with no message: as many
among the emitted Queries as among the RPC methods of the package. -/
theorem fillQueries_count (pkg : Package) (r : Query)
    (hfree : ∀ M ∈ pkg.Messages, M.Name ≠ r.FullName) :
    (fillQueries pkg).count r
      = (pkg.Services.flatMap (fun s => s.RPCFuncs.map (fun q => queryOf s q))).count r := by
  have hinner : ∀ (s : Service) (qs : List RPCFunc),
      (qs.flatMap (fun q => queryRecords pkg s q)).count r
        = (qs.map (fun q => queryOf s q)).count r := by
    intro s qs
    induction qs with
    | nil => rfl
    | cons q qs ih =>
      rw [List.flatMap_cons, List.count_append, List.map_cons, List.count_cons, ih]
      by_cases hq : ∀ M ∈ pkg.Messages, M.Name ≠ s.Name ++ q.Name
      · rw [queryRecords_of_free pkg s q hq, List.count_singleton]
        omega
      · have htaken : ∃ M ∈ pkg.Messages, M.Name = s.Name ++ q.Name := by
          simpa using hq
        have hne : ¬ (queryOf s q == r) = true := by
          rw [beq_iff_eq]
          intro heq
          obtain ⟨M, hM, hname⟩ := htaken
          exact hfree M hM (by rw [← heq]; exact hname)
        rw [queryRecords_of_taken pkg s q htaken]
        simp [hne]
  rw [fillQueries_eq]
  induction pkg.Services with
  | nil => rfl
  | cons s ss ih =>
    simp only [List.flatMap_cons, List.count_append, hinner, ih]

/-- The names of the Msgs records, in order: the inspector names that are
names of schema messages of the package. -/
theorem fillMsgs_names (pkg : Package) (msgs : List String) :
    (fillMsgs pkg msgs).map (fun r => r.Name)
      = msgs.filter (fun n => pkg.Messages.any (fun M => M.Name == n)) := by
  rw [fillMsgs_eq]
  induction msgs with
  | nil => rfl
  | cons n ns ih =>
    rw [List.filterMap_cons, List.filter_cons, any_name_eq_isSome]
    cases hfind : pkg.MessageByName n with
    | none => simp [msgRecord, hfind, ih]
    | some pkgmsg => simp [msgRecord, hfind, ih]

/-- The last element of `Split s "."` holds no dot and is what follows the last
dot of `s`, or all of `s` when it has no dot. -/
theorem Split_getLast (s : String) :
    ∃ name, (Split s '.').getLast? = some name ∧ '.' ∉ name.data ∧
      (s = name ∨ ∃ pre : String, s = pre ++ "." ++ name) := by
  obtain ⟨seg, hlast, hsep, hshape⟩ := splitChars_getLast '.' s.data
  refine ⟨String.mk seg, ?_, hsep, ?_⟩
  · simp [Split, List.getLast?_map, hlast]
  · rcases hshape with ⟨h, _⟩ | ⟨⟨pre, h⟩, _⟩
    · exact Or.inl (String.ext h)
    · refine Or.inr ⟨String.mk pre, String.ext ?_⟩
      rw [h]
      simp [String.data_append]

/-- A message list with three given names is three messages so named. -/
theorem scenario_messages (Ms : List Message) (a b c : String)
    (h : Ms.map (fun M => M.Name) = [a, b, c]) :
    ∃ M1 M2 M3, Ms = [M1, M2, M3] ∧ M1.Name = a ∧ M2.Name = b ∧ M3.Name = c := by
  match Ms, h with
  | [M1, M2, M3], h =>
    simp only [List.map_cons, List.map_nil, List.cons.injEq, and_true] at h
    exact ⟨M1, M2, M3, rfl, h.1, h.2.1, h.2.2⟩
  | [], h => simp at h
  | [_], h => simp at h
  | [_, _], h => simp at h
  | _ :: _ :: _ :: _ :: _, h => simp at h

/-! ## Package filter -/

/-- C1: when the package index answers, `findModuleProtoPkgs` returns, in the
index's order, exactly the packages whose Go import path begins with the
base import path; and when `Discover` succeeds its modules correspond one to
one, in order, to those kept packages, each being the result of `discover` on
it. -/
theorem findModuleProtoPkgs_keeps_iff_prefix (env : Env) (sourcePath basegopath : String)
    (allprotopkgs : List Package)
    (hindex : env.discoverPackages sourcePath = .ok allprotopkgs) :
    ∃ kept, findModuleProtoPkgs env { sourcePath := sourcePath, basegopath := basegopath }
        = .ok kept ∧
      kept.Sublist allprotopkgs ∧
      (∀ P, P ∈ kept ↔ P ∈ allprotopkgs ∧ ∃ rest : String, P.GoImportName = basegopath ++ rest) ∧
      (∀ mods, env.parseAt sourcePath = .ok basegopath → Discover env sourcePath = .ok mods →
        List.Forall₂
          (fun P m => discover env { sourcePath := sourcePath, basegopath := basegopath } P = .ok m)
          kept mods) := by
  refine ⟨filterModuleProtoPkgs basegopath allprotopkgs, ?_, ?_, ?_, ?_⟩
  · simp [findModuleProtoPkgs, hindex]
  · rw [filterModuleProtoPkgs_eq]
    exact List.filter_sublist _
  · intro P
    rw [filterModuleProtoPkgs_eq, List.mem_filter, HasPrefix_iff]
  · intro mods hparse hrun
    simp only [Discover, hparse, findModuleProtoPkgs, hindex] at hrun
    obtain ⟨news, hnews, hall⟩ := discoverEach_ok env _ _ _ _ hrun
    simp only [List.nil_append] at hnews
    subst hnews
    exact hall

/-- C1 at the sample project: of the two indexed packages only `pkgMymodule`
is kept. -/
theorem findModuleProtoPkgs_keeps_iff_prefix_witness :
    sampleEnv.discoverPackages "/src" = .ok [pkgBank, pkgMymodule] ∧
    ∃ kept, findModuleProtoPkgs sampleEnv
        { sourcePath := "/src", basegopath := "github.com/acme/chain" } = .ok kept ∧
      kept.Sublist [pkgBank, pkgMymodule] ∧
      (∀ P, P ∈ kept ↔ P ∈ [pkgBank, pkgMymodule] ∧
        ∃ rest : String, P.GoImportName = "github.com/acme/chain" ++ rest) ∧
      (∀ mods, sampleEnv.parseAt "/src" = .ok "github.com/acme/chain" →
        Discover sampleEnv "/src" = .ok mods →
        List.Forall₂
          (fun P m => discover sampleEnv
            { sourcePath := "/src", basegopath := "github.com/acme/chain" } P = .ok m)
          kept mods) :=
  ⟨rfl, findModuleProtoPkgs_keeps_iff_prefix sampleEnv "/src" "github.com/acme/chain"
    [pkgBank, pkgMymodule] rfl⟩

/-! ## Classification of messages -/

/-- C2 (as amended): when the inspector returns a name list, `discover` returns
a module in which a schema message `M` of the package has a Type record exactly
when `M.Name` is not `GenesisState`, is not the name of a Msg of the module,
and is neither the request nor the return type of any RPC method of any
service of the package. -/
theorem discover_types_iff (env : Env) (d : moduleDiscoverer) (pkg : Package)
    (msgs : List String) (hinspect : env.discoverMessages (pkgpath env d pkg) = .ok msgs) :
    ∃ m, discover env d pkg = .ok m ∧
      ∀ M ∈ pkg.Messages,
        (({ Name := M.Name, FilePath := M.Path } : ModuleType) ∈ m.Types ↔
          M.Name ≠ "GenesisState" ∧ (∀ x ∈ m.Msgs, x.Name ≠ M.Name) ∧
          ∀ s ∈ pkg.Services, ∀ q ∈ s.RPCFuncs,
            q.RequestType ≠ M.Name ∧ q.ReturnsType ≠ M.Name) := by
  obtain ⟨name, _, hd⟩ := discover_of_msgs env d pkg msgs hinspect
  refine ⟨_, hd, ?_⟩
  intro M hM
  have hmsgs : M.Name ∉ msgs ↔ ∀ x ∈ fillMsgs pkg msgs, x.Name ≠ M.Name := by
    rw [msgs_name_iff pkg msgs M hM]
    simp
  show _ ∈ fillTypes pkg msgs ↔ _ ∧ (∀ x ∈ fillMsgs pkg msgs, _) ∧ _
  rw [← hmsgs, ← isType_iff, mem_fillTypes]
  constructor
  · rintro ⟨M', _, hty, heq⟩
    have hname : M.Name = M'.Name := congrArg ModuleType.Name heq
    rw [isType_congr pkg msgs M M' hname]
    exact hty
  · intro hty
    exact ⟨M, hM, hty, rfl⟩

/-- C2 at the sample blog package: of its six messages only `Post` is a Type. -/
theorem discover_types_iff_witness :
    blogEnv.discoverMessages (pkgpath blogEnv sampleDiscoverer pkgBlog)
        = .ok ["MsgCreatePost", "MsgInternal"] ∧
    ∃ m, discover blogEnv sampleDiscoverer pkgBlog = .ok m ∧
      ∀ M ∈ pkgBlog.Messages,
        (({ Name := M.Name, FilePath := M.Path } : ModuleType) ∈ m.Types ↔
          M.Name ≠ "GenesisState" ∧ (∀ x ∈ m.Msgs, x.Name ≠ M.Name) ∧
          ∀ s ∈ pkgBlog.Services, ∀ q ∈ s.RPCFuncs,
            q.RequestType ≠ M.Name ∧ q.ReturnsType ≠ M.Name) :=
  ⟨rfl, discover_types_iff blogEnv sampleDiscoverer pkgBlog ["MsgCreatePost", "MsgInternal"] rfl⟩

/-- C2 as first stated fails: when the inspector reports "module not found",
`discover` succeeds with the zero-valued module, so the message `Post` of the
blog package meets all three conditions and still has no Type record. -/
theorem discover_types_iff_counterexample :
    ¬ ∀ (env : Env) (d : moduleDiscoverer) (pkg : Package) (m : Module),
      discover env d pkg = .ok m →
      ∀ M ∈ pkg.Messages,
        (({ Name := M.Name, FilePath := M.Path } : ModuleType) ∈ m.Types ↔
          M.Name ≠ "GenesisState" ∧ (∀ x ∈ m.Msgs, x.Name ≠ M.Name) ∧
          ∀ s ∈ pkg.Services, ∀ q ∈ s.RPCFuncs,
            q.RequestType ≠ M.Name ∧ q.ReturnsType ≠ M.Name) := by
  intro hclaim
  have h := hclaim notFoundEnv sampleDiscoverer pkgBlog {} (by decide)
    { Name := "Post", Path := "proto/blog/post.proto" } (by decide)
  have hcond : ("Post" : String) ≠ "GenesisState" ∧
      (∀ x ∈ ({} : Module).Msgs, x.Name ≠ "Post") ∧
      ∀ s ∈ pkgBlog.Services, ∀ q ∈ s.RPCFuncs,
        q.RequestType ≠ "Post" ∧ q.ReturnsType ≠ "Post" := by decide
  exact absurd (h.mpr hcond) (by decide)

/-- C3: in every module returned by `discover`, no name is both the name of a
Msg record and the name of a Type record. -/
theorem discover_msgs_types_disjoint (env : Env) (d : moduleDiscoverer) (pkg : Package)
    (m : Module) (h : discover env d pkg = .ok m) :
    ∀ x ∈ m.Msgs, ∀ t ∈ m.Types, x.Name ≠ t.Name := by
  rcases discover_ok_cases env d pkg m h with ⟨_, rfl⟩ | ⟨msgs, name, _, _, rfl⟩
  · intro x hx
    simp at hx
  · intro x hx t ht hname
    obtain ⟨msg, hmsg, pkgmsg, _, rfl⟩ := (mem_fillMsgs pkg msgs x).mp hx
    obtain ⟨M, _, hty, rfl⟩ := (mem_fillTypes pkg msgs t).mp ht
    have hname' : msg = M.Name := hname
    exact ((isType_iff pkg msgs M).mp hty).2.1 (hname' ▸ hmsg)

/-- C3 at the sample blog package. -/
theorem discover_msgs_types_disjoint_witness :
    ∃ m, discover blogEnv sampleDiscoverer pkgBlog = .ok m ∧ m.Msgs ≠ [] ∧ m.Types ≠ [] ∧
      ∀ x ∈ m.Msgs, ∀ t ∈ m.Types, x.Name ≠ t.Name :=
  ⟨{ Name := "blog", Pkg := pkgBlog, Msgs := fillMsgs pkgBlog ["MsgCreatePost", "MsgInternal"],
     Queries := fillQueries pkgBlog,
     Types := fillTypes pkgBlog ["MsgCreatePost", "MsgInternal"] },
   by decide, by decide, by decide,
   discover_msgs_types_disjoint blogEnv sampleDiscoverer pkgBlog _ (by decide)⟩

/-- C4: in every module returned by `discover`, whatever the inspector
answered, no Type record is named `GenesisState`. -/
theorem discover_types_no_genesis (env : Env) (d : moduleDiscoverer) (pkg : Package)
    (m : Module) (h : discover env d pkg = .ok m) :
    ∀ t ∈ m.Types, t.Name ≠ "GenesisState" := by
  rcases discover_ok_cases env d pkg m h with ⟨_, rfl⟩ | ⟨msgs, name, _, _, rfl⟩
  · intro t ht
    simp at ht
  · intro t ht
    obtain ⟨M, _, hty, rfl⟩ := (mem_fillTypes pkg msgs t).mp ht
    exact ((isType_iff pkg msgs M).mp hty).1

/-- C4 at the sample blog package, which has a message `GenesisState`. -/
theorem discover_types_no_genesis_witness :
    (∃ M ∈ pkgBlog.Messages, M.Name = "GenesisState") ∧
    ∃ m, discover blogEnv sampleDiscoverer pkgBlog = .ok m ∧ m.Types ≠ [] ∧
      ∀ t ∈ m.Types, t.Name ≠ "GenesisState" :=
  ⟨by decide,
   { Name := "blog", Pkg := pkgBlog, Msgs := fillMsgs pkgBlog ["MsgCreatePost", "MsgInternal"],
     Queries := fillQueries pkgBlog,
     Types := fillTypes pkgBlog ["MsgCreatePost", "MsgInternal"] },
   by decide, by decide,
   discover_types_no_genesis blogEnv sampleDiscoverer pkgBlog _ (by decide)⟩

/-- C5: in every module returned by `discover`, whatever the inspector
answered, a schema message whose name is the request type or the return type of
an RPC method of a service of the package has no Type record. -/
theorem discover_types_no_rpc_io (env : Env) (d : moduleDiscoverer) (pkg : Package)
    (m : Module) (h : discover env d pkg = .ok m) :
    ∀ M ∈ pkg.Messages, ∀ s ∈ pkg.Services, ∀ q ∈ s.RPCFuncs,
      (q.RequestType = M.Name ∨ q.ReturnsType = M.Name) →
      ∀ t ∈ m.Types, t.Name ≠ M.Name := by
  rcases discover_ok_cases env d pkg m h with ⟨_, rfl⟩ | ⟨msgs, name, _, _, rfl⟩
  · intro M _ s _ q _ _ t ht
    simp at ht
  · intro M _ s hs q hq hio t ht hname
    obtain ⟨M', _, hty, rfl⟩ := (mem_fillTypes pkg msgs t).mp ht
    have hno := ((isType_iff pkg msgs M').mp hty).2.2 s hs q hq
    simp only at hname
    rcases hio with hreq | hret
    · exact hno.1 (hreq.trans hname.symm)
    · exact hno.2 (hret.trans hname.symm)

/-- C5 at the sample blog package, where `QueryGetPostRequest` is a request
type the inspector does not list and `MsgCreatePost` one it lists. -/
theorem discover_types_no_rpc_io_witness :
    ∃ m, discover blogEnv sampleDiscoverer pkgBlog = .ok m ∧ m.Types ≠ [] ∧
      ∀ M ∈ pkgBlog.Messages, ∀ s ∈ pkgBlog.Services, ∀ q ∈ s.RPCFuncs,
        (q.RequestType = M.Name ∨ q.ReturnsType = M.Name) →
        ∀ t ∈ m.Types, t.Name ≠ M.Name :=
  ⟨{ Name := "blog", Pkg := pkgBlog, Msgs := fillMsgs pkgBlog ["MsgCreatePost", "MsgInternal"],
     Queries := fillQueries pkgBlog,
     Types := fillTypes pkgBlog ["MsgCreatePost", "MsgInternal"] },
   by decide, by decide,
   discover_types_no_rpc_io blogEnv sampleDiscoverer pkgBlog _ (by decide)⟩

/-- C6: a module returned by `discover` is the zero value with no Msgs (the
inspector reported "module not found") or its Msgs are, in the inspector's
order, one record per inspector name that is the name of a schema message of
the package: every schema message whose name the inspector lists has a record,
every record has a listed name, the URI `pkg.Name + "." + name` and the path of
a schema message of that name, and a listed name without schema message has no
record. -/
theorem discover_msgs_records (env : Env) (d : moduleDiscoverer) (pkg : Package) (m : Module)
    (h : discover env d pkg = .ok m) :
    (env.discoverMessages (pkgpath env d pkg) = .error GoError.errModuleNotFound ∧ m.Msgs = []) ∨
    ∃ msgs, env.discoverMessages (pkgpath env d pkg) = .ok msgs ∧
      (∀ M ∈ pkg.Messages, M.Name ∈ msgs → ∃ r ∈ m.Msgs, r.Name = M.Name) ∧
      (∀ r ∈ m.Msgs, r.Name ∈ msgs ∧ r.URI = pkg.Name ++ "." ++ r.Name ∧
        ∃ M ∈ pkg.Messages, M.Name = r.Name ∧ r.FilePath = M.Path) ∧
      (∀ n ∈ msgs, (∀ M ∈ pkg.Messages, M.Name ≠ n) → ∀ r ∈ m.Msgs, r.Name ≠ n) ∧
      m.Msgs.map (fun r => r.Name)
        = msgs.filter (fun n => pkg.Messages.any (fun M => M.Name == n)) := by
  rcases discover_ok_cases env d pkg m h with ⟨hnf, rfl⟩ | ⟨msgs, name, hin, _, rfl⟩
  · exact Or.inl ⟨hnf, rfl⟩
  · refine Or.inr ⟨msgs, hin, ?_, ?_, ?_, ?_⟩
    · intro M hM hlisted
      exact (msgs_name_iff pkg msgs M hM).mp hlisted
    · intro r hr
      obtain ⟨msg, hmsg, pkgmsg, hfind, rfl⟩ := (mem_fillMsgs pkg msgs r).mp hr
      obtain ⟨hmem, hname⟩ := MessageByName_some pkg msg pkgmsg hfind
      exact ⟨hmsg, rfl, pkgmsg, hmem, hname, rfl⟩
    · intro n _ hnone r hr hname
      obtain ⟨msg, _, pkgmsg, hfind, rfl⟩ := (mem_fillMsgs pkg msgs r).mp hr
      obtain ⟨hmem, hpm⟩ := MessageByName_some pkg msg pkgmsg hfind
      exact hnone pkgmsg hmem (hpm.trans hname)
    · exact fillMsgs_names pkg msgs

/-- C6 at the sample blog package: the inspector lists `MsgCreatePost`, which
has a schema message, and `MsgInternal`, which has none. -/
theorem discover_msgs_records_witness :
    ∃ m, discover blogEnv sampleDiscoverer pkgBlog = .ok m ∧
      m.Msgs = [{ Name := "MsgCreatePost", URI := "acme.chain.blog.MsgCreatePost",
                  FilePath := "proto/blog/tx.proto" }] ∧
      ((blogEnv.discoverMessages (pkgpath blogEnv sampleDiscoverer pkgBlog)
          = .error GoError.errModuleNotFound ∧ m.Msgs = []) ∨
      ∃ msgs, blogEnv.discoverMessages (pkgpath blogEnv sampleDiscoverer pkgBlog) = .ok msgs ∧
        (∀ M ∈ pkgBlog.Messages, M.Name ∈ msgs → ∃ r ∈ m.Msgs, r.Name = M.Name) ∧
        (∀ r ∈ m.Msgs, r.Name ∈ msgs ∧ r.URI = pkgBlog.Name ++ "." ++ r.Name ∧
          ∃ M ∈ pkgBlog.Messages, M.Name = r.Name ∧ r.FilePath = M.Path) ∧
        (∀ n ∈ msgs, (∀ M ∈ pkgBlog.Messages, M.Name ≠ n) → ∀ r ∈ m.Msgs, r.Name ≠ n) ∧
        m.Msgs.map (fun r => r.Name)
          = msgs.filter (fun n => pkgBlog.Messages.any (fun M => M.Name == n))) :=
  ⟨{ Name := "blog", Pkg := pkgBlog, Msgs := fillMsgs pkgBlog ["MsgCreatePost", "MsgInternal"],
     Queries := fillQueries pkgBlog,
     Types := fillTypes pkgBlog ["MsgCreatePost", "MsgInternal"] },
   by decide, by decide,
   discover_msgs_records blogEnv sampleDiscoverer pkgBlog _ (by decide)⟩

/-! ## Queries -/

/-- C7 (as amended): when the inspector returns a name list, `discover` returns
a module in which no Query record carries the full name `S.Name + Q.Name` of an
RPC method colliding with a schema message, and the number of Query records
plus the number of colliding RPC methods is the number of RPC methods of the
package. -/
theorem discover_queries_collisions (env : Env) (d : moduleDiscoverer) (pkg : Package)
    (msgs : List String) (hinspect : env.discoverMessages (pkgpath env d pkg) = .ok msgs) :
    ∃ m, discover env d pkg = .ok m ∧
      (∀ s ∈ pkg.Services, ∀ q ∈ s.RPCFuncs,
        (∃ M ∈ pkg.Messages, M.Name = s.Name ++ q.Name) →
        ∀ r ∈ m.Queries, r.FullName ≠ s.Name ++ q.Name) ∧
      m.Queries.length + rpcCollisions pkg = rpcTotal pkg := by
  obtain ⟨name, _, hd⟩ := discover_of_msgs env d pkg msgs hinspect
  refine ⟨_, hd, ?_, fillQueries_length pkg⟩
  rintro s _ q _ ⟨M, hM, hname⟩ r hr hfull
  obtain ⟨s', _, q', _, hfree, rfl⟩ := (mem_fillQueries pkg r).mp hr
  exact hfree M hM (hname.trans hfull.symm)

/-- C7 at scenario C of the spec: the message `QueryBalance` takes the name of
the only RPC method, so no Query is emitted and `0 + 1 = 1`. -/
theorem discover_queries_collisions_witness :
    blogEnv.discoverMessages (pkgpath blogEnv sampleDiscoverer pkgBalanceTaken)
        = .ok ["MsgCreatePost", "MsgInternal"] ∧
    rpcCollisions pkgBalanceTaken = 1 ∧ rpcTotal pkgBalanceTaken = 1 ∧
    ∃ m, discover blogEnv sampleDiscoverer pkgBalanceTaken = .ok m ∧
      (∀ s ∈ pkgBalanceTaken.Services, ∀ q ∈ s.RPCFuncs,
        (∃ M ∈ pkgBalanceTaken.Messages, M.Name = s.Name ++ q.Name) →
        ∀ r ∈ m.Queries, r.FullName ≠ s.Name ++ q.Name) ∧
      m.Queries.length + rpcCollisions pkgBalanceTaken = rpcTotal pkgBalanceTaken :=
  ⟨rfl, by decide, by decide,
   discover_queries_collisions blogEnv sampleDiscoverer pkgBalanceTaken
     ["MsgCreatePost", "MsgInternal"] rfl⟩

/-- C7 as first stated fails: when the inspector reports "module not found",
`discover` returns the zero-valued module, whose Queries are empty, so for the
blog package (two RPC methods, one collision) the count is `0 + 1`, not `2`. -/
theorem discover_queries_collisions_counterexample :
    ¬ ∀ (env : Env) (d : moduleDiscoverer) (pkg : Package) (m : Module),
      discover env d pkg = .ok m →
      (∀ s ∈ pkg.Services, ∀ q ∈ s.RPCFuncs,
        (∃ M ∈ pkg.Messages, M.Name = s.Name ++ q.Name) →
        ∀ r ∈ m.Queries, r.FullName ≠ s.Name ++ q.Name) ∧
      m.Queries.length + rpcCollisions pkg = rpcTotal pkg := by
  intro hclaim
  have h := (hclaim notFoundEnv sampleDiscoverer pkgBlog {} (by decide)).2
  exact absurd h (by decide)

/-- C8 (as amended): when the inspector returns a name list, `discover` returns
a module whose Queries hold, for every RPC method `q` of a service `s` with no
schema message named `s.Name + q.Name`, the record with Name `q.Name`, FullName
`s.Name` joined to `q.Name` and the method's HTTPAnnotations, as many times as
the package has RPC methods giving that same record: one record per method. -/
theorem discover_query_record (env : Env) (d : moduleDiscoverer) (pkg : Package)
    (msgs : List String) (hinspect : env.discoverMessages (pkgpath env d pkg) = .ok msgs) :
    ∃ m, discover env d pkg = .ok m ∧
      ∀ s ∈ pkg.Services, ∀ q ∈ s.RPCFuncs,
        (∀ M ∈ pkg.Messages, M.Name ≠ s.Name ++ q.Name) →
        ({ Name := q.Name, FullName := s.Name ++ q.Name,
           HTTPAnnotations := q.HTTPAnnotations } : Query) ∈ m.Queries ∧
        m.Queries.count (queryOf s q)
          = (pkg.Services.flatMap
              (fun s' => s'.RPCFuncs.map (fun q' => queryOf s' q'))).count (queryOf s q) := by
  obtain ⟨name, _, hd⟩ := discover_of_msgs env d pkg msgs hinspect
  refine ⟨_, hd, ?_⟩
  intro s hs q hq hfree
  exact ⟨(mem_fillQueries pkg _).mpr ⟨s, hs, q, hq, hfree, rfl⟩,
    fillQueries_count pkg (queryOf s q) hfree⟩

/-- C8 at scenario B of the spec: service `Query`, method `Balance`, no message
`QueryBalance`; the Queries are the single record `Balance` / `QueryBalance`. -/
theorem discover_query_record_witness :
    blogEnv.discoverMessages (pkgpath blogEnv sampleDiscoverer pkgBalance)
        = .ok ["MsgCreatePost", "MsgInternal"] ∧
    (∃ m, discover blogEnv sampleDiscoverer pkgBalance = .ok m ∧
      m.Queries = [{ Name := "Balance", FullName := "QueryBalance",
                     HTTPAnnotations := { raw := ["/acme/chain/bank/balance"] } }]) ∧
    ∃ m, discover blogEnv sampleDiscoverer pkgBalance = .ok m ∧
      ∀ s ∈ pkgBalance.Services, ∀ q ∈ s.RPCFuncs,
        (∀ M ∈ pkgBalance.Messages, M.Name ≠ s.Name ++ q.Name) →
        ({ Name := q.Name, FullName := s.Name ++ q.Name,
           HTTPAnnotations := q.HTTPAnnotations } : Query) ∈ m.Queries ∧
        m.Queries.count (queryOf s q)
          = (pkgBalance.Services.flatMap
              (fun s' => s'.RPCFuncs.map (fun q' => queryOf s' q'))).count (queryOf s q) :=
  ⟨rfl,
   ⟨{ Name := "bank", Pkg := pkgBalance, Msgs := [],
      Queries := [{ Name := "Balance", FullName := "QueryBalance",
                    HTTPAnnotations := { raw := ["/acme/chain/bank/balance"] } }],
      Types := [] }, by decide, rfl⟩,
   discover_query_record blogEnv sampleDiscoverer pkgBalance ["MsgCreatePost", "MsgInternal"] rfl⟩

/-- C8 as first stated fails: when the inspector reports "module not found",
`discover` returns the zero-valued module, so the method `Post` of the service
`Query` of the blog package, which collides with no message, has no record. -/
theorem discover_query_record_counterexample :
    ¬ ∀ (env : Env) (d : moduleDiscoverer) (pkg : Package) (m : Module),
      discover env d pkg = .ok m →
      ∀ s ∈ pkg.Services, ∀ q ∈ s.RPCFuncs,
        (∀ M ∈ pkg.Messages, M.Name ≠ s.Name ++ q.Name) →
        ({ Name := q.Name, FullName := s.Name ++ q.Name,
           HTTPAnnotations := q.HTTPAnnotations } : Query) ∈ m.Queries := by
  intro hclaim
  have h := hclaim notFoundEnv sampleDiscoverer pkgBlog {} (by decide)
    { Name := "Query"
      RPCFuncs := [{ Name := "Post", RequestType := "QueryGetPostRequest",
                     ReturnsType := "QueryGetPostResponse",
                     HTTPAnnotations := { raw := ["/acme/chain/blog/post/{id}"] } }] }
    (by decide)
    { Name := "Post", RequestType := "QueryGetPostRequest",
      ReturnsType := "QueryGetPostResponse",
      HTTPAnnotations := { raw := ["/acme/chain/blog/post/{id}"] } }
    (by decide) (by decide)
  exact absurd h (by decide)

/-! ## Module name -/

/-- C9: (1) when the inspector returns a name list, `discover` returns a module
whose Name holds no dot and is what follows the last dot of the package name,
or the whole package name when it has no dot; (2) indexing the split name at
`len - 1` finds an element for every package name, the empty one included, and
`discover` never ends with an index out of range; (3) scenario A: a package
`a.b.mymodule` with messages `MsgCreateX`, `GenesisState`, `XStored`, no
service, and `MsgCreateX` as the inspector's only name gives Name `mymodule`,
Msgs named `[MsgCreateX]` and Types named `[XStored]`. -/
theorem discover_name_last_segment :
    (∀ (env : Env) (d : moduleDiscoverer) (pkg : Package) (msgs : List String),
      env.discoverMessages (pkgpath env d pkg) = .ok msgs →
      ∃ m, discover env d pkg = .ok m ∧ '.' ∉ m.Name.data ∧
        (pkg.Name = m.Name ∨ ∃ pre : String, pkg.Name = pre ++ "." ++ m.Name)) ∧
    (∀ name : String,
      ∃ seg, (Split name '.').get? ((Split name '.').length - 1) = some seg) ∧
    (∀ (env : Env) (d : moduleDiscoverer) (pkg : Package),
      discover env d pkg ≠ .error Fault.indexOutOfRange) ∧
    (∀ (env : Env) (d : moduleDiscoverer) (pkg : Package),
      pkg.Name = "a.b.mymodule" →
      pkg.Messages.map (fun M => M.Name) = ["MsgCreateX", "GenesisState", "XStored"] →
      pkg.Services = [] →
      env.discoverMessages (pkgpath env d pkg) = .ok ["MsgCreateX"] →
      ∃ m, discover env d pkg = .ok m ∧ m.Name = "mymodule" ∧
        m.Msgs.map (fun r => r.Name) = ["MsgCreateX"] ∧
        m.Types.map (fun t => t.Name) = ["XStored"]) := by
  refine ⟨?_, ?_, ?_, ?_⟩
  · intro env d pkg msgs hinspect
    obtain ⟨name, hname, hd⟩ := discover_of_msgs env d pkg msgs hinspect
    obtain ⟨seg, hseg, hdot, hshape⟩ := Split_getLast pkg.Name
    have hsame : name = seg := Option.some.inj (hname.symm.trans hseg)
    subst hsame
    exact ⟨_, hd, hdot, hshape⟩
  · intro name
    obtain ⟨seg, hseg, _, _⟩ := Split_getLast name
    exact ⟨seg, by rw [List.get?_eq_getElem?, ← List.getLast?_eq_getElem?]; exact hseg⟩
  · intro env d pkg hfault
    cases hin : env.discoverMessages (pkgpath env d pkg) with
    | error e =>
      by_cases he : e = GoError.errModuleNotFound
      · simp [discover, hin, he] at hfault
      · simp [discover, hin, he] at hfault
    | ok msgs =>
      obtain ⟨name, _, hd⟩ := discover_of_msgs env d pkg msgs hin
      rw [hd] at hfault
      exact Except.noConfusion hfault
  · intro env d pkg hpkg hmsgs hsvc hinspect
    obtain ⟨name, hname, hd⟩ := discover_of_msgs env d pkg ["MsgCreateX"] hinspect
    refine ⟨_, hd, ?_, ?_, ?_⟩
    · rw [hpkg] at hname
      exact (Option.some.inj (hname.symm.trans (by decide))).trans rfl
    · show (fillMsgs pkg ["MsgCreateX"]).map _ = _
      obtain ⟨M1, M2, M3, hM, h1, h2, h3⟩ := scenario_messages pkg.Messages _ _ _ hmsgs
      rw [fillMsgs_names, hM]
      simp [h1]
    · show (fillTypes pkg ["MsgCreateX"]).map _ = _
      obtain ⟨M1, M2, M3, hM, h1, h2, h3⟩ := scenario_messages pkg.Messages _ _ _ hmsgs
      have t1 : isType pkg ["MsgCreateX"] M1 = false := by
        rw [Bool.eq_false_iff, ne_eq, isType_iff, h1]
        simp
      have t2 : isType pkg ["MsgCreateX"] M2 = false := by
        rw [Bool.eq_false_iff, ne_eq, isType_iff, h2]
        simp
      have t3 : isType pkg ["MsgCreateX"] M3 = true := by
        rw [isType_iff, h3, hsvc]
        refine ⟨by decide, by decide, ?_⟩
        intro s hs
        simp at hs
      rw [fillTypes_eq, hM]
      simp [List.filter_cons, t1, t2, t3, h3]

/-- C9 at scenario A of the spec, `pkgMymodule` under `sampleEnv`. -/
theorem discover_name_last_segment_witness :
    sampleEnv.discoverMessages (pkgpath sampleEnv sampleDiscoverer pkgMymodule)
        = .ok ["MsgCreateX"] ∧
    (∃ m, discover sampleEnv sampleDiscoverer pkgMymodule = .ok m ∧ '.' ∉ m.Name.data ∧
      (pkgMymodule.Name = m.Name ∨ ∃ pre : String, pkgMymodule.Name = pre ++ "." ++ m.Name)) ∧
    (∃ seg, (Split "" '.').get? ((Split "" '.').length - 1) = some seg) ∧
    ∃ m, discover sampleEnv sampleDiscoverer pkgMymodule = .ok m ∧ m.Name = "mymodule" ∧
      m.Msgs.map (fun r => r.Name) = ["MsgCreateX"] ∧
      m.Types.map (fun t => t.Name) = ["XStored"] :=
  ⟨rfl,
   discover_name_last_segment.1 sampleEnv sampleDiscoverer pkgMymodule ["MsgCreateX"] rfl,
   discover_name_last_segment.2.1 "",
   discover_name_last_segment.2.2.2 sampleEnv sampleDiscoverer pkgMymodule
     (by decide) (by decide) (by decide) rfl⟩

/-! ## Packages without a module -/

/-- C10, the code at the failing input: with one kept package for which the
inspector reports "module not found", `Discover` returns no error and a list
of one element, the zero-valued module, instead of the empty list. -/
theorem Discover_notFound_keeps_zero_module :
    findModuleProtoPkgs notFoundEnv sampleDiscoverer = .ok [pkgBlog] ∧
    notFoundEnv.discoverMessages (pkgpath notFoundEnv sampleDiscoverer pkgBlog)
      = .error GoError.errModuleNotFound ∧
    Discover notFoundEnv "/src" = .ok [{}] ∧
    Discover notFoundEnv "/src" ≠ .ok [] := by
  refine ⟨by decide, rfl, by decide, by decide⟩

/-! ## Failures of discovery -/

/-- The traced loop returns what the loop of `Discover` returns. -/
theorem discoverEachTraced_fst (env : Env) (md : moduleDiscoverer) (pkgs : List Package)
    (acc : List Module) (consulted : List String) :
    (discoverEachTraced env md pkgs acc consulted).1 = discoverEach env md pkgs acc := by
  induction pkgs generalizing acc consulted with
  | nil => rfl
  | cons pkg pkgs ih =>
    simp only [discoverEachTraced, discoverEach]
    cases discover env md pkg with
    | error e => rfl
    | ok m => exact ih _ _

/-- `DiscoverTraced` returns what `Discover` returns. -/
theorem DiscoverTraced_fst (env : Env) (sourcePath : String) :
    (DiscoverTraced env sourcePath).1 = Discover env sourcePath := by
  unfold DiscoverTraced Discover
  cases env.parseAt sourcePath with
  | error e => rfl
  | ok basegopath =>
    simp only
    cases findModuleProtoPkgs env { sourcePath := sourcePath, basegopath := basegopath } with
    | error e => rfl
    | ok pkgs => exact discoverEachTraced_fst env _ pkgs [] []

/-- An inspector error other than "module not found" is the result of
`discover`. -/
theorem discover_of_fatal (env : Env) (d : moduleDiscoverer) (pkg : Package) (e : GoError)
    (h : env.discoverMessages (pkgpath env d pkg) = .error e)
    (hne : e ≠ GoError.errModuleNotFound) :
    discover env d pkg = .error (Fault.error e) := by
  simp [discover, h, hne]

/-- Without such an error `discover` returns a module. -/
theorem discover_of_benign (env : Env) (d : moduleDiscoverer) (pkg : Package)
    (h : ∀ e, env.discoverMessages (pkgpath env d pkg) = .error e →
      e = GoError.errModuleNotFound) :
    ∃ m, discover env d pkg = .ok m := by
  cases hin : env.discoverMessages (pkgpath env d pkg) with
  | error e =>
    have he := h e hin
    subst he
    exact ⟨_, discover_of_notFound env d pkg hin⟩
  | ok msgs =>
    obtain ⟨name, _, hd⟩ := discover_of_msgs env d pkg msgs hin
    exact ⟨_, hd⟩

/-- The first element with a property splits a list that has one. -/
theorem exists_first_split {α : Type} (p : α → Prop) (l : List α) (h : ∃ x ∈ l, p x) :
    ∃ pre x post, l = pre ++ x :: post ∧ p x ∧ ∀ y ∈ pre, ¬ p y := by
  induction l with
  | nil => simp at h
  | cons a l ih =>
    by_cases ha : p a
    · exact ⟨[], a, l, rfl, ha, by simp⟩
    · obtain ⟨x, hx, hpx⟩ := h
      have hx' : x ∈ l := by
        rcases List.mem_cons.mp hx with rfl | hx'
        · exact absurd hpx ha
        · exact hx'
      obtain ⟨pre, y, post, hl, hy, hpre⟩ := ih ⟨x, hx', hpx⟩
      refine ⟨a :: pre, y, post, by simp [hl], hy, ?_⟩
      intro z hz
      rcases List.mem_cons.mp hz with rfl | hz'
      · exact ha
      · exact hpre z hz'

/-- The loop of `Discover` stops at the first package whose inspection fails
for good: it returns that error and has consulted the inspector for the
packages up to that one only. -/
theorem discoverEachTraced_fatal (env : Env) (md : moduleDiscoverer)
    (pre : List Package) (P : Package) (post : List Package) (e : GoError)
    (acc : List Module) (consulted : List String)
    (hpre : ∀ Q ∈ pre, ∀ e', env.discoverMessages (pkgpath env md Q) = .error e' →
      e' = GoError.errModuleNotFound)
    (hP : env.discoverMessages (pkgpath env md P) = .error e)
    (hne : e ≠ GoError.errModuleNotFound) :
    discoverEachTraced env md (pre ++ P :: post) acc consulted
      = (.error (Fault.error e), consulted ++ (pre ++ [P]).map (pkgpath env md)) := by
  induction pre generalizing acc consulted with
  | nil =>
    simp [discoverEachTraced, discover_of_fatal env md P e hP hne]
  | cons Q pre ih =>
    obtain ⟨m, hm⟩ := discover_of_benign env md Q (hpre Q (List.mem_cons_self _ _))
    have hrest := ih (acc ++ [m]) (consulted ++ [pkgpath env md Q])
      (fun Q' hQ' => hpre Q' (List.mem_cons_of_mem _ hQ'))
    show discoverEachTraced env md (Q :: (pre ++ P :: post)) acc consulted = _
    rw [discoverEachTraced]
    simp only [hm]
    rw [hrest]
    simp

/-- C11: when the inspector fails with an error other than `ErrModuleNotFound`
for some kept package, `Discover` stops at the first kept package with such a
failure and returns its error and no module list; the inspector has been
consulted for the packages up to that one and for none after it. -/
theorem Discover_fatal_inspector_error (env : Env) (sourcePath basegopath : String)
    (kept : List Package)
    (hparse : env.parseAt sourcePath = .ok basegopath)
    (hkept : findModuleProtoPkgs env { sourcePath := sourcePath, basegopath := basegopath }
      = .ok kept)
    (hfatal : ∃ P ∈ kept, ∃ e,
      env.discoverMessages
          (pkgpath env { sourcePath := sourcePath, basegopath := basegopath } P) = .error e ∧
        e ≠ GoError.errModuleNotFound) :
    ∃ pre P post e, kept = pre ++ P :: post ∧
      (∀ Q ∈ pre, ∀ e',
        env.discoverMessages
            (pkgpath env { sourcePath := sourcePath, basegopath := basegopath } Q) = .error e' →
          e' = GoError.errModuleNotFound) ∧
      env.discoverMessages
          (pkgpath env { sourcePath := sourcePath, basegopath := basegopath } P) = .error e ∧
      e ≠ GoError.errModuleNotFound ∧
      Discover env sourcePath = .error (Fault.error e) ∧
      DiscoverTraced env sourcePath
        = (.error (Fault.error e),
           (pre ++ [P]).map
             (pkgpath env { sourcePath := sourcePath, basegopath := basegopath })) := by
  obtain ⟨pre, P, post, hsplit, ⟨e, hP, hne⟩, hpre⟩ := exists_first_split
    (fun P => ∃ e,
      env.discoverMessages
          (pkgpath env { sourcePath := sourcePath, basegopath := basegopath } P) = .error e ∧
        e ≠ GoError.errModuleNotFound) kept hfatal
  have hbenign : ∀ Q ∈ pre, ∀ e',
      env.discoverMessages
          (pkgpath env { sourcePath := sourcePath, basegopath := basegopath } Q) = .error e' →
        e' = GoError.errModuleNotFound := by
    intro Q hQ e' he'
    by_contra hcon
    exact hpre Q hQ ⟨e', he', hcon⟩
  have htraced : DiscoverTraced env sourcePath
      = (.error (Fault.error e),
         (pre ++ [P]).map
           (pkgpath env { sourcePath := sourcePath, basegopath := basegopath })) := by
    have hloop := discoverEachTraced_fatal env
      { sourcePath := sourcePath, basegopath := basegopath } pre P post e [] [] hbenign hP hne
    simp only [DiscoverTraced, hparse, hkept, hsplit]
    simpa using hloop
  refine ⟨pre, P, post, e, hsplit, hbenign, hP, hne, ?_, htraced⟩
  rw [← DiscoverTraced_fst, htraced]

/-- C11 at `fatalEnv`: the kept packages are `pkgMymodule`, `pkgBlog`,
`pkgBalance`; inspection of `pkgBlog` fails, so `Discover` returns that error
and `pkgBalance` is not inspected. -/
theorem Discover_fatal_inspector_error_witness :
    Discover fatalEnv "/src" = .error (Fault.error (GoError.other "parse error")) ∧
    DiscoverTraced fatalEnv "/src"
      = (.error (Fault.error (GoError.other "parse error")),
         ["/src/x/mymodule/types", "/src/x/blog/types"]) ∧
    ∃ pre P post e, [pkgMymodule, pkgBlog, pkgBalance] = pre ++ P :: post ∧
      (∀ Q ∈ pre, ∀ e',
        fatalEnv.discoverMessages (pkgpath fatalEnv sampleDiscoverer Q) = .error e' →
          e' = GoError.errModuleNotFound) ∧
      fatalEnv.discoverMessages (pkgpath fatalEnv sampleDiscoverer P) = .error e ∧
      e ≠ GoError.errModuleNotFound ∧
      Discover fatalEnv "/src" = .error (Fault.error e) ∧
      DiscoverTraced fatalEnv "/src"
        = (.error (Fault.error e), (pre ++ [P]).map (pkgpath fatalEnv sampleDiscoverer)) :=
  ⟨by decide, by decide,
   Discover_fatal_inspector_error fatalEnv "/src" "github.com/acme/chain"
     [pkgMymodule, pkgBlog, pkgBalance] rfl (by decide)
     ⟨pkgBlog, by decide, GoError.other "parse error", by decide, by decide⟩⟩

/-- C12: when reading the manifest fails, or the manifest is read and the
enumeration of schema packages fails, `Discover` returns that error and no
module list, has consulted the source inspector for no directory, and returns
the same whatever the source inspector would answer. -/
theorem Discover_setup_failure (env : Env) (sourcePath : String) (e : GoError)
    (h : env.parseAt sourcePath = .error e ∨
      ∃ basegopath, env.parseAt sourcePath = .ok basegopath ∧
        env.discoverPackages sourcePath = .error e) :
    Discover env sourcePath = .error (Fault.error e) ∧
    DiscoverTraced env sourcePath = (.error (Fault.error e), []) ∧
    ∀ inspector : String → Except GoError (List String),
      Discover { env with discoverMessages := inspector } sourcePath
        = .error (Fault.error e) := by
  rcases h with h | ⟨basegopath, hparse, hindex⟩
  · refine ⟨by simp [Discover, h], by simp [DiscoverTraced, h], ?_⟩
    intro inspector
    simp [Discover, h]
  · refine ⟨by simp [Discover, hparse, findModuleProtoPkgs, hindex],
      by simp [DiscoverTraced, hparse, findModuleProtoPkgs, hindex], ?_⟩
    intro inspector
    simp [Discover, hparse, findModuleProtoPkgs, hindex]

/-- C12 at a project without manifest and at one without readable schema
packages. -/
theorem Discover_setup_failure_witness :
    (Discover noManifestEnv "/src" = .error (Fault.error (GoError.other "go.mod not found")) ∧
      DiscoverTraced noManifestEnv "/src"
        = (.error (Fault.error (GoError.other "go.mod not found")), []) ∧
      ∀ inspector : String → Except GoError (List String),
        Discover { noManifestEnv with discoverMessages := inspector } "/src"
          = .error (Fault.error (GoError.other "go.mod not found"))) ∧
    (Discover noIndexEnv "/src" = .error (Fault.error (GoError.other "proto dir unreadable")) ∧
      DiscoverTraced noIndexEnv "/src"
        = (.error (Fault.error (GoError.other "proto dir unreadable")), []) ∧
      ∀ inspector : String → Except GoError (List String),
        Discover { noIndexEnv with discoverMessages := inspector } "/src"
          = .error (Fault.error (GoError.other "proto dir unreadable"))) :=
  ⟨Discover_setup_failure noManifestEnv "/src" (GoError.other "go.mod not found") (Or.inl rfl),
   Discover_setup_failure noIndexEnv "/src" (GoError.other "proto dir unreadable")
     (Or.inr ⟨"github.com/acme/chain", rfl, rfl⟩)⟩

/-! ## Determinism of discovery -/

/-- `discover` depends on the environment through the inspector's answer for
the package only. -/
theorem discover_congr (env₁ env₂ : Env) (d : moduleDiscoverer) (pkg : Package)
    (h : env₁.discoverMessages (pkgpath env₁ d pkg) = env₂.discoverMessages (pkgpath env₂ d pkg)) :
    discover env₁ d pkg = discover env₂ d pkg := by
  unfold discover
  rw [h]

/-- The loop of `Discover` depends on the results of `discover` only. -/
theorem discoverEach_congr (env₁ env₂ : Env) (d : moduleDiscoverer) (pkgs : List Package)
    (acc : List Module) (h : ∀ P ∈ pkgs, discover env₁ d P = discover env₂ d P) :
    discoverEach env₁ d pkgs acc = discoverEach env₂ d pkgs acc := by
  induction pkgs generalizing acc with
  | nil => rfl
  | cons P pkgs ih =>
    simp only [discoverEach, h P (List.mem_cons_self _ _)]
    cases discover env₂ d P with
    | error e => rfl
    | ok m => exact ih _ (fun Q hQ => h Q (List.mem_cons_of_mem _ hQ))

/-- C13: two runs of `Discover` on the same source root that read the same
manifest result, the same ordered package list and the same inspector answer
for every kept package return the same result: the same error, or module lists
equal element by element, every order included. The orders are those of the
inputs: a returned list has one module per kept package in the order of the
package list, and a module found by the inspector has its Msgs in the order of
the inspector's names, its Types in the order of the schema messages and its
Queries in the order of the services and of their methods. -/
theorem Discover_deterministic (env₁ env₂ : Env) (sourcePath : String)
    (hmanifest : env₁.parseAt sourcePath = env₂.parseAt sourcePath)
    (hindex : env₁.discoverPackages sourcePath = env₂.discoverPackages sourcePath)
    (hinspect : ∀ basegopath allprotopkgs,
      env₁.parseAt sourcePath = .ok basegopath →
      env₁.discoverPackages sourcePath = .ok allprotopkgs →
      ∀ P ∈ allprotopkgs, (∃ rest : String, P.GoImportName = basegopath ++ rest) →
        env₁.discoverMessages
            (pkgpath env₁ { sourcePath := sourcePath, basegopath := basegopath } P)
          = env₂.discoverMessages
            (pkgpath env₂ { sourcePath := sourcePath, basegopath := basegopath } P)) :
    Discover env₁ sourcePath = Discover env₂ sourcePath ∧
    ∀ mods, Discover env₂ sourcePath = .ok mods →
      ∃ basegopath allprotopkgs,
        env₁.parseAt sourcePath = .ok basegopath ∧
        env₁.discoverPackages sourcePath = .ok allprotopkgs ∧
        List.Forall₂
          (fun P m =>
            (env₁.discoverMessages
                (pkgpath env₁ { sourcePath := sourcePath, basegopath := basegopath } P)
              = .error GoError.errModuleNotFound ∧ m = {}) ∨
            ∃ msgs,
              env₁.discoverMessages
                (pkgpath env₁ { sourcePath := sourcePath, basegopath := basegopath } P)
                = .ok msgs ∧
              m.Pkg = P ∧
              m.Msgs = msgs.filterMap (msgRecord P) ∧
              m.Types = (P.Messages.filter (isType P msgs)).map
                (fun protomsg => { Name := protomsg.Name, FilePath := protomsg.Path }) ∧
              m.Queries
                = P.Services.flatMap (fun s => s.RPCFuncs.flatMap (fun q => queryRecords P s q)))
          (allprotopkgs.filter (fun P => HasPrefix P.GoImportName basegopath)) mods := by
  have heq : Discover env₁ sourcePath = Discover env₂ sourcePath := by
    unfold Discover
    rw [← hmanifest]
    cases hp : env₁.parseAt sourcePath with
    | error e => rfl
    | ok basegopath =>
      simp only [findModuleProtoPkgs, ← hindex]
      cases hi : env₁.discoverPackages sourcePath with
      | error e => rfl
      | ok allprotopkgs =>
        simp only
        apply discoverEach_congr
        intro P hP
        rw [filterModuleProtoPkgs_eq, List.mem_filter] at hP
        exact discover_congr env₁ env₂ _ P
          (hinspect basegopath allprotopkgs hp hi P hP.1 ((HasPrefix_iff _ _).mp hP.2))
  refine ⟨heq, ?_⟩
  intro mods hmods
  rw [← heq] at hmods
  unfold Discover at hmods
  cases hp : env₁.parseAt sourcePath with
  | error e => simp [hp] at hmods
  | ok basegopath =>
    simp only [hp, findModuleProtoPkgs] at hmods
    cases hi : env₁.discoverPackages sourcePath with
    | error e => simp [hi] at hmods
    | ok allprotopkgs =>
      simp only [hi] at hmods
      obtain ⟨news, hnews, hall⟩ := discoverEach_ok env₁ _ _ [] mods hmods
      simp only [List.nil_append] at hnews
      subst hnews
      rw [filterModuleProtoPkgs_eq] at hall
      refine ⟨basegopath, allprotopkgs, rfl, rfl, hall.imp ?_⟩
      intro P m hm
      rcases discover_ok_cases env₁ _ P m hm with ⟨hnf, hzero⟩ | ⟨msgs, name, hin, _, hmod⟩
      · exact Or.inl ⟨hnf, hzero⟩
      · refine Or.inr ⟨msgs, hin, ?_, ?_, ?_, ?_⟩
        · rw [hmod]
        · rw [hmod]; exact fillMsgs_eq P msgs
        · rw [hmod]; exact fillTypes_eq P msgs
        · rw [hmod]; exact fillQueries_eq P

/-- C13 at the sample project and the same project under another filesystem
layout, where the inspector is reached under other directory names and answers
differently for directories of packages that are not kept: the two runs return
the same list, the one module of the one kept package. -/
theorem Discover_deterministic_witness :
    sampleEnv.discoverMessages (pkgpath sampleEnv sampleDiscoverer pkgBank)
      ≠ relocatedEnv.discoverMessages (pkgpath relocatedEnv sampleDiscoverer pkgBank) ∧
    Discover sampleEnv "/src" = Discover relocatedEnv "/src" ∧
    Discover relocatedEnv "/src" = .ok [mymoduleDiscovered] ∧
    ∃ basegopath allprotopkgs,
      sampleEnv.parseAt "/src" = .ok basegopath ∧
      sampleEnv.discoverPackages "/src" = .ok allprotopkgs ∧
      List.Forall₂
        (fun (P : Package) (m : Module) =>
          (sampleEnv.discoverMessages
              (pkgpath sampleEnv { sourcePath := "/src", basegopath := basegopath } P)
            = .error GoError.errModuleNotFound ∧ m = {}) ∨
          ∃ msgs,
            sampleEnv.discoverMessages
              (pkgpath sampleEnv { sourcePath := "/src", basegopath := basegopath } P)
              = .ok msgs ∧
            m.Pkg = P ∧
            m.Msgs = msgs.filterMap (msgRecord P) ∧
            m.Types = (P.Messages.filter (isType P msgs)).map
              (fun protomsg => ({ Name := protomsg.Name, FilePath := protomsg.Path } : ModuleType)) ∧
            m.Queries
              = P.Services.flatMap (fun s => s.RPCFuncs.flatMap (fun q => queryRecords P s q)))
        (allprotopkgs.filter (fun P => HasPrefix P.GoImportName basegopath))
        [mymoduleDiscovered] :=
  have hruns : ∀ basegopath allprotopkgs,
      sampleEnv.parseAt "/src" = .ok basegopath →
      sampleEnv.discoverPackages "/src" = .ok allprotopkgs →
      ∀ P ∈ allprotopkgs, (∃ rest : String, P.GoImportName = basegopath ++ rest) →
        sampleEnv.discoverMessages
            (pkgpath sampleEnv { sourcePath := "/src", basegopath := basegopath } P)
          = relocatedEnv.discoverMessages
            (pkgpath relocatedEnv { sourcePath := "/src", basegopath := basegopath } P) := by
    intro basegopath allprotopkgs hp hi P hP hpre
    have hb : basegopath = "github.com/acme/chain" := (Except.ok.inj hp).symm
    have ha : allprotopkgs = [pkgBank, pkgMymodule] := (Except.ok.inj hi).symm
    subst hb ha
    have hkeep := (HasPrefix_iff _ _).mpr hpre
    rcases List.mem_cons.mp hP with rfl | hP
    · exact absurd hkeep (by decide)
    · rcases List.mem_cons.mp hP with rfl | hP
      · rfl
      · simp at hP
  ⟨by decide,
   (Discover_deterministic sampleEnv relocatedEnv "/src" rfl rfl hruns).1,
   by decide,
   (Discover_deterministic sampleEnv relocatedEnv "/src" rfl rfl hruns).2
     [mymoduleDiscovered] (by decide)⟩

/-! ## `Generate`: order of the generation modes -/

/-- The calls of `Generate` are the setup, then Go generation if it is enabled,
then JS generation if it is enabled and nothing failed before. -/
theorem Generate_calls_shape (lib : PathLib) (run : GenRun) (appPath protoDir : String)
    (options : List GenOption) :
    (Generate lib run appPath protoDir options).2 = [.setup] ∨
    (Generate lib run appPath protoDir options).2 = [.setup, .generateGo] ∨
    (∃ jsCalls, (Generate lib run appPath protoDir options).2 = [.setup, .generateJS jsCalls]) ∨
    (∃ jsCalls, (Generate lib run appPath protoDir options).2
      = [.setup, .generateGo, .generateJS jsCalls]) := by
  unfold Generate
  cases run.setup with
  | error e => exact Or.inl rfl
  | ok deps =>
    simp only
    by_cases hgo : (applyOptions options).gomodPath = ""
    · simp only [hgo, ne_eq, not_true_eq_false, if_false]
      cases (applyOptions options).jsOut with
      | none => exact Or.inl rfl
      | some jsOut =>
        simp only
        rcases generateJS lib _ jsOut run.js with ⟨_ | e, jsCalls⟩
        · exact Or.inr (Or.inr (Or.inl ⟨jsCalls, rfl⟩))
        · exact Or.inr (Or.inr (Or.inl ⟨jsCalls, rfl⟩))
    · simp only [ne_eq, hgo, not_false_eq_true, if_true]
      cases run.generateGo with
      | some e => exact Or.inr (Or.inl rfl)
      | none =>
        simp only
        cases (applyOptions options).jsOut with
        | none => exact Or.inr (Or.inl rfl)
        | some jsOut =>
          simp only
          rcases generateJS lib _ jsOut run.js with ⟨_ | e, jsCalls⟩
          · exact Or.inr (Or.inr (Or.inr ⟨jsCalls, rfl⟩))
          · exact Or.inr (Or.inr (Or.inr ⟨jsCalls, rfl⟩))

/-- A failing setup is all `Generate` does. -/
theorem Generate_of_setup_error (lib : PathLib) (run : GenRun) (appPath protoDir : String)
    (options : List GenOption) (e : GoError) (hsetup : run.setup = .error e) :
    Generate lib run appPath protoDir options = (some e, [.setup]) := by
  simp [Generate, hsetup]

/-- With Go generation disabled, `Generate` goes from the setup to the JS
generation, if enabled, and returns what that returns. -/
theorem Generate_of_go_disabled (lib : PathLib) (run : GenRun) (appPath protoDir : String)
    (options : List GenOption) (deps : List Version) (hsetup : run.setup = .ok deps)
    (hgo : (applyOptions options).gomodPath = "") :
    Generate lib run appPath protoDir options =
      match (applyOptions options).jsOut with
      | none => (none, [.setup])
      | some jsOut =>
        ((generateJS lib { appPath := appPath, protoDir := protoDir,
                           o := applyOptions options, deps := deps } jsOut run.js).1,
         [.setup, .generateJS
           (generateJS lib { appPath := appPath, protoDir := protoDir,
                             o := applyOptions options, deps := deps } jsOut run.js).2]) := by
  simp only [Generate, hsetup, hgo, ne_eq, not_true_eq_false, if_false]
  cases (applyOptions options).jsOut with
  | none => rfl
  | some jsOut =>
    simp only
    rcases generateJS lib _ jsOut run.js with ⟨_ | e, jsCalls⟩ <;> rfl

/-- With Go generation enabled, `Generate` goes from the setup to the Go
generation, returns its error if it fails, and otherwise goes on to the JS
generation, if enabled, and returns what that returns. -/
theorem Generate_of_go_enabled (lib : PathLib) (run : GenRun) (appPath protoDir : String)
    (options : List GenOption) (deps : List Version) (hsetup : run.setup = .ok deps)
    (hgo : (applyOptions options).gomodPath ≠ "") :
    Generate lib run appPath protoDir options =
      match run.generateGo with
      | some e => (some e, [.setup, .generateGo])
      | none =>
        match (applyOptions options).jsOut with
        | none => (none, [.setup, .generateGo])
        | some jsOut =>
          ((generateJS lib { appPath := appPath, protoDir := protoDir,
                             o := applyOptions options, deps := deps } jsOut run.js).1,
           [.setup, .generateGo, .generateJS
             (generateJS lib { appPath := appPath, protoDir := protoDir,
                               o := applyOptions options, deps := deps } jsOut run.js).2]) := by
  simp only [Generate, hsetup, hgo, ne_eq, not_false_eq_true, if_true]
  cases run.generateGo with
  | some e => rfl
  | none =>
    simp only
    cases (applyOptions options).jsOut with
    | none => rfl
    | some jsOut =>
      simp only
      rcases generateJS lib _ jsOut run.js with ⟨_ | e, jsCalls⟩ <;> rfl

/-- C14: (1) in every configuration, no call of Go generation follows a call of
JS generation; (2) with both modes enabled, a call of JS generation is the
third call of `Generate`, after the setup and after Go generation, which
returned no error; and when Go generation is reached and fails, `Generate`
returns its error and its calls are the setup and Go generation only. -/
theorem Generate_go_before_js :
    (∀ (lib : PathLib) (run : GenRun) (appPath protoDir : String) (options : List GenOption)
        (pre post : List GenCall) (jsCalls : List JSEvent),
      (Generate lib run appPath protoDir options).2 = pre ++ GenCall.generateJS jsCalls :: post →
      GenCall.generateGo ∉ post) ∧
    (∀ (lib : PathLib) (run : GenRun) (appPath protoDir : String) (options : List GenOption)
        (jsOut : Module → String),
      (applyOptions options).gomodPath ≠ "" → (applyOptions options).jsOut = some jsOut →
      (∀ jsCalls, GenCall.generateJS jsCalls ∈ (Generate lib run appPath protoDir options).2 →
        run.generateGo = none ∧
        (Generate lib run appPath protoDir options).2
          = [.setup, .generateGo, .generateJS jsCalls]) ∧
      (∀ deps e, run.setup = .ok deps → run.generateGo = some e →
        Generate lib run appPath protoDir options = (some e, [.setup, .generateGo]))) := by
  constructor
  · intro lib run appPath protoDir options pre post jsCalls hsplit
    have hpost : post = [] := by
      rcases Generate_calls_shape lib run appPath protoDir options with h | h | ⟨c, h⟩ | ⟨c, h⟩
      all_goals
        rw [h] at hsplit
        have hlen := congrArg List.length hsplit
        simp only [List.length_cons, List.length_nil, List.length_append] at hlen
        have hget := congrArg (fun l => l.get? pre.length) hsplit
        simp only [List.get?_eq_getElem?, List.getElem?_append_right (le_refl _),
          Nat.sub_self, List.getElem?_cons_zero] at hget
        rcases hpre : pre with _ | ⟨a, _ | ⟨b, _ | ⟨c', rest⟩⟩⟩
        all_goals
          subst hpre
          simp at hget hsplit hlen
        all_goals exact List.length_eq_zero.mp (by omega)
    rw [hpost]
    simp
  · intro lib run appPath protoDir options jsOut hgo hjs
    constructor
    · intro jsCalls hmem
      cases hsetup : run.setup with
      | error e =>
        rw [Generate_of_setup_error lib run appPath protoDir options e hsetup] at hmem
        simp at hmem
      | ok deps =>
        have heq := Generate_of_go_enabled lib run appPath protoDir options deps hsetup hgo
        cases hgen : run.generateGo with
        | some e =>
          rw [heq, hgen] at hmem
          simp at hmem
        | none =>
          rw [hgen, hjs] at heq
          rw [heq] at hmem ⊢
          simp only [List.mem_cons, List.mem_singleton, GenCall.generateJS.injEq,
            List.not_mem_nil, or_false, false_or, reduceCtorEq] at hmem
          exact ⟨rfl, by rw [hmem]⟩
    · intro deps e hsetup hgen
      rw [Generate_of_go_enabled lib run appPath protoDir options deps hsetup hgo, hgen]

/-- C14 at the sample app with both modes enabled: when every call succeeds the
calls are setup, Go generation, JS generation; when Go generation fails
`Generate` returns its error without a call of JS generation. -/
theorem Generate_go_before_js_witness :
    (∃ jsCalls, (Generate sampleLib okGenRun "/app" "proto" bothOptions).2
      = [.setup, .generateGo, .generateJS jsCalls]) ∧
    (∀ jsCalls,
      GenCall.generateJS jsCalls ∈ (Generate sampleLib okGenRun "/app" "proto" bothOptions).2 →
      okGenRun.generateGo = none ∧
      (Generate sampleLib okGenRun "/app" "proto" bothOptions).2
        = [.setup, .generateGo, .generateJS jsCalls]) ∧
    Generate sampleLib goFailsGenRun "/app" "proto" bothOptions
      = (some (GoError.other "protoc-gen-gocosmos: exit status 1"), [.setup, .generateGo]) :=
  ⟨⟨_, rfl⟩,
   (Generate_go_before_js.2 sampleLib okGenRun "/app" "proto" bothOptions sampleJsOut
     (by decide) rfl).1,
   (Generate_go_before_js.2 sampleLib goFailsGenRun "/app" "proto" bothOptions sampleJsOut
     (by decide) rfl).2 _ _ rfl rfl⟩

/-- C15 (as amended): with neither Go generation nor JS generation enabled,
the only call of `Generate` is the setup; it returns no error when the setup
succeeds and the setup's error when it fails. -/
theorem Generate_neither_mode (lib : PathLib) (run : GenRun) (appPath protoDir : String)
    (options : List GenOption)
    (hgo : (applyOptions options).gomodPath = "") (hjs : (applyOptions options).jsOut = none) :
    (Generate lib run appPath protoDir options).2 = [.setup] ∧
    (∀ deps, run.setup = .ok deps → (Generate lib run appPath protoDir options).1 = none) ∧
    (∀ e, run.setup = .error e → (Generate lib run appPath protoDir options).1 = some e) := by
  cases hsetup : run.setup with
  | error e =>
    rw [Generate_of_setup_error lib run appPath protoDir options e hsetup]
    simp
  | ok deps =>
    rw [Generate_of_go_disabled lib run appPath protoDir options deps hsetup hgo, hjs]
    simp

/-- C15 at the sample app without modes, the setup succeeding. -/
theorem Generate_neither_mode_witness :
    okGenRun.setup = .ok [{ Path := "github.com/cosmos/cosmos-sdk", Version := "v0.42.1" }] ∧
    (Generate sampleLib okGenRun "/app" "proto" neitherOptions).2 = [.setup] ∧
    (Generate sampleLib okGenRun "/app" "proto" neitherOptions).1 = none :=
  ⟨rfl,
   (Generate_neither_mode sampleLib okGenRun "/app" "proto" neitherOptions rfl rfl).1,
   (Generate_neither_mode sampleLib okGenRun "/app" "proto" neitherOptions rfl rfl).2.1 _ rfl⟩

/-- C15 as first stated fails: with neither mode enabled `Generate` still runs
the setup and returns its error when it fails. -/
theorem Generate_neither_mode_counterexample :
    ¬ ∀ (lib : PathLib) (run : GenRun) (appPath protoDir : String) (options : List GenOption),
      (applyOptions options).gomodPath = "" → (applyOptions options).jsOut = none →
      (Generate lib run appPath protoDir options).1 = none := by
  intro hclaim
  have h := hclaim sampleLib setupFailsGenRun "/app" "proto" neitherOptions rfl rfl
  exact absurd h (by decide)

/-- C16 (as amended): with Go generation disabled and JS generation enabled,
`Generate` never invokes Go generation; after a successful setup its calls are
the setup and JS generation and it returns exactly what JS generation returns,
so no error when that returns none; after a failed setup it returns the error
of the setup, and the setup is its only call: JS generation is not run. -/
theorem Generate_js_only (lib : PathLib) (run : GenRun) (appPath protoDir : String)
    (options : List GenOption) (jsOut : Module → String)
    (hgo : (applyOptions options).gomodPath = "")
    (hjs : (applyOptions options).jsOut = some jsOut) :
    GenCall.generateGo ∉ (Generate lib run appPath protoDir options).2 ∧
    (∀ deps, run.setup = .ok deps →
      Generate lib run appPath protoDir options
        = ((generateJS lib { appPath := appPath, protoDir := protoDir,
                             o := applyOptions options, deps := deps } jsOut run.js).1,
           [.setup, .generateJS
             (generateJS lib { appPath := appPath, protoDir := protoDir,
                               o := applyOptions options, deps := deps } jsOut run.js).2]) ∧
      ((generateJS lib { appPath := appPath, protoDir := protoDir,
                         o := applyOptions options, deps := deps } jsOut run.js).1 = none →
        (Generate lib run appPath protoDir options).1 = none)) ∧
    (∀ e, run.setup = .error e →
      Generate lib run appPath protoDir options = (some e, [.setup]) ∧
      ∀ jsCalls, GenCall.generateJS jsCalls ∉ (Generate lib run appPath protoDir options).2) := by
  have hok : ∀ deps, run.setup = .ok deps →
      Generate lib run appPath protoDir options
        = ((generateJS lib { appPath := appPath, protoDir := protoDir,
                             o := applyOptions options, deps := deps } jsOut run.js).1,
           [.setup, .generateJS
             (generateJS lib { appPath := appPath, protoDir := protoDir,
                               o := applyOptions options, deps := deps } jsOut run.js).2]) := by
    intro deps hsetup
    rw [Generate_of_go_disabled lib run appPath protoDir options deps hsetup hgo, hjs]
  refine ⟨?_, ?_, ?_⟩
  · cases hsetup : run.setup with
    | error e =>
      rw [Generate_of_setup_error lib run appPath protoDir options e hsetup]
      simp
    | ok deps =>
      rw [hok deps hsetup]
      simp
  · intro deps hsetup
    refine ⟨hok deps hsetup, ?_⟩
    intro h
    rw [hok deps hsetup]
    exact h
  · intro e hsetup
    rw [Generate_of_setup_error lib run appPath protoDir options e hsetup]
    exact ⟨rfl, by simp⟩

/-- C16 at the sample app with JS generation only: every call succeeding,
`Generate` succeeds without Go generation; with a failing setup it returns the
error of the setup after the setup alone. -/
theorem Generate_js_only_witness :
    (Generate sampleLib okGenRun "/app" "proto" jsOnlyOptions).1 = none ∧
    GenCall.generateGo ∉ (Generate sampleLib okGenRun "/app" "proto" jsOnlyOptions).2 ∧
    Generate sampleLib setupFailsGenRun "/app" "proto" jsOnlyOptions
      = (some (GoError.other "go.mod: no such file"), [.setup]) :=
  ⟨((Generate_js_only sampleLib okGenRun "/app" "proto" jsOnlyOptions sampleJsOut
      rfl rfl).2.1 _ rfl).2 (by decide),
   (Generate_js_only sampleLib okGenRun "/app" "proto" jsOnlyOptions sampleJsOut
      rfl rfl).1,
   ((Generate_js_only sampleLib setupFailsGenRun "/app" "proto" jsOnlyOptions sampleJsOut
      rfl rfl).2.2 _ rfl).1⟩

/-- C16 as first stated fails: with JS generation only and a JS pipeline that
succeeds for whatever dependencies, `Generate` returns the error of a failing
setup. -/
theorem Generate_js_only_counterexample :
    ¬ ∀ (lib : PathLib) (run : GenRun) (appPath protoDir : String) (options : List GenOption)
        (jsOut : Module → String),
      (applyOptions options).gomodPath = "" → (applyOptions options).jsOut = some jsOut →
      (∀ deps, (generateJS lib { appPath := appPath, protoDir := protoDir,
                                 o := applyOptions options, deps := deps } jsOut run.js).1
        = none) →
      GenCall.generateGo ∉ (Generate lib run appPath protoDir options).2 ∧
      (Generate lib run appPath protoDir options).1 = none := by
  intro hclaim
  have h := hclaim sampleLib setupFailsGenRun "/app" "proto" jsOnlyOptions sampleJsOut rfl rfl
    (fun deps => rfl)
  exact absurd h.2 (by decide)

/-! ## One module task -/

/-- `generateModule` executes the stage plan in order up to and including the
first stage that fails: it returns what that execution returns and its stage
calls are the calls of that execution. -/
theorem generateModule_runPlan (lib : PathLib) (g : jsGenerator) (jsOut : Module → String)
    (run : ModuleRun) (tsprotoPluginPath appPath : String) (m : Module) :
    (generateModule lib g jsOut run tsprotoPluginPath appPath m).1
      = (runPlan ((stagePlan (decide (g.g.o.vuexStoreRootPath ≠ ""))).map
          (fun s => (s, run.outcome s)))).1 ∧
    stageSites (generateModule lib g jsOut run tsprotoPluginPath appPath m).2
      = (runPlan ((stagePlan (decide (g.g.o.vuexStoreRootPath ≠ ""))).map
          (fun s => (s, run.outcome s)))).2 := by
  by_cases hv : g.g.o.vuexStoreRootPath = ""
  ·
    cases h0 : run.resolveInclude with
    | error e => simp [generateModule, generateModuleDeferred, stageSites, stagePlan, runPlan, ModuleRun.outcome, ModuleEvent.site, hv, *]
    | ok v0 =>
      cases h1 : run.removeAllOut with
      | some e => simp [generateModule, generateModuleDeferred, stageSites, stagePlan, runPlan, ModuleRun.outcome, ModuleEvent.site, hv, *]
      | none =>
        cases h2 : run.mkdirAll with
        | some e => simp [generateModule, generateModuleDeferred, stageSites, stagePlan, runPlan, ModuleRun.outcome, ModuleEvent.site, hv, *]
        | none =>
          cases h3 : run.protocTypes with
          | some e => simp [generateModule, generateModuleDeferred, stageSites, stagePlan, runPlan, ModuleRun.outcome, ModuleEvent.site, hv, *]
          | none =>
            cases h4 : run.tempDir with
            | error e => simp [generateModule, generateModuleDeferred, stageSites, stagePlan, runPlan, ModuleRun.outcome, ModuleEvent.site, hv, *]
            | ok v4 =>
              cases h5 : run.protocOpenAPI with
              | some e => simp [generateModule, generateModuleDeferred, stageSites, stagePlan, runPlan, ModuleRun.outcome, ModuleEvent.site, hv, *]
              | none =>
                cases h6 : run.staGenerate with
                | some e => simp [generateModule, generateModuleDeferred, stageSites, stagePlan, runPlan, ModuleRun.outcome, ModuleEvent.site, hv, *]
                | none =>
                  cases h7 : run.templateJSClientWrite with
                  | some e => simp [generateModule, generateModuleDeferred, stageSites, stagePlan, runPlan, ModuleRun.outcome, ModuleEvent.site, hv, *]
                  | none =>
                    cases h8 : run.tscGenerate with
                    | some e => simp [generateModule, generateModuleDeferred, stageSites, stagePlan, runPlan, ModuleRun.outcome, ModuleEvent.site, hv, *]
                    | none =>
                      simp [generateModule, generateModuleDeferred, stageSites, stagePlan, runPlan, ModuleRun.outcome, ModuleEvent.site, hv, *]
  ·
    cases h0 : run.resolveInclude with
    | error e => simp [generateModule, generateModuleDeferred, stageSites, stagePlan, runPlan, ModuleRun.outcome, ModuleEvent.site, hv, *]
    | ok v0 =>
      cases h1 : run.removeAllOut with
      | some e => simp [generateModule, generateModuleDeferred, stageSites, stagePlan, runPlan, ModuleRun.outcome, ModuleEvent.site, hv, *]
      | none =>
        cases h2 : run.mkdirAll with
        | some e => simp [generateModule, generateModuleDeferred, stageSites, stagePlan, runPlan, ModuleRun.outcome, ModuleEvent.site, hv, *]
        | none =>
          cases h3 : run.protocTypes with
          | some e => simp [generateModule, generateModuleDeferred, stageSites, stagePlan, runPlan, ModuleRun.outcome, ModuleEvent.site, hv, *]
          | none =>
            cases h4 : run.tempDir with
            | error e => simp [generateModule, generateModuleDeferred, stageSites, stagePlan, runPlan, ModuleRun.outcome, ModuleEvent.site, hv, *]
            | ok v4 =>
              cases h5 : run.protocOpenAPI with
              | some e => simp [generateModule, generateModuleDeferred, stageSites, stagePlan, runPlan, ModuleRun.outcome, ModuleEvent.site, hv, *]
              | none =>
                cases h6 : run.staGenerate with
                | some e => simp [generateModule, generateModuleDeferred, stageSites, stagePlan, runPlan, ModuleRun.outcome, ModuleEvent.site, hv, *]
                | none =>
                  cases h7 : run.templateJSClientWrite with
                  | some e => simp [generateModule, generateModuleDeferred, stageSites, stagePlan, runPlan, ModuleRun.outcome, ModuleEvent.site, hv, *]
                  | none =>
                    cases h8 : run.templateVuexStoreWrite with
                    | some e => simp [generateModule, generateModuleDeferred, stageSites, stagePlan, runPlan, ModuleRun.outcome, ModuleEvent.site, hv, *]
                    | none =>
                      cases h9 : run.tscGenerate with
                      | some e => simp [generateModule, generateModuleDeferred, stageSites, stagePlan, runPlan, ModuleRun.outcome, ModuleEvent.site, hv, *]
                      | none =>
                        simp [generateModule, generateModuleDeferred, stageSites, stagePlan, runPlan, ModuleRun.outcome, ModuleEvent.site, hv, *]

/-- The deferred removal in `generateModule`: when the scratch directory has
been created, the removal is the last call of the task and its only removal of
the scratch directory; otherwise the task makes no such call. -/
theorem generateModule_cleanup (lib : PathLib) (g : jsGenerator) (jsOut : Module → String)
    (run : ModuleRun) (tsprotoPluginPath appPath : String) (m : Module) :
    (∃ oaitemp, run.tempDir = .ok oaitemp ∧
      ModuleEvent.tempDir "" "" ∈ (generateModule lib g jsOut run tsprotoPluginPath appPath m).2 ∧
      (generateModule lib g jsOut run tsprotoPluginPath appPath m).2
        = (generateModule lib g jsOut run tsprotoPluginPath appPath m).2.dropLast
          ++ [.removeAllTemp oaitemp] ∧
      ∀ ev ∈ (generateModule lib g jsOut run tsprotoPluginPath appPath m).2.dropLast,
        ev.site ≠ Site.removeAllTemp) ∨
    ((ModuleEvent.tempDir "" "" ∉ (generateModule lib g jsOut run tsprotoPluginPath appPath m).2 ∨
        ∃ e, run.tempDir = .error e) ∧
      ∀ ev ∈ (generateModule lib g jsOut run tsprotoPluginPath appPath m).2,
        ev.site ≠ Site.removeAllTemp) := by
  by_cases hv : g.g.o.vuexStoreRootPath = ""
  ·
    cases h0 : run.resolveInclude with
    | error e => simp [generateModule, generateModuleDeferred, ModuleEvent.site, hv, *]
    | ok v0 =>
      cases h1 : run.removeAllOut with
      | some e => simp [generateModule, generateModuleDeferred, ModuleEvent.site, hv, *]
      | none =>
        cases h2 : run.mkdirAll with
        | some e => simp [generateModule, generateModuleDeferred, ModuleEvent.site, hv, *]
        | none =>
          cases h3 : run.protocTypes with
          | some e => simp [generateModule, generateModuleDeferred, ModuleEvent.site, hv, *]
          | none =>
            cases h4 : run.tempDir with
            | error e => simp [generateModule, generateModuleDeferred, ModuleEvent.site, hv, *]
            | ok v4 =>
              cases h5 : run.protocOpenAPI with
              | some e => simp [generateModule, generateModuleDeferred, ModuleEvent.site, hv, *]
              | none =>
                cases h6 : run.staGenerate with
                | some e => simp [generateModule, generateModuleDeferred, ModuleEvent.site, hv, *]
                | none =>
                  cases h7 : run.templateJSClientWrite with
                  | some e => simp [generateModule, generateModuleDeferred, ModuleEvent.site, hv, *]
                  | none =>
                    cases h8 : run.tscGenerate with
                    | some e => simp [generateModule, generateModuleDeferred, ModuleEvent.site, hv, *]
                    | none =>
                      simp [generateModule, generateModuleDeferred, ModuleEvent.site, hv, *]
  ·
    cases h0 : run.resolveInclude with
    | error e => simp [generateModule, generateModuleDeferred, ModuleEvent.site, hv, *]
    | ok v0 =>
      cases h1 : run.removeAllOut with
      | some e => simp [generateModule, generateModuleDeferred, ModuleEvent.site, hv, *]
      | none =>
        cases h2 : run.mkdirAll with
        | some e => simp [generateModule, generateModuleDeferred, ModuleEvent.site, hv, *]
        | none =>
          cases h3 : run.protocTypes with
          | some e => simp [generateModule, generateModuleDeferred, ModuleEvent.site, hv, *]
          | none =>
            cases h4 : run.tempDir with
            | error e => simp [generateModule, generateModuleDeferred, ModuleEvent.site, hv, *]
            | ok v4 =>
              cases h5 : run.protocOpenAPI with
              | some e => simp [generateModule, generateModuleDeferred, ModuleEvent.site, hv, *]
              | none =>
                cases h6 : run.staGenerate with
                | some e => simp [generateModule, generateModuleDeferred, ModuleEvent.site, hv, *]
                | none =>
                  cases h7 : run.templateJSClientWrite with
                  | some e => simp [generateModule, generateModuleDeferred, ModuleEvent.site, hv, *]
                  | none =>
                    cases h8 : run.templateVuexStoreWrite with
                    | some e => simp [generateModule, generateModuleDeferred, ModuleEvent.site, hv, *]
                    | none =>
                      cases h9 : run.tscGenerate with
                      | some e => simp [generateModule, generateModuleDeferred, ModuleEvent.site, hv, *]
                      | none =>
                        simp [generateModule, generateModuleDeferred, ModuleEvent.site, hv, *]

/-- The calls of an executed plan are an initial part of the plan. -/
theorem runPlan_prefix (plan : List (Site × Option GoError)) :
    (runPlan plan).2 <+: plan.map Prod.fst := by
  induction plan with
  | nil => exact List.prefix_refl _
  | cons x plan ih =>
    rcases x with ⟨s, _ | e⟩
    · simpa [runPlan, List.cons_prefix_cons] using ih
    · exact ⟨plan.map Prod.fst, rfl⟩

/-- An executed plan returns no error only if all its calls were made and none
failed. -/
theorem runPlan_none (plan : List (Site × Option GoError)) (h : (runPlan plan).1 = none) :
    (runPlan plan).2 = plan.map Prod.fst ∧ ∀ x ∈ plan, x.2 = none := by
  induction plan with
  | nil => simp [runPlan]
  | cons x plan ih =>
    rcases x with ⟨s, _ | e⟩
    · simp only [runPlan] at h
      obtain ⟨hcalls, hall⟩ := ih h
      refine ⟨by simp [runPlan, hcalls], ?_⟩
      intro y hy
      rcases List.mem_cons.mp hy with rfl | hy
      · rfl
      · exact hall y hy
    · simp [runPlan] at h

/-- An executed plan returns an error only as the error of its last call, the
calls before it having returned none. -/
theorem runPlan_some (plan : List (Site × Option GoError)) (e : GoError)
    (h : (runPlan plan).1 = some e) :
    ∃ done failed, (runPlan plan).2 = done ++ [failed] ∧ (failed, some e) ∈ plan ∧
      ∀ s ∈ done, (s, none) ∈ plan := by
  induction plan with
  | nil => simp [runPlan] at h
  | cons x plan ih =>
    rcases x with ⟨s, _ | e'⟩
    · simp only [runPlan] at h
      obtain ⟨done, failed, hcalls, hfailed, hdone⟩ := ih h
      refine ⟨s :: done, failed, by simp [runPlan, hcalls], List.mem_cons_of_mem _ hfailed, ?_⟩
      intro t ht
      rcases List.mem_cons.mp ht with rfl | ht
      · exact List.mem_cons_self _ _
      · exact List.mem_cons_of_mem _ (hdone t ht)
    · simp only [runPlan, Option.some.injEq] at h
      subst h
      exact ⟨[], s, by simp [runPlan], List.mem_cons_self _ _, by simp⟩

/-- In an executed plan without repeated call sites, a call that was made and
failed is the last call made, and its error is the error returned. -/
theorem runPlan_failed (plan : List (Site × Option GoError))
    (hnodup : (plan.map Prod.fst).Nodup) (s : Site) (e : GoError)
    (hcalled : s ∈ (runPlan plan).2) (hfailed : (s, some e) ∈ plan) :
    (runPlan plan).1 = some e ∧ (runPlan plan).2.getLast? = some s := by
  induction plan with
  | nil => simp at hfailed
  | cons x plan ih =>
    rcases x with ⟨s0, _ | e0⟩
    · simp only [List.map_cons, List.nodup_cons] at hnodup
      have hrest : (s, some e) ∈ plan := by
        rcases List.mem_cons.mp hfailed with h | h
        · simp at h
        · exact h
      have hne : s ≠ s0 := by
        rintro rfl
        exact hnodup.1 (List.mem_map.mpr ⟨_, hrest, rfl⟩)
      simp only [runPlan, List.mem_cons] at hcalled
      have hcalled' : s ∈ (runPlan plan).2 := hcalled.resolve_left hne
      obtain ⟨hres, hlast⟩ := ih hnodup.2 hcalled' hrest
      refine ⟨hres, ?_⟩
      simp only [runPlan]
      cases hcalls : (runPlan plan).2 with
      | nil => rw [hcalls] at hcalled'; simp at hcalled'
      | cons c cs =>
        rw [hcalls] at hlast
        rw [List.getLast?_cons_cons]
        exact hlast
    · simp only [List.map_cons, List.nodup_cons] at hnodup
      simp only [runPlan, List.mem_singleton] at hcalled
      subst hcalled
      rcases List.mem_cons.mp hfailed with h | h
      · simp only [Prod.mk.injEq, Option.some.injEq, true_and] at h
        subst h
        simp [runPlan]
      · exact absurd (List.mem_map.mpr ⟨_, h, rfl⟩) hnodup.1

/-- C17: the stage calls of `generateModule` are an initial part of the stage
plan (include paths, remove and create the output directory, typed bindings,
API description, REST client, module wrapper, store wrapper only with store
generation, batch compile), and no call site is used twice; the task returns
no error only if the whole plan was called and no stage failed; when it
returns an error, that is the error of the last stage called, every stage
called before it having succeeded; and a stage that was called and failed is
the last stage called and its error is the task's result. -/
theorem generateModule_stage_order (lib : PathLib) (g : jsGenerator) (jsOut : Module → String)
    (run : ModuleRun) (tsprotoPluginPath appPath : String) (m : Module) :
    stageSites (generateModule lib g jsOut run tsprotoPluginPath appPath m).2
      <+: stagePlan (decide (g.g.o.vuexStoreRootPath ≠ "")) ∧
    ((generateModule lib g jsOut run tsprotoPluginPath appPath m).2.map ModuleEvent.site).Nodup ∧
    ((generateModule lib g jsOut run tsprotoPluginPath appPath m).1 = none →
      stageSites (generateModule lib g jsOut run tsprotoPluginPath appPath m).2
        = stagePlan (decide (g.g.o.vuexStoreRootPath ≠ "")) ∧
      ∀ s ∈ stagePlan (decide (g.g.o.vuexStoreRootPath ≠ "")), run.outcome s = none) ∧
    (∀ e, (generateModule lib g jsOut run tsprotoPluginPath appPath m).1 = some e →
      ∃ done failed,
        stageSites (generateModule lib g jsOut run tsprotoPluginPath appPath m).2
          = done ++ [failed] ∧
        run.outcome failed = some e ∧ ∀ s ∈ done, run.outcome s = none) ∧
    (∀ s ∈ stageSites (generateModule lib g jsOut run tsprotoPluginPath appPath m).2,
      ∀ e, run.outcome s = some e →
        (generateModule lib g jsOut run tsprotoPluginPath appPath m).1 = some e ∧
        (stageSites (generateModule lib g jsOut run tsprotoPluginPath appPath m).2).getLast?
          = some s) := by
  obtain ⟨hres, hsites⟩ := generateModule_runPlan lib g jsOut run tsprotoPluginPath appPath m
  have hmap : ((stagePlan (decide (g.g.o.vuexStoreRootPath ≠ ""))).map
      (fun s => (s, run.outcome s))).map Prod.fst
        = stagePlan (decide (g.g.o.vuexStoreRootPath ≠ "")) := by
    simp [List.map_map, Function.comp_def]
  have hinit : stageSites (generateModule lib g jsOut run tsprotoPluginPath appPath m).2
      <+: stagePlan (decide (g.g.o.vuexStoreRootPath ≠ "")) := by
    have hrun := runPlan_prefix ((stagePlan (decide (g.g.o.vuexStoreRootPath ≠ ""))).map
      (fun s => (s, run.outcome s)))
    rw [hmap] at hrun
    rw [hsites]
    exact hrun
  have hplan : ∀ store : Bool, (stagePlan store).Nodup := by decide
  have hstage : (stageSites
      (generateModule lib g jsOut run tsprotoPluginPath appPath m).2).Nodup :=
    (hplan _).sublist hinit.sublist
  refine ⟨hinit, ?_, ?_, ?_, ?_⟩
  rotate_left 3
  · intro s hs e he
    have hplanmem : s ∈ stagePlan (decide (g.g.o.vuexStoreRootPath ≠ "")) :=
      hinit.subset hs
    have hfailed := runPlan_failed
      ((stagePlan (decide (g.g.o.vuexStoreRootPath ≠ ""))).map (fun s => (s, run.outcome s)))
      (by rw [hmap]; exact hplan _) s e (by rw [← hsites]; exact hs)
      (List.mem_map.mpr ⟨s, hplanmem, by rw [he]⟩)
    rw [hres, hsites]
    exact hfailed
  · rcases generateModule_cleanup lib g jsOut run tsprotoPluginPath appPath m with
      ⟨oaitemp, _, _, hlast, hfront⟩ | ⟨_, hnone⟩
    · generalize (generateModule lib g jsOut run tsprotoPluginPath appPath m).2 = calls
        at hstage hlast hfront
      generalize calls.dropLast = front at hlast hfront
      subst hlast
      have hfilter : stageSites (front ++ [ModuleEvent.removeAllTemp oaitemp])
          = front.map ModuleEvent.site := by
        unfold stageSites
        simp only [List.map_append, List.filter_append, List.map_cons, List.map_nil]
        rw [List.filter_eq_self.mpr (by
          intro s hs
          obtain ⟨ev, hev, rfl⟩ := List.mem_map.mp hs
          simpa using hfront ev hev)]
        simp [ModuleEvent.site]
      rw [hfilter] at hstage
      rw [List.map_append]
      refine List.Nodup.append hstage (by simp) ?_
      intro s hs hs'
      simp only [List.map_cons, List.map_nil, List.mem_singleton, ModuleEvent.site] at hs'
      subst hs'
      obtain ⟨ev, hev, hsite⟩ := List.mem_map.mp hs
      exact hfront ev hev hsite
    · have hfilter : stageSites (generateModule lib g jsOut run tsprotoPluginPath appPath m).2
          = (generateModule lib g jsOut run tsprotoPluginPath appPath m).2.map
              ModuleEvent.site := by
        unfold stageSites
        exact List.filter_eq_self.mpr (by
          intro s hs
          obtain ⟨ev, hev, rfl⟩ := List.mem_map.mp hs
          simpa using hnone ev hev)
      rw [← hfilter]
      exact hstage
  · intro hnone
    rw [hres] at hnone
    obtain ⟨hcalls, hall⟩ := runPlan_none _ hnone
    refine ⟨by rw [hsites, hcalls, hmap], ?_⟩
    intro s hs
    exact hall (s, run.outcome s) (List.mem_map.mpr ⟨s, hs, rfl⟩)
  · intro e he
    rw [hres] at he
    obtain ⟨done, failed, hcalls, hfailed, hdone⟩ := runPlan_some _ e he
    refine ⟨done, failed, by rw [hsites, hcalls], ?_, ?_⟩
    · obtain ⟨s, _, hs⟩ := List.mem_map.mp hfailed
      simp only [Prod.mk.injEq] at hs
      rw [← hs.1]
      exact hs.2
    · intro s hs
      obtain ⟨t, _, ht⟩ := List.mem_map.mp (hdone s hs)
      simp only [Prod.mk.injEq] at ht
      rw [← ht.1]
      exact ht.2

/-- C17 at the blog module with store generation, the REST client conversion
failing: the task returns that error after seven stage calls, and neither the
wrappers nor the batch compile are called, though the batch compile would have
failed too. -/
theorem generateModule_stage_order_witness :
    (generateModule sampleLib sampleJsGenerator sampleJsOut staFailsRun
      "/tmp/protoc-gen-ts_proto" "/app" blogModule).1
      = some (GoError.other "sta: exit status 1") ∧
    stageSites (generateModule sampleLib sampleJsGenerator sampleJsOut staFailsRun
      "/tmp/protoc-gen-ts_proto" "/app" blogModule).2
      = [.resolveInclude, .removeAllOut, .mkdirAll, .protocTypes, .tempDir, .protocOpenAPI,
         .staGenerate] ∧
    stageSites (generateModule sampleLib sampleJsGenerator sampleJsOut okModuleRun
      "/tmp/protoc-gen-ts_proto" "/app" blogModule).2 = stagePlan true ∧
    (∀ e, (generateModule sampleLib sampleJsGenerator sampleJsOut staFailsRun
        "/tmp/protoc-gen-ts_proto" "/app" blogModule).1 = some e →
      ∃ done failed,
        stageSites (generateModule sampleLib sampleJsGenerator sampleJsOut staFailsRun
          "/tmp/protoc-gen-ts_proto" "/app" blogModule).2 = done ++ [failed] ∧
        staFailsRun.outcome failed = some e ∧ ∀ s ∈ done, staFailsRun.outcome s = none) :=
  ⟨by decide, by decide,
   ((generateModule_stage_order sampleLib sampleJsGenerator sampleJsOut okModuleRun
      "/tmp/protoc-gen-ts_proto" "/app" blogModule).2.2.1 (by decide)).1,
   (generateModule_stage_order sampleLib sampleJsGenerator sampleJsOut staFailsRun
      "/tmp/protoc-gen-ts_proto" "/app" blogModule).2.2.2.1⟩

/-- C18 (as amended): once `generateModule` has created the scratch directory,
its last call, on every exit path and whatever the later stages return, is the
removal of that directory, and it makes no other removal of it: the directory
is removed when the task exits, after every later stage that was called. -/
theorem generateModule_scratch_removed (lib : PathLib) (g : jsGenerator)
    (jsOut : Module → String) (run : ModuleRun) (tsprotoPluginPath appPath : String)
    (m : Module) (oaitemp : String)
    (hcalled : ModuleEvent.tempDir "" ""
      ∈ (generateModule lib g jsOut run tsprotoPluginPath appPath m).2)
    (hcreated : run.tempDir = .ok oaitemp) :
    ∃ front, (generateModule lib g jsOut run tsprotoPluginPath appPath m).2
        = front ++ [.removeAllTemp oaitemp] ∧
      ModuleEvent.tempDir "" "" ∈ front ∧
      ∀ ev ∈ front, ev.site ≠ Site.removeAllTemp := by
  rcases generateModule_cleanup lib g jsOut run tsprotoPluginPath appPath m with
    ⟨oaitemp', hok, hmem, hlast, hfront⟩ | ⟨hnot | ⟨e, herr⟩, _⟩
  · have hsame : oaitemp' = oaitemp := by
      rw [hok] at hcreated
      exact Except.ok.inj hcreated
    subst hsame
    refine ⟨_, hlast, ?_, hfront⟩
    rw [hlast] at hmem
    rcases List.mem_append.mp hmem with h | h
    · exact h
    · simp at h
  · exact absurd hcalled hnot
  · rw [herr] at hcreated
    exact Except.noConfusion hcreated

/-- C18 at the blog module: with every stage succeeding, and with the REST
client conversion failing, the removal of `/tmp/oai` is the last call. -/
theorem generateModule_scratch_removed_witness :
    (generateModule sampleLib sampleJsGenerator sampleJsOut okModuleRun
      "/tmp/protoc-gen-ts_proto" "/app" blogModule).2.getLast?
      = some (.removeAllTemp "/tmp/oai") ∧
    ∃ front, (generateModule sampleLib sampleJsGenerator sampleJsOut staFailsRun
        "/tmp/protoc-gen-ts_proto" "/app" blogModule).2
        = front ++ [.removeAllTemp "/tmp/oai"] ∧
      ModuleEvent.tempDir "" "" ∈ front ∧
      ∀ ev ∈ front, ev.site ≠ Site.removeAllTemp :=
  ⟨by decide,
   generateModule_scratch_removed sampleLib sampleJsGenerator sampleJsOut staFailsRun
     "/tmp/protoc-gen-ts_proto" "/app" blogModule "/tmp/oai" (by decide) rfl⟩

/-- C18 as first stated fails: when the compile of the API description
succeeds, the call that follows it is the REST client conversion, which reads
the scratch directory; the directory is not removed when that stage exits. -/
theorem generateModule_scratch_removed_counterexample :
    ¬ ∀ (lib : PathLib) (g : jsGenerator) (jsOut : Module → String) (run : ModuleRun)
        (tsprotoPluginPath appPath : String) (m : Module) (oaitemp : String),
      ModuleEvent.tempDir "" "" ∈ (generateModule lib g jsOut run tsprotoPluginPath appPath m).2 →
      run.tempDir = .ok oaitemp →
      ModuleEvent.removeAllTemp oaitemp
        ∈ (generateModule lib g jsOut run tsprotoPluginPath appPath m).2 ∧
      ∀ i ev, (generateModule lib g jsOut run tsprotoPluginPath appPath m).2.get? i = some ev →
        ev.site = Site.protocOpenAPI →
        (generateModule lib g jsOut run tsprotoPluginPath appPath m).2.get? (i + 1)
          = some (.removeAllTemp oaitemp) := by
  intro hclaim
  have h := (hclaim sampleLib sampleJsGenerator sampleJsOut okModuleRun
    "/tmp/protoc-gen-ts_proto" "/app" blogModule "/tmp/oai" (by decide) rfl).2 5
    (.protocOpenAPI Ctx.group "/tmp/oai" "proto/blog" ["/app/proto"] openAPIOut)
    (by decide) rfl
  exact absurd h (by decide)

/-! ## Task groups -/

/-- The first error of a list is none exactly when the list has no error, and
otherwise an error of the list. -/
theorem findSome_id_lawful (results : List (Option GoError)) :
    (results.findSome? id = none ↔ ∀ r ∈ results, r = none) ∧
    ∀ e, results.findSome? id = some e → some e ∈ results := by
  induction results with
  | nil => simp
  | cons r results ih =>
    cases r with
    | none =>
      simp only [List.findSome?_cons, id_eq, List.mem_cons, forall_eq_or_imp, true_and]
      exact ⟨ih.1, fun e he => Or.inr (ih.2 e he)⟩
    | some e' =>
      simp only [List.findSome?_cons, id_eq, List.mem_cons, forall_eq_or_imp,
        Option.some.injEq, reduceCtorEq, false_and, iff_false, not_false_eq_true, true_and]
      intro e he
      exact Or.inl (by rw [he])

/-- Taking the error of the first task started meets the contract of `Wait`. -/
theorem waitFirstStarted_lawful : LawfulWait waitFirstStarted :=
  fun results => findSome_id_lawful results

/-- Taking the error of the last task started meets the contract of `Wait`. -/
theorem waitLastStarted_lawful : LawfulWait waitLastStarted := by
  intro results
  obtain ⟨hnone, hsome⟩ := findSome_id_lawful results.reverse
  refine ⟨?_, ?_⟩
  · unfold waitLastStarted
    rw [hnone]
    simp
  · intro e he
    simpa using hsome e he

/-- A source-path task returns no error exactly when its discovery and all its
module tasks returned none, and otherwise the error of one of them. -/
theorem sourceTask_result (lib : PathLib) (g : jsGenerator) (jsOut : Module → String)
    (run : SourceRun) (wait : List (Option GoError) → Option GoError) (sourcePath : String)
    (hwait : LawfulWait wait) :
    ((sourceTask lib g jsOut run wait sourcePath).1 = none ↔
      ∀ r ∈ sourceTaskResults lib g jsOut run sourcePath, r = none) ∧
    ∀ e, (sourceTask lib g jsOut run wait sourcePath).1 = some e →
      some e ∈ sourceTaskResults lib g jsOut run sourcePath := by
  unfold sourceTask sourceTaskResults
  cases run.discoverModules with
  | error err => simp
  | ok modules =>
    obtain ⟨hnone, hsome⟩ := hwait
      ((moduleTasks lib g jsOut run.modules sourcePath 0 modules).map Prod.fst)
    simp only [List.mem_cons, forall_eq_or_imp, true_and]
    exact ⟨hnone, fun e he => Or.inr (hsome e he)⟩

/-- The source-path tasks return no error exactly when no discovery and no
module task of any source path returned one, and the error of a source-path
task is the error of one of those. -/
theorem sourceTasks_results (lib : PathLib) (g : jsGenerator) (jsOut : Module → String)
    (run : JSRun) (hmodules : ∀ i, LawfulWait (run.waitModules i))
    (i : Nat) (sourcePaths : List String) :
    ((∀ r ∈ (sourceTasks lib g jsOut run i sourcePaths).map Prod.fst, r = none) ↔
      ∀ r ∈ allTaskResults lib g jsOut run i sourcePaths, r = none) ∧
    ∀ e, some e ∈ (sourceTasks lib g jsOut run i sourcePaths).map Prod.fst →
      some e ∈ allTaskResults lib g jsOut run i sourcePaths := by
  induction sourcePaths generalizing i with
  | nil => simp [sourceTasks, allTaskResults]
  | cons sourcePath sourcePaths ih =>
    obtain ⟨hnone, hsome⟩ := sourceTask_result lib g jsOut (run.source i) (run.waitModules i)
      sourcePath (hmodules i)
    obtain ⟨ihnone, ihsome⟩ := ih (i + 1)
    simp only [sourceTasks, allTaskResults, List.map_cons, List.mem_cons, List.mem_append,
      forall_eq_or_imp]
    constructor
    · constructor
      · rintro ⟨h1, h2⟩ r hr
        rcases hr with hr | hr
        · exact hnone.mp h1 r hr
        · exact ihnone.mp h2 r hr
      · intro h
        exact ⟨hnone.mpr (fun r hr => h r (Or.inl hr)),
          ihnone.mpr (fun r hr => h r (Or.inr hr))⟩
    · intro e he
      rcases he with he | he
      · exact Or.inl (hsome e he.symm)
      · exact Or.inr (ihsome e he)

/-- The loop over the dependencies makes calls of `LocatePath` only. -/
theorem locateDeps_calls (run : JSRun) (deps : List Version) (sourcePaths : List String)
    (calls : List JSEvent) :
    ∀ ev ∈ (locateDeps run deps sourcePaths calls).2, ev ∈ calls ∨ ∃ dep, ev = .locatePath dep := by
  induction deps generalizing sourcePaths calls with
  | nil => intro ev hev; exact Or.inl hev
  | cons dep deps ih =>
    intro ev hev
    simp only [locateDeps] at hev
    cases hloc : run.locatePath dep with
    | error e =>
      simp only [hloc, List.mem_append, List.mem_singleton] at hev
      rcases hev with h | h
      · exact Or.inl h
      · exact Or.inr ⟨dep, h⟩
    | ok deppath =>
      simp only [hloc] at hev
      rcases ih _ _ ev hev with h | h
      · rcases List.mem_append.mp h with h | h
        · exact Or.inl h
        · exact Or.inr ⟨dep, List.mem_singleton.mp h⟩
      · exact Or.inr h

/-- Resolving the source paths makes no call of the root loader generator. -/
theorem locateSourcePaths_calls (g : jsGenerator) (run : JSRun) :
    ∀ ev ∈ (locateSourcePaths g run).2, ev.isLoader = false := by
  intro ev hev
  unfold locateSourcePaths at hev
  split at hev
  · rcases locateDeps_calls run _ _ _ ev hev with h | ⟨dep, rfl⟩
    · simp at h
    · rfl
  · simp at hev

/-- `generateModules` when a dependency cannot be located. -/
theorem generateModules_of_unlocated (lib : PathLib) (g : jsGenerator)
    (jsOut : Module → String) (run : JSRun) (e : GoError)
    (h : (locateSourcePaths g run).1 = .error e) :
    generateModules lib g jsOut run = (some e, (locateSourcePaths g run).2) := by
  unfold generateModules
  rcases hl : locateSourcePaths g run with ⟨r, calls⟩
  rw [hl] at h
  simp only at h
  subst h
  rfl

/-- `generateModules` once the source paths are resolved. -/
theorem generateModules_of_located (lib : PathLib) (g : jsGenerator)
    (jsOut : Module → String) (run : JSRun) (sourcePaths : List String)
    (h : (locateSourcePaths g run).1 = .ok sourcePaths) :
    generateModules lib g jsOut run
      = (run.waitSources ((sourceTasks lib g jsOut run 0 sourcePaths).map Prod.fst),
         (locateSourcePaths g run).2
           ++ [.sourceTasks ((sourceTasks lib g jsOut run 0 sourcePaths).map Prod.snd)]) := by
  unfold generateModules
  rcases hl : locateSourcePaths g run with ⟨r, calls⟩
  rw [hl] at h
  simp only at h
  subst h
  rfl

/-- No call of `generateModules` is a call of the root loader generator. -/
theorem generateModules_calls (lib : PathLib) (g : jsGenerator) (jsOut : Module → String)
    (run : JSRun) : ∀ ev ∈ (generateModules lib g jsOut run).2, ev.isLoader = false := by
  intro ev hev
  cases hl : (locateSourcePaths g run).1 with
  | error e =>
    rw [generateModules_of_unlocated lib g jsOut run e hl] at hev
    exact locateSourcePaths_calls g run ev hev
  | ok sourcePaths =>
    rw [generateModules_of_located lib g jsOut run sourcePaths hl] at hev
    rcases List.mem_append.mp hev with h | h
    · exact locateSourcePaths_calls g run ev h
    · rw [List.mem_singleton.mp h]
      rfl

/-- The result of `generateModules` once the source paths are resolved: no
error exactly when no task returned one, and otherwise the error of a task. -/
theorem generateModules_result (lib : PathLib) (g : jsGenerator) (jsOut : Module → String)
    (run : JSRun) (sourcePaths : List String)
    (hsources : LawfulWait run.waitSources) (hmodules : ∀ i, LawfulWait (run.waitModules i))
    (hpaths : (locateSourcePaths g run).1 = .ok sourcePaths) :
    ((generateModules lib g jsOut run).1 = none ↔
      ∀ r ∈ allTaskResults lib g jsOut run 0 sourcePaths, r = none) ∧
    ∀ e, (generateModules lib g jsOut run).1 = some e →
      some e ∈ allTaskResults lib g jsOut run 0 sourcePaths := by
  rw [generateModules_of_located lib g jsOut run sourcePaths hpaths]
  obtain ⟨hnone, hsome⟩ := hsources ((sourceTasks lib g jsOut run 0 sourcePaths).map Prod.fst)
  obtain ⟨hall, hmem⟩ := sourceTasks_results lib g jsOut run hmodules 0 sourcePaths
  exact ⟨hnone.trans hall, fun e he => hmem e (hsome e he)⟩

/-- The root loader generator always starts with its glob, and all its calls
are its own. -/
theorem generateVuexModuleLoader_calls (lib : PathLib) (g : jsGenerator) (run : LoaderRun) :
    (∃ pattern, JSEvent.glob pattern ∈ (generateVuexModuleLoader lib g run).2) ∧
    ∀ ev ∈ (generateVuexModuleLoader lib g run).2, ev.isLoader = true := by
  unfold generateVuexModuleLoader
  cases run.glob with
  | error e => simp [JSEvent.isLoader]
  | ok modulePaths =>
    simp only
    cases loaderModules lib g.g.o.vuexStoreRootPath modulePaths [] with
    | error e => simp [JSEvent.isLoader]
    | ok modules =>
      simp only
      cases run.templateVuexRootWrite with
      | some e => simp [JSEvent.isLoader]
      | none => simp [JSEvent.isLoader]

/-! ## `generateJS`: the root loader after all tasks -/

/-- `generateJS` when the plugin binary cannot be placed. -/
theorem generateJS_of_binary_error (lib : PathLib) (g : generator) (jsOut : Module → String)
    (run : JSRun) (e : GoError) (h : run.binaryPath = .error e) :
    generateJS lib g jsOut run = (some e, [.binaryPath]) := by
  simp [generateJS, h]

/-- `generateJS` when `generateModules` fails: its error is returned and the
root loader generator is not reached. -/
theorem generateJS_of_modules_error (lib : PathLib) (g : generator) (jsOut : Module → String)
    (run : JSRun) (tsprotoPluginPath : String) (e : GoError)
    (hbinary : run.binaryPath = .ok tsprotoPluginPath)
    (h : (generateModules lib { g := g, tsprotoPluginPath := tsprotoPluginPath } jsOut run).1
      = some e) :
    generateJS lib g jsOut run
      = (some e, .binaryPath ::
          (generateModules lib { g := g, tsprotoPluginPath := tsprotoPluginPath } jsOut run).2) := by
  simp only [generateJS, hbinary]
  rcases hm : generateModules lib { g := g, tsprotoPluginPath := tsprotoPluginPath } jsOut run
    with ⟨r, calls⟩
  rw [hm] at h
  simp only at h
  subst h
  rfl

/-- `generateJS` when `generateModules` succeeds: the root loader generator
runs and its result is returned. -/
theorem generateJS_of_modules_ok (lib : PathLib) (g : generator) (jsOut : Module → String)
    (run : JSRun) (tsprotoPluginPath : String)
    (hbinary : run.binaryPath = .ok tsprotoPluginPath)
    (h : (generateModules lib { g := g, tsprotoPluginPath := tsprotoPluginPath } jsOut run).1
      = none) :
    generateJS lib g jsOut run
      = ((generateVuexModuleLoader lib { g := g, tsprotoPluginPath := tsprotoPluginPath }
            run.loader).1,
         .binaryPath ::
          (generateModules lib { g := g, tsprotoPluginPath := tsprotoPluginPath } jsOut run).2
          ++ (generateVuexModuleLoader lib { g := g, tsprotoPluginPath := tsprotoPluginPath }
            run.loader).2) := by
  simp only [generateJS, hbinary]
  rcases hm : generateModules lib { g := g, tsprotoPluginPath := tsprotoPluginPath } jsOut run
    with ⟨r, calls⟩
  rw [hm] at h
  simp only at h
  subst h
  rcases generateVuexModuleLoader lib { g := g, tsprotoPluginPath := tsprotoPluginPath }
    run.loader with ⟨_ | e, loaderCalls⟩ <;> rfl

/-- C19: with task groups that meet the contract of `Wait`, (1) `generateJS`
makes a call of the root loader generator (its glob, the rendering of the root
loader or its compile) only if the plugin binary was placed, the source paths
were resolved and the discovery task and every module task of every source
path returned no error; (2) if any of those tasks returned an error,
`generateJS` returns the error of one of them and makes no call of the root
loader generator. -/
theorem generateJS_loader_after_tasks (lib : PathLib) (g : generator)
    (jsOut : Module → String) (run : JSRun)
    (hsources : LawfulWait run.waitSources) (hmodules : ∀ i, LawfulWait (run.waitModules i)) :
    ((∃ ev ∈ (generateJS lib g jsOut run).2, ev.isLoader = true) →
      ∃ tsprotoPluginPath sourcePaths, run.binaryPath = .ok tsprotoPluginPath ∧
        (locateSourcePaths { g := g, tsprotoPluginPath := tsprotoPluginPath } run).1
          = .ok sourcePaths ∧
        ∀ r ∈ allTaskResults lib { g := g, tsprotoPluginPath := tsprotoPluginPath } jsOut run 0
            sourcePaths, r = none) ∧
    (∀ tsprotoPluginPath sourcePaths, run.binaryPath = .ok tsprotoPluginPath →
      (locateSourcePaths { g := g, tsprotoPluginPath := tsprotoPluginPath } run).1
        = .ok sourcePaths →
      (∃ e, some e ∈ allTaskResults lib { g := g, tsprotoPluginPath := tsprotoPluginPath }
        jsOut run 0 sourcePaths) →
      (∃ e, some e ∈ allTaskResults lib { g := g, tsprotoPluginPath := tsprotoPluginPath }
          jsOut run 0 sourcePaths ∧
        (generateJS lib g jsOut run).1 = some e) ∧
      ∀ ev ∈ (generateJS lib g jsOut run).2, ev.isLoader = false) := by
  have hfailed : ∀ tsprotoPluginPath e, run.binaryPath = .ok tsprotoPluginPath →
      (generateModules lib { g := g, tsprotoPluginPath := tsprotoPluginPath } jsOut run).1
        = some e →
      ∀ ev ∈ (generateJS lib g jsOut run).2, ev.isLoader = false := by
    intro t e hbinary hm ev hev
    rw [generateJS_of_modules_error lib g jsOut run t e hbinary hm] at hev
    rcases List.mem_cons.mp hev with rfl | hev
    · rfl
    · exact generateModules_calls lib _ jsOut run ev hev
  constructor
  · rintro ⟨ev, hev, hloader⟩
    cases hbinary : run.binaryPath with
    | error e =>
      rw [generateJS_of_binary_error lib g jsOut run e hbinary] at hev
      rw [List.mem_singleton.mp hev] at hloader
      exact absurd hloader (by decide)
    | ok t =>
      cases hm : (generateModules lib { g := g, tsprotoPluginPath := t } jsOut run).1 with
      | some e =>
        have := hfailed t e hbinary hm ev hev
        rw [this] at hloader
        exact absurd hloader (by decide)
      | none =>
        cases hl : (locateSourcePaths { g := g, tsprotoPluginPath := t } run).1 with
        | error e =>
          rw [generateModules_of_unlocated lib _ jsOut run e hl] at hm
          exact absurd hm (by simp)
        | ok sourcePaths =>
          exact ⟨t, sourcePaths, rfl, hl,
            (generateModules_result lib _ jsOut run sourcePaths hsources hmodules hl).1.mp hm⟩
  · intro t sourcePaths hbinary hl ⟨e, he⟩
    obtain ⟨hnone, hsome⟩ := generateModules_result lib
      { g := g, tsprotoPluginPath := t } jsOut run sourcePaths hsources hmodules hl
    cases hm : (generateModules lib { g := g, tsprotoPluginPath := t } jsOut run).1 with
    | none =>
      have := hnone.mp hm (some e) he
      exact absurd this (by simp)
    | some e' =>
      refine ⟨⟨e', hsome e' hm, ?_⟩, hfailed t e' hbinary hm⟩
      rw [generateJS_of_modules_error lib g jsOut run t e' hbinary hm]

/-- C19 at the sample app: when every task succeeds the root loader generator
is called; when the two module tasks fail, `generateJS` returns the error of
the one that failed first in time and makes no call of the root loader
generator. -/
theorem generateJS_loader_after_tasks_witness :
    (∃ ev ∈ (generateJS sampleLib plainJsGenerator.g sampleJsOut okJsRun).2,
      ev.isLoader = true) ∧
    (∃ e, some e ∈ allTaskResults sampleLib plainJsGenerator sampleJsOut failingJsRun 0 ["/app"] ∧
      (generateJS sampleLib plainJsGenerator.g sampleJsOut failingJsRun).1 = some e) ∧
    (generateJS sampleLib plainJsGenerator.g sampleJsOut failingJsRun).1
      = some (GoError.other "protoc: exit status 1") ∧
    ∀ ev ∈ (generateJS sampleLib plainJsGenerator.g sampleJsOut failingJsRun).2,
      ev.isLoader = false :=
  ⟨by decide,
   ((generateJS_loader_after_tasks sampleLib plainJsGenerator.g sampleJsOut failingJsRun
      waitFirstStarted_lawful (fun _ => waitLastStarted_lawful)).2
      "/tmp/protoc-gen-ts_proto" ["/app"] rfl rfl
      ⟨GoError.other "sta: exit status 1", by decide⟩).1,
   by decide,
   ((generateJS_loader_after_tasks sampleLib plainJsGenerator.g sampleJsOut failingJsRun
      waitFirstStarted_lawful (fun _ => waitLastStarted_lawful)).2
      "/tmp/protoc-gen-ts_proto" ["/app"] rfl rfl
      ⟨GoError.other "sta: exit status 1", by decide⟩).2⟩

/-! ## `generateModules`: error aggregation -/

/-- C20 (as amended): once the source paths are resolved, and with task groups
that meet the contract of `Wait`, `generateModules` returns an error exactly
when the discovery task or a module task of some source path returned one, the
error it returns is the error of one of those tasks, and it returns none
exactly when every task returned none; and when `Generate` reaches
`generateModules` (setup, Go generation if enabled and the placing of the
plugin binary having succeeded), it returns that error. -/
theorem generateModules_error_iff (lib : PathLib) (g : jsGenerator) (jsOut : Module → String)
    (run : JSRun) (sourcePaths : List String)
    (hsources : LawfulWait run.waitSources) (hmodules : ∀ i, LawfulWait (run.waitModules i))
    (hpaths : (locateSourcePaths g run).1 = .ok sourcePaths) :
    ((generateModules lib g jsOut run).1 ≠ none ↔
      ∃ e, some e ∈ allTaskResults lib g jsOut run 0 sourcePaths) ∧
    (∀ e, (generateModules lib g jsOut run).1 = some e →
      some e ∈ allTaskResults lib g jsOut run 0 sourcePaths) ∧
    ((generateModules lib g jsOut run).1 = none ↔
      ∀ r ∈ allTaskResults lib g jsOut run 0 sourcePaths, r = none) ∧
    (∀ (genRun : GenRun) (appPath protoDir : String) (options : List GenOption)
        (deps : List Version) (e : GoError),
      genRun.js = run →
      g.g = { appPath := appPath, protoDir := protoDir, o := applyOptions options,
              deps := deps } →
      genRun.setup = .ok deps →
      ((applyOptions options).gomodPath = "" ∨ genRun.generateGo = none) →
      (applyOptions options).jsOut = some jsOut →
      run.binaryPath = .ok g.tsprotoPluginPath →
      (generateModules lib g jsOut run).1 = some e →
      (Generate lib genRun appPath protoDir options).1 = some e) := by
  obtain ⟨hnone, hsome⟩ := generateModules_result lib g jsOut run sourcePaths hsources
    hmodules hpaths
  refine ⟨?_, hsome, hnone, ?_⟩
  · rw [ne_eq, hnone]
    constructor
    · intro h
      by_contra hno
      apply h
      intro r hr
      cases r with
      | none => rfl
      | some e => exact absurd ⟨e, hr⟩ hno
    · rintro ⟨e, he⟩ h
      exact absurd (h (some e) he) (by simp)
  · intro genRun appPath protoDir options deps e hrun hg hsetup hgo hjs hbinary hm
    subst hrun
    have hjsres : (generateJS lib g.g jsOut genRun.js).1 = some e := by
      rw [generateJS_of_modules_error lib g.g jsOut genRun.js g.tsprotoPluginPath e hbinary hm]
    rw [hg] at hjsres
    by_cases hmod : (applyOptions options).gomodPath = ""
    · rw [Generate_of_go_disabled lib genRun appPath protoDir options deps hsetup hmod, hjs]
      exact hjsres
    · have hgen : genRun.generateGo = none := hgo.resolve_left hmod
      rw [Generate_of_go_enabled lib genRun appPath protoDir options deps hsetup hmod, hgen, hjs]
      exact hjsres

/-- C20 at the sample app, where the two module tasks fail and the second
fails first in time: `generateModules` returns the error of the second. -/
theorem generateModules_error_iff_witness :
    (generateModules sampleLib plainJsGenerator sampleJsOut failingJsRun).1
      = some (GoError.other "protoc: exit status 1") ∧
    ((generateModules sampleLib plainJsGenerator sampleJsOut failingJsRun).1 ≠ none ↔
      ∃ e, some e ∈ allTaskResults sampleLib plainJsGenerator sampleJsOut failingJsRun 0
        ["/app"]) ∧
    (∀ e, (generateModules sampleLib plainJsGenerator sampleJsOut failingJsRun).1 = some e →
      some e ∈ allTaskResults sampleLib plainJsGenerator sampleJsOut failingJsRun 0 ["/app"]) ∧
    ((generateModules sampleLib plainJsGenerator sampleJsOut okJsRun).1 = none ↔
      ∀ r ∈ allTaskResults sampleLib plainJsGenerator sampleJsOut okJsRun 0 ["/app"],
        r = none) :=
  ⟨by decide,
   (generateModules_error_iff sampleLib plainJsGenerator sampleJsOut failingJsRun ["/app"]
      waitFirstStarted_lawful (fun _ => waitLastStarted_lawful) rfl).1,
   (generateModules_error_iff sampleLib plainJsGenerator sampleJsOut failingJsRun ["/app"]
      waitFirstStarted_lawful (fun _ => waitLastStarted_lawful) rfl).2.1,
   (generateModules_error_iff sampleLib plainJsGenerator sampleJsOut okJsRun ["/app"]
      waitFirstStarted_lawful (fun _ => waitFirstStarted_lawful) rfl).2.2.1⟩

/-- C20 as first stated fails: with third-party modules included and a
dependency that cannot be located, `generateModules` returns that error before
any task is started, so without any task having returned an error. -/
theorem generateModules_error_iff_counterexample :
    ¬ ∀ (lib : PathLib) (g : jsGenerator) (jsOut : Module → String) (run : JSRun),
      LawfulWait run.waitSources → (∀ i, LawfulWait (run.waitModules i)) →
      ((generateModules lib g jsOut run).1 ≠ none ↔
        ∃ sourcePaths, (locateSourcePaths g run).1 = .ok sourcePaths ∧
          ∃ e, some e ∈ allTaskResults lib g jsOut run 0 sourcePaths) := by
  intro hclaim
  have h := hclaim sampleLib thirdPartyJsGenerator sampleJsOut unlocatedJsRun
    waitFirstStarted_lawful (fun _ => waitFirstStarted_lawful)
  obtain ⟨sourcePaths, hpaths, _⟩ := h.mp (by decide)
  have hunlocated : (locateSourcePaths thirdPartyJsGenerator unlocatedJsRun).1
      = .error (GoError.other "module not in cache") := rfl
  rw [hunlocated] at hpaths
  exact Except.noConfusion hpaths

/-! ## `chainconf`: `FaucetHost`, `validate`, `Parse`, `ParseFile` -/

/-- C21: for every config, `FaucetHost` returns `":<Port>"` when `Faucet.Port`
is non-zero, whatever `Faucet.Host` is, and returns `Faucet.Host` unchanged
when `Faucet.Port` is zero. -/
theorem FaucetHost_port_priority (c : conf.Config) :
    (c.Faucet.Port ≠ 0 → conf.FaucetHost c = ":" ++ toString c.Faucet.Port) ∧
    (c.Faucet.Port = 0 → conf.FaucetHost c = c.Faucet.Host) := by
  unfold conf.FaucetHost
  constructor <;> intro h <;> simp [h]

/-- The three cases of `TestFaucetHost`: host only, port only, both. -/
theorem FaucetHost_port_priority_witness :
    conf.FaucetHost { validConfig with Faucet := { Host := "0.0.0.0:4600" } } = "0.0.0.0:4600" ∧
    conf.FaucetHost { validConfig with Faucet := { Port := 4700 } } = ":4700" ∧
    conf.FaucetHost { validConfig with Faucet := { Host := "0.0.0.0:4600", Port := 4700 } }
      = ":4700" :=
  ⟨(FaucetHost_port_priority _).2 rfl,
   ((FaucetHost_port_priority _).1 (by decide)).trans (by decide),
   ((FaucetHost_port_priority _).1 (by decide)).trans (by decide)⟩

/-- C22: `validate` returns nil iff the config has at least one account and a
non-empty validator name; with no accounts it returns the error "at least 1
account is needed", whatever the validator; with accounts and an empty
validator name it returns "validator is required"; and for a text that the
decoder accepts and whose config merges with the defaults into `c`, `Parse`
returns `c` with exactly the result of `validate c`. -/
theorem validate_result_and_Parse (c : conf.Config) :
    (conf.validate c = none ↔ c.Accounts ≠ [] ∧ c.Validator.Name ≠ "") ∧
    (c.Accounts = [] →
      conf.validate c = some { Message := "at least 1 account is needed" }) ∧
    (c.Accounts ≠ [] → c.Validator.Name = "" →
      conf.validate c = some { Message := "validator is required" }) ∧
    (∀ (env : conf.Env) (r : String) (decoded : conf.Config),
      env.decode r = (decoded, none) → env.merge decoded conf.DefaultConf = .ok c →
      conf.Parse env r = (c, (conf.validate c).map conf.ParseError.validation) ∧
      ((conf.Parse env r).2 = none ↔ conf.validate c = none)) := by
  refine ⟨?_, ?_, ?_, ?_⟩
  · unfold conf.validate
    by_cases ha : c.Accounts = [] <;> by_cases hv : c.Validator.Name = "" <;> simp [ha, hv]
  · intro ha
    simp [conf.validate, ha]
  · intro ha hv
    simp [conf.validate, ha, hv]
  · intro env r decoded hd hm
    have hP : conf.Parse env r = (c, (conf.validate c).map conf.ParseError.validation) := by
      simp [conf.Parse, hd, hm]
    refine ⟨hP, ?_⟩
    rw [hP]
    cases conf.validate c <;> simp

/-- `TestParseInvalid` and `TestParse`: accounts without a validator are
refused with "validator is required", with a validator they are accepted. -/
theorem validate_result_and_Parse_witness :
    conf.Parse sampleConfEnv "accounts: [me, you]"
      = (invalidMerged, some (.validation { Message := "validator is required" })) ∧
    (conf.Parse sampleConfEnv "accounts: [me, you]\nvalidator: user1").2 = none :=
  ⟨((validate_result_and_Parse invalidMerged).2.2.2 sampleConfEnv "accounts: [me, you]"
      invalidConfig (by decide) (by decide)).1.trans (by decide),
   ((validate_result_and_Parse validMerged).2.2.2 sampleConfEnv
      "accounts: [me, you]\nvalidator: user1" validConfig (by decide) (by decide)).2.mpr
      (by decide)⟩

/-- C29: when the file at `path` cannot be opened, `ParseFile` returns the
zero-valued `Config` and a nil error: the open error is not reported, the
defaults are not there (the result is not the merge of anything with
`DefaultConf`, whose `Host.RPC` is set) and the result is one that `validate`
refuses; when the file opens, `ParseFile` returns the result of `Parse` on
it. -/
theorem ParseFile_unopened (env : conf.Env) (path : String) :
    (∀ err, env.openFile path = .error err →
      conf.ParseFile env path = ({}, none) ∧
      (conf.ParseFile env path).2 ≠ some (.other err) ∧
      (conf.ParseFile env path).1.Host.RPC ≠ conf.DefaultConf.Host.RPC ∧
      conf.validate (conf.ParseFile env path).1
        = some { Message := "at least 1 account is needed" }) ∧
    (∀ file, env.openFile path = .ok file → conf.ParseFile env path = conf.Parse env file) := by
  constructor
  · intro err h
    have hP : conf.ParseFile env path = ({}, none) := by simp [conf.ParseFile, h]
    rw [hP]
    exact ⟨rfl, by simp, by decide, by decide⟩
  · intro file h
    simp [conf.ParseFile, h]

/-- A path that cannot be opened gives the zero config and no error, while
the same environment refuses an opened file without validator. -/
theorem ParseFile_unopened_witness :
    conf.ParseFile sampleConfEnv "/nowhere/config.yml" = ({}, none) ∧
    conf.ParseFile sampleConfEnv "/app/invalid.yml"
      = conf.Parse sampleConfEnv "accounts: [me, you]" ∧
    (conf.ParseFile sampleConfEnv "/app/invalid.yml").2
      = some (.validation { Message := "validator is required" }) :=
  ⟨((ParseFile_unopened sampleConfEnv "/nowhere/config.yml").1
      (GoError.other "open: no such file or directory") (by decide)).1,
   (ParseFile_unopened sampleConfEnv "/app/invalid.yml").2 "accounts: [me, you]" (by decide),
   by decide⟩

/-! ## One record per kept package -/

/-- When no kept package fails for good, the loop of `Discover` returns one
module per package, in order. -/
theorem discoverEach_of_benign (env : Env) (md : moduleDiscoverer) (pkgs : List Package)
    (acc : List Module)
    (hbenign : ∀ P ∈ pkgs, ∀ e, env.discoverMessages (pkgpath env md P) = .error e →
      e = GoError.errModuleNotFound) :
    ∃ news, discoverEach env md pkgs acc = .ok (acc ++ news) ∧
      List.Forall₂ (fun P m => discover env md P = .ok m) pkgs news := by
  induction pkgs generalizing acc with
  | nil => exact ⟨[], by simp [discoverEach], List.Forall₂.nil⟩
  | cons P pkgs ih =>
    obtain ⟨m, hm⟩ := discover_of_benign env md P (hbenign P (List.mem_cons_self _ _))
    obtain ⟨news, hnews, hall⟩ := ih (acc ++ [m])
      (fun Q hQ => hbenign Q (List.mem_cons_of_mem _ hQ))
    refine ⟨m :: news, ?_, List.Forall₂.cons hm hall⟩
    simp only [discoverEach, hm, hnews]
    simp

/-- C23: when the inspector fails for no kept package with an error other than
"module not found", `Discover` succeeds with exactly one module per kept
package, in order: the result is as long as the list of kept packages, each
module is what `discover` returns for its package, and for a package reported
as "module not found" it is the zero-valued module, with empty Name and no
Msgs, Queries or Types. -/
theorem Discover_one_record_per_kept_package (env : Env) (sourcePath basegopath : String)
    (kept : List Package)
    (hparse : env.parseAt sourcePath = .ok basegopath)
    (hkept : findModuleProtoPkgs env { sourcePath := sourcePath, basegopath := basegopath }
      = .ok kept)
    (hbenign : ∀ P ∈ kept, ∀ e,
      env.discoverMessages
          (pkgpath env { sourcePath := sourcePath, basegopath := basegopath } P) = .error e →
        e = GoError.errModuleNotFound) :
    ∃ mods, Discover env sourcePath = .ok mods ∧ mods.length = kept.length ∧
      List.Forall₂
        (fun P m =>
          discover env { sourcePath := sourcePath, basegopath := basegopath } P = .ok m ∧
          (env.discoverMessages
              (pkgpath env { sourcePath := sourcePath, basegopath := basegopath } P)
              = .error GoError.errModuleNotFound →
            m = {} ∧ m.Name = "" ∧ m.Msgs = [] ∧ m.Queries = [] ∧ m.Types = []))
        kept mods := by
  obtain ⟨news, hnews, hall⟩ := discoverEach_of_benign env
    { sourcePath := sourcePath, basegopath := basegopath } kept [] hbenign
  refine ⟨news, by simp [Discover, hparse, hkept, hnews], hall.length_eq.symm, ?_⟩
  refine hall.imp ?_
  intro P m hm
  refine ⟨hm, ?_⟩
  intro hnotFound
  rw [discover_of_notFound env _ P hnotFound] at hm
  have hzero : m = {} := (Except.ok.inj hm).symm
  subst hzero
  exact ⟨rfl, rfl, rfl, rfl, rfl⟩

/-- C23 at the project whose only kept package has no module: the result is
the list of the one zero-valued module. -/
theorem Discover_one_record_per_kept_package_witness :
    ∃ mods, Discover notFoundEnv "/src" = .ok mods ∧ mods.length = [pkgBlog].length ∧
      List.Forall₂
        (fun P m =>
          discover notFoundEnv { sourcePath := "/src", basegopath := "github.com/acme/chain" } P
            = .ok m ∧
          (notFoundEnv.discoverMessages
              (pkgpath notFoundEnv
                { sourcePath := "/src", basegopath := "github.com/acme/chain" } P)
              = .error GoError.errModuleNotFound →
            m = {} ∧ m.Name = "" ∧ m.Msgs = [] ∧ m.Queries = [] ∧ m.Types = []))
        [pkgBlog] mods :=
  Discover_one_record_per_kept_package notFoundEnv "/src" "github.com/acme/chain" [pkgBlog]
    rfl (by decide) (by
      intro P hP e he
      have hP' : P = pkgBlog := by simpa using hP
      subst hP'
      exact (Except.error.inj he).symm)

/-! ## Paths written by a module task -/

/-- The paths a module task deletes, creates or writes: the output directory,
`types` and `rest.ts` in it, the scratch directory, the parent directory of
the output directory and the pattern of the sources under that parent. -/
theorem generateModule_writes (lib : PathLib) (g : jsGenerator) (jsOut : Module → String)
    (run : ModuleRun) (tsprotoPluginPath appPath : String) (m : Module) :
    ∀ ev ∈ (generateModule lib g jsOut run tsprotoPluginPath appPath m).2, ∀ p ∈ ev.writes,
      p = jsOut m ∨ p = lib.join (jsOut m) "types" ∨ p = lib.join (jsOut m) "rest.ts" ∨
      run.tempDir = .ok p ∨
      p = lib.dir (jsOut m) ∨ p = lib.dir (jsOut m) ++ "/**/*.ts" := by
  by_cases hv : g.g.o.vuexStoreRootPath = ""
  ·
    cases h0 : run.resolveInclude with
    | error e => simp [generateModule, generateModuleDeferred, ModuleEvent.writes, tscConfig, hv, *]
    | ok v0 =>
      cases h1 : run.removeAllOut with
      | some e => simp [generateModule, generateModuleDeferred, ModuleEvent.writes, tscConfig, hv, *]
      | none =>
        cases h2 : run.mkdirAll with
        | some e => simp [generateModule, generateModuleDeferred, ModuleEvent.writes, tscConfig, hv, *]
        | none =>
          cases h3 : run.protocTypes with
          | some e => simp [generateModule, generateModuleDeferred, ModuleEvent.writes, tscConfig, hv, *]
          | none =>
            cases h4 : run.tempDir with
            | error e => simp [generateModule, generateModuleDeferred, ModuleEvent.writes, tscConfig, hv, *]
            | ok v4 =>
              cases h5 : run.protocOpenAPI with
              | some e => simp [generateModule, generateModuleDeferred, ModuleEvent.writes, tscConfig, hv, *]
              | none =>
                cases h6 : run.staGenerate with
                | some e => simp [generateModule, generateModuleDeferred, ModuleEvent.writes, tscConfig, hv, *]
                | none =>
                  cases h7 : run.templateJSClientWrite with
                  | some e => simp [generateModule, generateModuleDeferred, ModuleEvent.writes, tscConfig, hv, *]
                  | none =>
                    cases h8 : run.tscGenerate with
                    | some e => simp [generateModule, generateModuleDeferred, ModuleEvent.writes, tscConfig, hv, *]
                    | none =>
                      simp [generateModule, generateModuleDeferred, ModuleEvent.writes, tscConfig, hv, *]
  ·
    cases h0 : run.resolveInclude with
    | error e => simp [generateModule, generateModuleDeferred, ModuleEvent.writes, tscConfig, hv, *]
    | ok v0 =>
      cases h1 : run.removeAllOut with
      | some e => simp [generateModule, generateModuleDeferred, ModuleEvent.writes, tscConfig, hv, *]
      | none =>
        cases h2 : run.mkdirAll with
        | some e => simp [generateModule, generateModuleDeferred, ModuleEvent.writes, tscConfig, hv, *]
        | none =>
          cases h3 : run.protocTypes with
          | some e => simp [generateModule, generateModuleDeferred, ModuleEvent.writes, tscConfig, hv, *]
          | none =>
            cases h4 : run.tempDir with
            | error e => simp [generateModule, generateModuleDeferred, ModuleEvent.writes, tscConfig, hv, *]
            | ok v4 =>
              cases h5 : run.protocOpenAPI with
              | some e => simp [generateModule, generateModuleDeferred, ModuleEvent.writes, tscConfig, hv, *]
              | none =>
                cases h6 : run.staGenerate with
                | some e => simp [generateModule, generateModuleDeferred, ModuleEvent.writes, tscConfig, hv, *]
                | none =>
                  cases h7 : run.templateJSClientWrite with
                  | some e => simp [generateModule, generateModuleDeferred, ModuleEvent.writes, tscConfig, hv, *]
                  | none =>
                    cases h8 : run.templateVuexStoreWrite with
                    | some e => simp [generateModule, generateModuleDeferred, ModuleEvent.writes, tscConfig, hv, *]
                    | none =>
                      cases h9 : run.tscGenerate with
                      | some e => simp [generateModule, generateModuleDeferred, ModuleEvent.writes, tscConfig, hv, *]
                      | none =>
                        simp [generateModule, generateModuleDeferred, ModuleEvent.writes, tscConfig, hv, *]

/-- With the sample path library a path inside a directory begins with the
name of the directory. -/
theorem within_sampleLib_hasPrefix (root path : String) (h : Within sampleLib root path) :
    HasPrefix path root = true := by
  induction h with
  | self => exact (HasPrefix_iff _ _).mpr ⟨"", by simp⟩
  | join path elem _ ih =>
    obtain ⟨rest, hrest⟩ := (HasPrefix_iff _ _).mp ih
    apply (HasPrefix_iff _ _).mpr
    show ∃ r, (if path = "" then elem
      else if elem = "" then path
      else if HasPrefix elem "/" then path ++ elem
      else path ++ "/" ++ elem) = root ++ r
    by_cases hp : path = ""
    · rw [if_pos hp]
      have hroot : root = "" := by
        rw [hp] at hrest
        have := congrArg String.data hrest
        simp only [String.data_append] at this
        have h0 : root.data = [] := (List.append_eq_nil.mp this.symm).1
        exact String.ext h0
      exact ⟨elem, by rw [hroot]; simp⟩
    · rw [if_neg hp]
      by_cases he : elem = ""
      · rw [if_pos he]; exact ⟨rest, hrest⟩
      · rw [if_neg he]
        by_cases hs : HasPrefix elem "/" = true
        · rw [if_pos hs]; exact ⟨rest ++ elem, by rw [hrest, String.append_assoc]⟩
        · rw [if_neg hs]
          exact ⟨rest ++ "/" ++ elem, by rw [hrest]; simp [String.append_assoc]⟩

/-- C24 (as amended): every path a module task deletes, creates or writes is
the output directory `out = jsOut(m)` or `types` or `rest.ts` in it, all
inside `out`; or the task's scratch directory; or the parent directory
`Dir(out)`, into which the store wrapper is rendered, or the pattern
`Dir(out)/**/*.ts` of the sources the batch compile covers. -/
theorem generateModule_written_paths (lib : PathLib) (g : jsGenerator)
    (jsOut : Module → String) (run : ModuleRun) (tsprotoPluginPath appPath : String)
    (m : Module) :
    ∀ ev ∈ (generateModule lib g jsOut run tsprotoPluginPath appPath m).2, ∀ p ∈ ev.writes,
      ((p = jsOut m ∨ p = lib.join (jsOut m) "types" ∨ p = lib.join (jsOut m) "rest.ts") ∧
        Within lib (jsOut m) p) ∨
      run.tempDir = .ok p ∨
      p = lib.dir (jsOut m) ∨ p = lib.dir (jsOut m) ++ "/**/*.ts" := by
  intro ev hev p hp
  rcases generateModule_writes lib g jsOut run tsprotoPluginPath appPath m ev hev p hp with
    h | h | h | h | h | h
  · exact Or.inl ⟨Or.inl h, h ▸ Within.self⟩
  · exact Or.inl ⟨Or.inr (Or.inl h), h ▸ Within.join _ _ Within.self⟩
  · exact Or.inl ⟨Or.inr (Or.inr h), h ▸ Within.join _ _ Within.self⟩
  · exact Or.inr (Or.inl h)
  · exact Or.inr (Or.inr (Or.inl h))
  · exact Or.inr (Or.inr (Or.inr h))

/-- C24 at the blog module with store generation, every call succeeding. -/
theorem generateModule_written_paths_witness :
    (generateModule sampleLib sampleJsGenerator sampleJsOut okModuleRun
        "/tmp/protoc-gen-ts_proto" "/app" blogModule).2.flatMap ModuleEvent.writes
      = ["/app/vue/src/store/generated/blog/module",
         "/app/vue/src/store/generated/blog/module/types",
         "/app/vue/src/store/generated/blog/module/types",
         "/tmp/oai",
         "/app/vue/src/store/generated/blog/module/rest.ts",
         "/app/vue/src/store/generated/blog/module",
         "/app/vue/src/store/generated/blog",
         "/app/vue/src/store/generated/blog/**/*.ts",
         "/tmp/oai"] ∧
    ∀ ev ∈ (generateModule sampleLib sampleJsGenerator sampleJsOut okModuleRun
        "/tmp/protoc-gen-ts_proto" "/app" blogModule).2, ∀ p ∈ ev.writes,
      ((p = sampleJsOut blogModule ∨ p = sampleLib.join (sampleJsOut blogModule) "types" ∨
          p = sampleLib.join (sampleJsOut blogModule) "rest.ts") ∧
        Within sampleLib (sampleJsOut blogModule) p) ∨
      okModuleRun.tempDir = .ok p ∨
      p = sampleLib.dir (sampleJsOut blogModule) ∨
      p = sampleLib.dir (sampleJsOut blogModule) ++ "/**/*.ts" :=
  ⟨by decide,
   generateModule_written_paths sampleLib sampleJsGenerator sampleJsOut okModuleRun
     "/tmp/protoc-gen-ts_proto" "/app" blogModule⟩

/-- C24 as first stated fails: a module task compiles the API description into
a scratch directory outside its output directory and removes it; and with the
modules placed side by side, the tasks of the blog and bank modules, whose
output directories are disjoint, both render their store wrapper into the
common parent directory. -/
theorem generateModule_written_paths_counterexample :
    (¬ ∀ (lib : PathLib) (g : jsGenerator) (jsOut : Module → String) (run : ModuleRun)
        (tsprotoPluginPath appPath : String) (m : Module),
      ∀ ev ∈ (generateModule lib g jsOut run tsprotoPluginPath appPath m).2, ∀ p ∈ ev.writes,
        Within lib (jsOut m) p) ∧
    ¬ Within sampleLib (flatJsOut blogModule) (flatJsOut bankModule) ∧
    ¬ Within sampleLib (flatJsOut bankModule) (flatJsOut blogModule) ∧
    "/app/vue/src/generated"
      ∈ (generateModule sampleLib flatJsGenerator flatJsOut okModuleRun
          "/tmp/protoc-gen-ts_proto" "/app" blogModule).2.flatMap ModuleEvent.writes ∧
    "/app/vue/src/generated"
      ∈ (generateModule sampleLib flatJsGenerator flatJsOut okModuleRun
          "/tmp/protoc-gen-ts_proto" "/app" bankModule).2.flatMap ModuleEvent.writes := by
  refine ⟨?_, ?_, ?_, by decide, by decide⟩
  · intro hclaim
    have h := hclaim sampleLib sampleJsGenerator sampleJsOut okModuleRun
      "/tmp/protoc-gen-ts_proto" "/app" blogModule
      (.removeAllTemp "/tmp/oai") (by decide) "/tmp/oai" (by decide)
    exact absurd (within_sampleLib_hasPrefix _ _ h) (by decide)
  · intro h
    exact absurd (within_sampleLib_hasPrefix _ _ h) (by decide)
  · intro h
    exact absurd (within_sampleLib_hasPrefix _ _ h) (by decide)

/-! ## Entries of the root loader -/

/-- Replacing every separator by another character joins the pieces between
separators with that character. -/
theorem replace_eq_intercalate (old new : Char) (cs : List Char) :
    cs.map (fun c => if c = old then new else c)
      = List.intercalate [new] (splitChars old cs) := by
  induction cs with
  | nil => simp [splitChars, List.intercalate]
  | cons c cs ih =>
    cases hsplit : splitChars old cs with
    | nil => exact absurd hsplit (splitChars_ne_nil old cs)
    | cons seg segs =>
      rw [hsplit] at ih
      by_cases hc : c = old
      · simp only [List.map_cons, hc, if_true, splitChars, hsplit]
        rw [ih]
        simp [List.intercalate, List.intersperse]
      · simp only [List.map_cons, hc, if_false, splitChars, hsplit]
        rw [ih]
        cases segs <;> simp [List.intercalate, List.intersperse]

/-- The loop over the markers adds, to the entries it received, one entry
per marker, in order, or fails at the first marker that cannot be made
relative to the store root. -/
theorem loaderModules_forall₂ (lib : PathLib) (root : String) (modulePaths : List String)
    (acc entries : List LoaderModule)
    (h : loaderModules lib root modulePaths acc = .ok entries) :
    ∃ news, entries = acc ++ news ∧
      List.Forall₂
        (fun path entry => ∃ pathrel, lib.rel root path = .ok pathrel ∧
          entry = { Name := lib.toCamel (lib.base (lib.dir pathrel))
                    Path := lib.base (lib.dir pathrel)
                    FullName := lib.toCamel (ReplaceAll (lib.dir pathrel) '/' '_')
                    FullPath := lib.dir pathrel })
        modulePaths news := by
  induction modulePaths generalizing acc with
  | nil =>
    simp only [loaderModules, Except.ok.injEq] at h
    exact ⟨[], by simp [h], List.Forall₂.nil⟩
  | cons path modulePaths ih =>
    simp only [loaderModules] at h
    cases hrel : lib.rel root path with
    | error e => simp [hrel] at h
    | ok pathrel =>
      simp only [hrel] at h
      obtain ⟨news, hnews, hall⟩ := ih _ h
      exact ⟨_ :: news, by simp [hnews], List.Forall₂.cons ⟨pathrel, hrel, rfl⟩ hall⟩

/-- The loop over the markers succeeds when every marker can be made relative
to the store root. -/
theorem loaderModules_ok (lib : PathLib) (root : String) (modulePaths : List String)
    (acc : List LoaderModule)
    (hrel : ∀ path ∈ modulePaths, ∃ pathrel, lib.rel root path = .ok pathrel) :
    ∃ entries, loaderModules lib root modulePaths acc = .ok entries := by
  induction modulePaths generalizing acc with
  | nil => exact ⟨acc, rfl⟩
  | cons path modulePaths ih =>
    obtain ⟨pathrel, hp⟩ := hrel path (List.mem_cons_self _ _)
    simp only [loaderModules, hp]
    exact ih _ (fun p hmem => hrel p (List.mem_cons_of_mem _ hmem))

/-- C25: when the marker scan returns `modulePaths` and each can be made
relative to the store root, `generateVuexModuleLoader` hands to the root
template exactly one entry per marker, in the order found; the entry of a
marker `path` has, with `pathrel = Rel(root, path)` and `p = Dir(pathrel)` the
directory of the marker relative to the store root: FullPath `p`, Path the base
(last segment) of `p`, FullName the camel case of the segments of `p` joined
with `_`, and Name the camel case of the base of `p`. -/
theorem generateVuexModuleLoader_entries (lib : PathLib) (g : jsGenerator) (run : LoaderRun)
    (modulePaths : List String)
    (hglob : run.glob = .ok modulePaths)
    (hrel : ∀ path ∈ modulePaths, ∃ pathrel, lib.rel g.g.o.vuexStoreRootPath path = .ok pathrel) :
    ∃ entries, loaderModules lib g.g.o.vuexStoreRootPath modulePaths [] = .ok entries ∧
      JSEvent.templateVuexRootWrite g.g.o.vuexStoreRootPath "" entries
        ∈ (generateVuexModuleLoader lib g run).2 ∧
      entries.length = modulePaths.length ∧
      List.Forall₂
        (fun path entry => ∃ pathrel, lib.rel g.g.o.vuexStoreRootPath path = .ok pathrel ∧
          entry.FullPath = lib.dir pathrel ∧
          entry.Path = lib.base (lib.dir pathrel) ∧
          entry.FullName = lib.toCamel
            (String.mk (List.intercalate ['_'] (splitChars '/' (lib.dir pathrel).data))) ∧
          entry.Name = lib.toCamel (lib.base (lib.dir pathrel)))
        modulePaths entries := by
  obtain ⟨entries, hentries⟩ := loaderModules_ok lib g.g.o.vuexStoreRootPath modulePaths [] hrel
  obtain ⟨news, hnews, hall⟩ := loaderModules_forall₂ lib _ modulePaths [] entries hentries
  simp only [List.nil_append] at hnews
  subst hnews
  refine ⟨entries, hentries, ?_, hall.length_eq.symm, ?_⟩
  · simp only [generateVuexModuleLoader, hglob, hentries]
    cases run.templateVuexRootWrite <;> simp
  · refine hall.imp ?_
    rintro path entry ⟨pathrel, hp, rfl⟩
    refine ⟨pathrel, hp, rfl, rfl, ?_, rfl⟩
    simp only [ReplaceAll, replace_eq_intercalate]

/-- C25 at two markers under `/app/vue/src/store`. -/
theorem generateVuexModuleLoader_entries_witness :
    loaderModules camelLib "/app/vue/src/store"
        ["/app/vue/src/store/generated/acme/blog/vuex-root",
         "/app/vue/src/store/generated/cosmos/bank/vuex-root"] []
      = .ok [{ Name := "Blog", Path := "blog", FullName := "GeneratedAcmeBlog",
               FullPath := "generated/acme/blog" },
             { Name := "Bank", Path := "bank", FullName := "GeneratedCosmosBank",
               FullPath := "generated/cosmos/bank" }] ∧
    ∃ entries, loaderModules camelLib sampleJsGenerator.g.o.vuexStoreRootPath
        ["/app/vue/src/store/generated/acme/blog/vuex-root",
         "/app/vue/src/store/generated/cosmos/bank/vuex-root"] [] = .ok entries ∧
      JSEvent.templateVuexRootWrite sampleJsGenerator.g.o.vuexStoreRootPath "" entries
        ∈ (generateVuexModuleLoader camelLib sampleJsGenerator markersLoaderRun).2 ∧
      entries.length = 2 ∧
      List.Forall₂
        (fun path entry => ∃ pathrel,
          camelLib.rel sampleJsGenerator.g.o.vuexStoreRootPath path = .ok pathrel ∧
          entry.FullPath = camelLib.dir pathrel ∧
          entry.Path = camelLib.base (camelLib.dir pathrel) ∧
          entry.FullName = camelLib.toCamel
            (String.mk (List.intercalate ['_'] (splitChars '/' (camelLib.dir pathrel).data))) ∧
          entry.Name = camelLib.toCamel (camelLib.base (camelLib.dir pathrel)))
        ["/app/vue/src/store/generated/acme/blog/vuex-root",
         "/app/vue/src/store/generated/cosmos/bank/vuex-root"] entries :=
  ⟨by decide,
   generateVuexModuleLoader_entries camelLib sampleJsGenerator markersLoaderRun
     ["/app/vue/src/store/generated/acme/blog/vuex-root",
      "/app/vue/src/store/generated/cosmos/bank/vuex-root"] rfl (by
        intro path hpath
        rcases List.mem_cons.mp hpath with rfl | hpath
        · exact ⟨"generated/acme/blog/vuex-root", by decide⟩
        · rcases List.mem_cons.mp hpath with rfl | hpath
          · exact ⟨"generated/cosmos/bank/vuex-root", by decide⟩
          · simp at hpath)⟩

/-! ## The root loader generator is not guarded -/

/-- The stage calls of a module task belong to the stage plan. -/
theorem stageSites_subset_plan (lib : PathLib) (g : jsGenerator) (jsOut : Module → String)
    (run : ModuleRun) (tsprotoPluginPath appPath : String) (m : Module) :
    ∀ s ∈ stageSites (generateModule lib g jsOut run tsprotoPluginPath appPath m).2,
      s ∈ stagePlan (decide (g.g.o.vuexStoreRootPath ≠ "")) := by
  intro s hs
  rw [(generateModule_runPlan lib g jsOut run tsprotoPluginPath appPath m).2] at hs
  have hsub := ( runPlan_prefix ((stagePlan (decide (g.g.o.vuexStoreRootPath ≠ ""))).map
    (fun s => (s, run.outcome s)))).subset hs
  simpa [List.map_map, Function.comp_def] using hsub

/-- A module task renders the store wrapper only with a store root. -/
theorem storeWrite_only_with_store (lib : PathLib) (g : jsGenerator) (jsOut : Module → String)
    (run : ModuleRun) (tsprotoPluginPath appPath : String) (m : Module)
    (h : ∃ ev ∈ (generateModule lib g jsOut run tsprotoPluginPath appPath m).2,
      ev.site = Site.templateVuexStoreWrite) :
    g.g.o.vuexStoreRootPath ≠ "" := by
  obtain ⟨ev, hev, hsite⟩ := h
  have hstage : Site.templateVuexStoreWrite
      ∈ stageSites (generateModule lib g jsOut run tsprotoPluginPath appPath m).2 := by
    unfold stageSites
    rw [List.mem_filter]
    exact ⟨List.mem_map.mpr ⟨ev, hev, hsite⟩, by decide⟩
  have hplan := stageSites_subset_plan lib g jsOut run tsprotoPluginPath appPath m _ hstage
  intro hempty
  rw [hempty] at hplan
  exact absurd hplan (by decide)

/-- C26: whenever `generateModules` succeeds, `generateJS` goes on to the root
loader generator, whatever `vuexStoreRootPath` is, the empty path included: it
scans for the markers under the store root and, when the scan and the entries
succeed, writes the root loader there and, when that succeeds, compiles
`index.ts`; whereas a module task renders its store wrapper only if
`vuexStoreRootPath` is not empty. -/
theorem generateJS_loader_unguarded (lib : PathLib) (g : generator) (jsOut : Module → String)
    (run : JSRun) (tsprotoPluginPath : String)
    (hbinary : run.binaryPath = .ok tsprotoPluginPath)
    (hmodules : (generateModules lib { g := g, tsprotoPluginPath := tsprotoPluginPath }
      jsOut run).1 = none) :
    JSEvent.glob (lib.join g.o.vuexStoreRootPath ("/**/" ++ vuexRootMarker))
      ∈ (generateJS lib g jsOut run).2 ∧
    (∀ modulePaths modules, run.loader.glob = .ok modulePaths →
      loaderModules lib g.o.vuexStoreRootPath modulePaths [] = .ok modules →
      JSEvent.templateVuexRootWrite g.o.vuexStoreRootPath "" modules
        ∈ (generateJS lib g jsOut run).2 ∧
      (run.loader.templateVuexRootWrite = none →
        JSEvent.tscGenerate Ctx.generator (tscConfig [lib.join g.o.vuexStoreRootPath "index.ts"])
          ∈ (generateJS lib g jsOut run).2)) ∧
    (∀ (moduleRun : ModuleRun) (appPath : String) (m : Module),
      (∃ ev ∈ (generateModule lib { g := g, tsprotoPluginPath := tsprotoPluginPath } jsOut
          moduleRun tsprotoPluginPath appPath m).2, ev.site = Site.templateVuexStoreWrite) →
      g.o.vuexStoreRootPath ≠ "") := by
  rw [generateJS_of_modules_ok lib g jsOut run tsprotoPluginPath hbinary hmodules]
  refine ⟨?_, ?_, ?_⟩
  · simp only [generateVuexModuleLoader]
    cases run.loader.glob with
    | error e => simp
    | ok modulePaths =>
      simp only
      cases loaderModules lib g.o.vuexStoreRootPath modulePaths [] with
      | error e => simp
      | ok modules =>
        simp only
        cases run.loader.templateVuexRootWrite <;> simp
  · intro modulePaths modules hglob hentries
    simp only [generateVuexModuleLoader, hglob, hentries]
    cases hwrite : run.loader.templateVuexRootWrite <;> simp
  · intro moduleRun appPath m h
    exact storeWrite_only_with_store lib { g := g, tsprotoPluginPath := tsprotoPluginPath }
      jsOut moduleRun tsprotoPluginPath appPath m h

/-- C26 at the sample app without store generation: the root loader generator
runs with the empty store root, and no module task renders a store wrapper. -/
theorem generateJS_loader_unguarded_witness :
    plainJsGenerator.g.o.vuexStoreRootPath = "" ∧
    JSEvent.glob (sampleLib.join "" ("/**/" ++ vuexRootMarker))
      ∈ (generateJS sampleLib plainJsGenerator.g sampleJsOut okJsRun).2 ∧
    JSEvent.templateVuexRootWrite "" "" []
      ∈ (generateJS sampleLib plainJsGenerator.g sampleJsOut okJsRun).2 ∧
    (∀ ev ∈ (generateModule sampleLib plainJsGenerator sampleJsOut okModuleRun
        "/tmp/protoc-gen-ts_proto" "/app" blogModule).2,
      ev.site ≠ Site.templateVuexStoreWrite) :=
  ⟨rfl,
   (generateJS_loader_unguarded sampleLib plainJsGenerator.g sampleJsOut okJsRun
      "/tmp/protoc-gen-ts_proto" rfl (by decide)).1,
   ((generateJS_loader_unguarded sampleLib plainJsGenerator.g sampleJsOut okJsRun
      "/tmp/protoc-gen-ts_proto" rfl (by decide)).2.1 [] [] rfl rfl).1,
   by decide⟩

/-! ## Occurrences of a placeholder in a text -/

/-- One step of `indexChars`. -/
theorem indexChars_cons (X : List Char) (c : Char) (cs : List Char) :
    indexChars X (c :: cs)
      = if X.isPrefixOf (c :: cs) then some 0 else (indexChars X cs).map (· + 1) := rfl

/-- A text starts with two slashes iff it is two slashes and a rest. -/
theorem startsSlashes_iff (X : List Char) :
    startsSlashes X = true ↔ ∃ r, X = '/' :: '/' :: r := by
  constructor
  · intro h
    unfold startsSlashes at h
    split at h
    · exact ⟨_, rfl⟩
    · cases h
  · rintro ⟨r, rfl⟩; rfl

/-- One step of `occurrences`. -/
theorem occurrences_cons (X : List Char) (c : Char) (cs : List Char) :
    occurrences X (c :: cs)
      = (if X.isPrefixOf (c :: cs) then 1 else 0) + occurrences X cs := rfl

/-- A non-empty text is found in no empty text. -/
theorem indexChars_nil {X : List Char} (hX : X ≠ []) : indexChars X [] = none := by
  cases X with
  | nil => exact absurd rfl hX
  | cons x xs => simp [indexChars, List.isPrefixOf]

/-- The first occurrence splits the text: nothing is found before it. -/
theorem indexChars_some_split {X : List Char} (hX : X ≠ []) :
    ∀ (s : List Char) (i : Nat), indexChars X s = some i →
      ∃ a b, s = a ++ (X ++ b) ∧ a.length = i ∧ indexChars X a = none := by
  intro s
  induction s with
  | nil => intro i h; rw [indexChars_nil hX] at h; cases h
  | cons c cs ih =>
    intro i h
    unfold indexChars at h
    by_cases hp : X.isPrefixOf (c :: cs) = true
    · rw [if_pos hp] at h
      obtain ⟨b, hb⟩ := List.isPrefixOf_iff_prefix.mp hp
      exact ⟨[], b, by simp [hb], by simpa using Option.some.inj h, indexChars_nil hX⟩
    · rw [if_neg hp] at h
      cases hi : indexChars X cs with
      | none => simp [hi] at h
      | some i' =>
        obtain ⟨a, b, hs, hlen, hnone⟩ := ih i' hi
        refine ⟨c :: a, b, by simp [hs], ?_, ?_⟩
        · simp [hi] at h; simp [hlen, h]
        · unfold indexChars
          have hp' : ¬ X.isPrefixOf (c :: a) = true := by
            intro hpa
            apply hp
            rw [List.isPrefixOf_iff_prefix] at hpa ⊢
            rw [hs]
            exact hpa.trans (List.prefix_append (c :: a) (X ++ b))
          rw [if_neg hp', hnone]; rfl

/-- The index of the first occurrence leaves room for the text found. -/
theorem indexChars_some_le {X : List Char} (hX : X ≠ []) (s : List Char) (i : Nat)
    (h : indexChars X s = some i) : i + X.length ≤ s.length := by
  obtain ⟨a, b, hs, hlen, _⟩ := indexChars_some_split hX s i h
  rw [hs]; simp; omega

/-- A text without first occurrence has no occurrence. -/
theorem occurrences_of_index_none {X : List Char} :
    ∀ s : List Char, indexChars X s = none → occurrences X s = 0 := by
  intro s
  induction s with
  | nil => intro _; rfl
  | cons c cs ih =>
    intro h
    unfold indexChars at h
    by_cases hp : X.isPrefixOf (c :: cs) = true
    · rw [if_pos hp] at h; cases h
    · rw [if_neg hp] at h
      have hcs : indexChars X cs = none := by
        cases hi : indexChars X cs with
        | none => rfl
        | some i => simp [hi] at h
      simp [occurrences, hp, ih hcs]

/-- A text that has a prefix starting with two slashes starts with two
slashes. -/
theorem startsSlashes_of_isPrefixOf {X t : List Char} (hX : startsSlashes X = true)
    (h : X.isPrefixOf t = true) : startsSlashes t = true := by
  obtain ⟨r, hr⟩ := List.isPrefixOf_iff_prefix.mp h
  obtain ⟨X', rfl⟩ := (startsSlashes_iff X).mp hX
  subst hr; rfl

/-- A quiet text followed by any text does not start with two slashes, when it
is not empty. -/
theorem startsSlashes_quiet_append :
    ∀ (u v : List Char), quiet u = true → u ≠ [] → startsSlashes (u ++ v) = false := by
  intro u v hq hu
  match u, hq, hu with
  | [c], hq, _ =>
    have hc : c ≠ '/' := by simpa [quiet] using hq
    cases v with
    | nil => simp [startsSlashes]
    | cons d v => simp only [List.singleton_append]; unfold startsSlashes; split <;> simp_all
  | c :: d :: cs, hq, _ =>
    have hcd : ¬ (c = '/' ∧ d = '/') := by
      simp only [quiet, Bool.and_eq_true, Bool.not_eq_true', Bool.and_eq_false_imp,
        beq_iff_eq] at hq
      intro h
      have := hq.1 h.1
      simp [h.2] at this
    simp only [List.cons_append]
    unfold startsSlashes
    split <;> simp_all

/-- The tail of a quiet text is quiet. -/
theorem quiet_tail : ∀ (c : Char) (u : List Char), quiet (c :: u) = true → quiet u = true := by
  intro c u h
  cases u with
  | nil => rfl
  | cons d cs => simp only [quiet, Bool.and_eq_true] at h; exact h.2

/-- A text without slash is quiet. -/
theorem quiet_of_no_slash : ∀ u : List Char, '/' ∉ u → quiet u = true := by
  intro u
  induction u with
  | nil => intro _; rfl
  | cons c cs ih =>
    intro h
    have hc : c ≠ '/' := fun hc => h (by simp [hc])
    have hcs : '/' ∉ cs := fun hcs => h (List.mem_cons_of_mem _ hcs)
    cases cs with
    | nil => simp [quiet, hc]
    | cons d ds => simp [quiet, hc, ih hcs]

/-- Quiet texts put one after the other are quiet. -/
theorem quiet_append : ∀ u v : List Char, quiet u = true → quiet v = true →
    quiet (u ++ v) = true := by
  intro u
  induction u with
  | nil => intro v _ hv; simpa using hv
  | cons c cs ih =>
    intro v hu hv
    have hcs := quiet_tail c cs hu
    cases cs with
    | nil =>
      have hc : c ≠ '/' := by simpa [quiet] using hu
      cases v with
      | nil => simpa using hu
      | cons d ds => simp [quiet, hc, hv]
    | cons d ds =>
      have := ih v hcs hv
      simp only [quiet, Bool.and_eq_true] at hu
      simp only [List.cons_append, quiet, Bool.and_eq_true]
      exact ⟨hu.1, by simpa using this⟩

/-- A slash followed by a non-empty text without slash is quiet. -/
theorem quiet_slash_cons (u : List Char) (hu : '/' ∉ u) (hne : u ≠ []) :
    quiet ('/' :: u) = true := by
  cases u with
  | nil => exact absurd rfl hne
  | cons d ds =>
    have hd : d ≠ '/' := fun hd => hu (by simp [hd])
    simp [quiet, hd, quiet_of_no_slash (d :: ds) hu]

/-- A quiet text does not end with a slash nor hold two slashes in a row. -/
theorem not_quiet_append_slash : ∀ (t x : List Char),
    (x = [] ∨ ∃ y, x = '/' :: y) → quiet (t ++ '/' :: x) = false := by
  intro t
  induction t with
  | nil =>
    intro x hx
    rcases hx with rfl | ⟨y, rfl⟩
    · rfl
    · simp [quiet]
  | cons c cs ih =>
    intro x hx
    have := ih x hx
    cases cs with
    | nil => simp only [List.nil_append] at this; simp [quiet, this]
    | cons d ds => simp only [List.cons_append] at this; simp [quiet, this]

/-- An occurrence of `X` that starts before a block starting with two slashes
ends before the block. -/
theorem no_straddle {X B : List Char} (hB : startsSlashes B = true)
    (hX : quiet X.tail = true) (t w : List Char) (ht : t ≠ [])
    (h : X.isPrefixOf (t ++ (B ++ w)) = true) : X.isPrefixOf t = true := by
  rw [List.isPrefixOf_iff_prefix] at h ⊢
  rcases List.prefix_or_prefix_of_prefix h (List.prefix_append t (B ++ w)) with h1 | h1
  · exact h1
  · obtain ⟨x, hx⟩ := h1
    subst hx
    have hxw : x <+: B ++ w := (List.prefix_append_right_inj t).mp h
    cases x with
    | nil => simp
    | cons x0 xs =>
      exfalso
      obtain ⟨B', rfl⟩ := (startsSlashes_iff B).mp hB
      · have hx0 : x0 = '/' := by
          obtain ⟨r, hr⟩ := hxw
          simp at hr
          exact hr.1
        have hxs : xs = [] ∨ ∃ y, xs = '/' :: y := by
          obtain ⟨r, hr⟩ := hxw
          simp at hr
          cases xs with
          | nil => left; rfl
          | cons x1 ys =>
            right
            simp at hr
            exact ⟨ys, by rw [hr.2.1]⟩
        cases t with
        | nil => exact ht rfl
        | cons c cs =>
          subst hx0
          have := not_quiet_append_slash cs xs hxs
          simp only [List.cons_append, List.tail_cons] at hX
          rw [this] at hX
          cases hX

/-- No occurrence of `X` starts within a quiet text: the occurrences. -/
theorem occurrences_quiet {X : List Char} (hX : startsSlashes X = true) :
    ∀ (u v : List Char), quiet u = true → occurrences X (u ++ v) = occurrences X v := by
  intro u
  induction u with
  | nil => intro v _; rfl
  | cons c cs ih =>
    intro v hu
    have hno : ¬ X.isPrefixOf (c :: cs ++ v) = true := by
      intro hp
      have h1 := startsSlashes_of_isPrefixOf hX hp
      rw [startsSlashes_quiet_append (c :: cs) v hu (by simp)] at h1
      cases h1
    simp only [List.cons_append] at hno ⊢
    simp [occurrences, hno, ih v (quiet_tail c cs hu)]

/-- No occurrence of `X` starts within a quiet text: the first occurrence. -/
theorem indexChars_quiet {X : List Char} (hX : startsSlashes X = true) :
    ∀ (u v : List Char), quiet u = true →
      indexChars X (u ++ v) = (indexChars X v).map (· + u.length) := by
  intro u
  induction u with
  | nil => intro v _; simp
  | cons c cs ih =>
    intro v hu
    have hno : ¬ X.isPrefixOf (c :: cs ++ v) = true := by
      intro hp
      have h1 := startsSlashes_of_isPrefixOf hX hp
      rw [startsSlashes_quiet_append (c :: cs) v hu (by simp)] at h1
      cases h1
    simp only [List.cons_append] at hno ⊢
    rw [indexChars_cons, if_neg hno, ih v (quiet_tail c cs hu)]
    cases indexChars X v <;> simp [Nat.add_assoc]

/-- The occurrences of `X` in a text with a block `B`: those before the block,
one at the block if `X` starts there, and those after the block. -/
theorem occurrences_block {X B : List Char} (hX : startsSlashes X = true)
    (hXq : quiet X.tail = true) (hB : startsSlashes B = true) (hBq : quiet B.tail = true)
    (w : List Char) :
    ∀ a : List Char, occurrences X (a ++ (B ++ w))
      = occurrences X a + (if X.isPrefixOf (B ++ w) then 1 else 0) + occurrences X w := by
  intro a
  induction a with
  | nil =>
    obtain ⟨B', rfl⟩ := (startsSlashes_iff B).mp hB
    have := occurrences_quiet hX ('/' :: B') w (by simpa using hBq)
    simp only [List.cons_append] at this
    simp only [List.nil_append, List.cons_append]
    rw [occurrences_cons, this]
    simp [occurrences]
  | cons c cs ih =>
    have hiff : X.isPrefixOf (c :: cs ++ (B ++ w)) = X.isPrefixOf (c :: cs) := by
      apply Bool.eq_iff_iff.mpr
      constructor
      · exact no_straddle hB hXq (c :: cs) w (by simp)
      · intro h
        rw [List.isPrefixOf_iff_prefix] at h ⊢
        exact h.trans (List.prefix_append _ _)
    simp only [List.cons_append] at hiff ⊢
    simp only [occurrences, hiff, ih]
    omega

/-- The first occurrence of `X` in a text with a block `B`: the first one
before the block, else the block if `X` starts there, else the first one after
the block. -/
theorem indexChars_block {X B : List Char} (hX : startsSlashes X = true)
    (hXq : quiet X.tail = true) (hB : startsSlashes B = true) (hBq : quiet B.tail = true)
    (w : List Char) :
    ∀ a : List Char, indexChars X (a ++ (B ++ w))
      = match indexChars X a with
        | some i => some i
        | none =>
          if X.isPrefixOf (B ++ w) then some a.length
          else (indexChars X w).map (· + (a.length + B.length)) := by
  have hXne : X ≠ [] := by
    intro h; subst h; cases hX
  intro a
  induction a with
  | nil =>
    rw [indexChars_nil hXne]
    obtain ⟨B', rfl⟩ := (startsSlashes_iff B).mp hB
    simp only [List.nil_append, List.cons_append]
    rw [indexChars_cons]
    by_cases hp : X.isPrefixOf ('/' :: '/' :: (B' ++ w)) = true
    · simp [hp]
    · have := indexChars_quiet hX ('/' :: B') w (by simpa using hBq)
      simp only [List.cons_append] at this
      rw [if_neg hp, if_neg hp, this]
      cases indexChars X w with
      | none => simp
      | some i => simp; omega
  | cons c cs ih =>
    have hiff : X.isPrefixOf (c :: cs ++ (B ++ w)) = X.isPrefixOf (c :: cs) := by
      apply Bool.eq_iff_iff.mpr
      constructor
      · exact no_straddle hB hXq (c :: cs) w (by simp)
      · intro h
        rw [List.isPrefixOf_iff_prefix] at h ⊢
        exact h.trans (List.prefix_append _ _)
    simp only [List.cons_append] at hiff ⊢
    rw [indexChars_cons, indexChars_cons, hiff, ih]
    by_cases hp : X.isPrefixOf (c :: cs) = true
    · simp [hp]
    · simp only [hp, if_false]
      cases hi : indexChars X cs with
      | some i => simp
      | none =>
        by_cases hb : X.isPrefixOf (B ++ w) = true
        · simp [hb]
        · simp only [hb, if_false, Option.map_none', Option.map_map]
          cases indexChars X w <;> simp [Nat.add_assoc, Nat.add_comm, Nat.add_left_comm]

/-- The first occurrence is an occurrence and no position before it is one. -/
theorem indexChars_first (X : List Char) :
    ∀ (s : List Char) (i : Nat), indexChars X s = some i →
      X.isPrefixOf (s.drop i) = true ∧ ∀ j, j < i → X.isPrefixOf (s.drop j) = false := by
  intro s
  induction s with
  | nil =>
    intro i h
    unfold indexChars at h
    by_cases hp : X.isPrefixOf [] = true
    · rw [if_pos hp] at h
      have hi : i = 0 := (Option.some.inj h).symm
      subst hi
      exact ⟨hp, fun j hj => absurd hj (Nat.not_lt_zero j)⟩
    · rw [if_neg hp] at h; cases h
  | cons c cs ih =>
    intro i h
    rw [indexChars_cons] at h
    by_cases hp : X.isPrefixOf (c :: cs) = true
    · rw [if_pos hp] at h
      have hi : i = 0 := (Option.some.inj h).symm
      subst hi
      exact ⟨hp, fun j hj => absurd hj (Nat.not_lt_zero j)⟩
    · rw [if_neg hp] at h
      cases hi : indexChars X cs with
      | none => simp [hi] at h
      | some i' =>
        simp only [hi, Option.map_some', Option.some.injEq] at h
        subst h
        obtain ⟨h1, h2⟩ := ih i' hi
        refine ⟨by simpa using h1, ?_⟩
        intro j hj
        cases j with
        | zero => exact Bool.eq_false_iff.mpr hp
        | succ j => simpa using h2 j (by omega)

/-- An occurrence at a position gives a first occurrence at or before it. -/
theorem indexChars_of_occurrence (X : List Char) :
    ∀ (s : List Char) (j : Nat), X.isPrefixOf (s.drop j) = true →
      ∃ i, i ≤ j ∧ indexChars X s = some i := by
  intro s
  induction s with
  | nil =>
    intro j h
    simp only [List.drop_nil] at h
    exact ⟨0, Nat.zero_le _, by simp [indexChars, h]⟩
  | cons c cs ih =>
    intro j h
    rw [indexChars_cons]
    by_cases hp : X.isPrefixOf (c :: cs) = true
    · exact ⟨0, Nat.zero_le _, by simp [hp]⟩
    · cases j with
      | zero => exact absurd (by simpa using h) hp
      | succ j =>
        obtain ⟨i, hi, hidx⟩ := ih j (by simpa using h)
        exact ⟨i + 1, by omega, by simp [hp, hidx]⟩

/-- When every occurrence of `Y` is one of `X`: the first occurrence of `X` is
before every occurrence of `Y` iff it is not the first occurrence of `Y`. -/
theorem precedes_iff {X Y : List Char} (hXY : X <+: Y) (s : List Char) (i : Nat)
    (hi : indexChars X s = some i) :
    (∀ j, Y <+: s.drop j → i < j) ↔ indexChars Y s ≠ some i := by
  have hXYp : ∀ t, Y.isPrefixOf t = true → X.isPrefixOf t = true := by
    intro t h
    rw [List.isPrefixOf_iff_prefix] at h ⊢
    exact hXY.trans h
  obtain ⟨_, hmin⟩ := indexChars_first X s i hi
  constructor
  · intro h hY
    have := (indexChars_first Y s i hY).1
    exact absurd (h i (List.isPrefixOf_iff_prefix.mp this)) (Nat.lt_irrefl i)
  · intro hne j hj
    have hjY := List.isPrefixOf_iff_prefix.mpr hj
    have hjX := hXYp _ hjY
    have hle : i ≤ j := by
      by_contra hlt
      have := hmin j (by omega)
      rw [this] at hjX; cases hjX
    rcases Nat.lt_or_eq_of_le hle with hlt | heq
    · exact hlt
    · exfalso
      subst heq
      obtain ⟨i', hi', hidx⟩ := indexChars_of_occurrence Y s i hjY
      have hX' := hXYp _ (indexChars_first Y s i' hidx).1
      have : i' = i := by
        by_contra hne'
        have := hmin i' (by omega)
        rw [this] at hX'; cases hX'
      subst this
      exact hne hidx

/-- A text in which `X` is not found holds no `Y` either, when every occurrence
of `Y` is one of `X`. -/
theorem indexChars_none_of_longer {X Y : List Char} (hXY : X <+: Y) (s : List Char)
    (h : indexChars X s = none) : indexChars Y s = none := by
  cases hY : indexChars Y s with
  | none => rfl
  | some i =>
    exfalso
    have h1 := (indexChars_first Y s i hY).1
    rw [List.isPrefixOf_iff_prefix] at h1
    obtain ⟨i', _, hidx⟩ := indexChars_of_occurrence X s i
      (List.isPrefixOf_iff_prefix.mpr (hXY.trans h1))
    rw [h] at hidx; cases hidx

/-- The length of the text is fuel enough for the loop of `strings.Count`:
more fuel does not change the count. -/
theorem countLoop_fuel {X : List Char} (hX : X ≠ []) :
    ∀ (n m : Nat) (s : List Char), s.length ≤ n → s.length ≤ m →
      countLoop X n s = countLoop X m s := by
  intro n
  induction n with
  | zero =>
    intro m s hn _
    have hs : s = [] := List.eq_nil_of_length_eq_zero (by omega)
    subst hs
    cases m with
    | zero => rfl
    | succ m => simp [countLoop, indexChars_nil hX]
  | succ n ih =>
    intro m s hn hm
    cases m with
    | zero =>
      have hs : s = [] := List.eq_nil_of_length_eq_zero (by omega)
      subst hs
      simp [countLoop, indexChars_nil hX]
    | succ m =>
      unfold countLoop
      cases hi : indexChars X s with
      | none => rfl
      | some i =>
        have hlen : 0 < X.length := List.length_pos.mpr hX
        have hle := indexChars_some_le hX s i hi
        simp only []
        rw [ih m _ (by simp; omega) (by simp; omega)]

/-- For a text that starts with two slashes and is quiet after the first one,
the loop of `strings.Count` counts the positions at which it occurs. -/
theorem countLoop_eq_occurrences {X : List Char} (hX : startsSlashes X = true)
    (hXq : quiet X.tail = true) :
    ∀ (fuel : Nat) (s : List Char), s.length ≤ fuel →
      countLoop X fuel s = occurrences X s := by
  have hXne : X ≠ [] := by
    intro h; subst h; cases hX
  have hlen : 0 < X.length := List.length_pos.mpr hXne
  intro fuel
  induction fuel with
  | zero =>
    intro s hs
    have hs : s = [] := List.eq_nil_of_length_eq_zero (by omega)
    subst hs; rfl
  | succ fuel ih =>
    intro s hs
    unfold countLoop
    cases hi : indexChars X s with
    | none => simp [occurrences_of_index_none s hi]
    | some i =>
      obtain ⟨a, b, hsplit, hlen_a, hnone⟩ := indexChars_some_split hXne s i hi
      have hdrop : s.drop (i + X.length) = b := by
        rw [hsplit, ← hlen_a, ← List.append_assoc, ← List.length_append,
          List.drop_left]
      simp only [hdrop]
      rw [ih b (by rw [hsplit] at hs; simp at hs; omega), hsplit,
        occurrences_block hX hXq hX hXq b a, occurrences_of_index_none a hnone]
      have : X.isPrefixOf (X ++ b) = true :=
        List.isPrefixOf_iff_prefix.mpr (List.prefix_append X b)
      simp [this]

/-- The first replacement of `strings.Replace` for a non-empty `old`: the text
is kept when `old` is not found, else it is the text before the first
occurrence, `new`, and the text after the occurrence. -/
theorem replaceLoop_one {X : List Char} (hX : X ≠ []) (new s : List Char) :
    (indexChars X s = none ∧ replaceLoop X new 1 s = s) ∨
    ∃ a b, s = a ++ (X ++ b) ∧ indexChars X a = none ∧ indexChars X s = some a.length ∧
      replaceLoop X new 1 s = a ++ (new ++ b) := by
  cases hi : indexChars X s with
  | none => left; exact ⟨rfl, by simp [replaceLoop, hi]⟩
  | some i =>
    right
    obtain ⟨a, b, hsplit, hlen_a, hnone⟩ := indexChars_some_split hX s i hi
    have hdrop : s.drop (i + X.length) = b := by
      rw [hsplit, ← hlen_a, ← List.append_assoc, ← List.length_append,
        List.drop_left]
    have htake : s.take i = a := by
      rw [hsplit, ← hlen_a, List.take_left]
    refine ⟨a, b, hsplit, hnone, by rw [hlen_a], ?_⟩
    simp [replaceLoop, hi, hdrop, htake]

/-- The decimal digits of a number hold no slash. -/
theorem no_slash_toString (k : Nat) : '/' ∉ (toString k).data := by
  have hdigit : ∀ d : Nat, d < 10 → Nat.digitChar d ≠ '/' := by decide
  have hcore : ∀ (fuel n : Nat) (ds : List Char), '/' ∉ ds →
      '/' ∉ Nat.toDigitsCore 10 fuel n ds := by
    intro fuel
    induction fuel with
    | zero => intro n ds h; simpa [Nat.toDigitsCore] using h
    | succ fuel ih =>
      intro n ds h
      unfold Nat.toDigitsCore
      have hcons : '/' ∉ Nat.digitChar (n % 10) :: ds := by
        intro hm
        rcases List.mem_cons.mp hm with h1 | h1
        · exact hdigit _ (Nat.mod_lt n (by decide)) h1.symm
        · exact h h1
      simp only []
      split
      · exact hcons
      · exact ih _ _ hcons
  show '/' ∉ (Nat.repr k).data
  exact hcore _ _ _ (by simp)

/-- A text that differs from a block where both have characters is not found at
the block. -/
theorem isPrefixOf_block_false {X B : List Char}
    (h : X.take B.length ≠ B.take X.length) (w : List Char) :
    X.isPrefixOf (B ++ w) = false := by
  apply Bool.eq_false_iff.mpr
  intro hp
  rw [List.isPrefixOf_iff_prefix] at hp
  apply h
  rcases List.prefix_or_prefix_of_prefix hp (List.prefix_append B w) with h1 | h1
  · rw [List.take_of_length_le h1.length_le, List.prefix_iff_eq_take.mp h1]
    simp
  · rw [List.take_of_length_le h1.length_le, ← List.prefix_iff_eq_take.mp h1]

/-- Replacing the first block `I` by `I` and a quiet text keeps the number of
occurrences of a text `X` that is not found at `I`. -/
theorem occurrences_insert_after {I X : List Char} (hI : startsSlashes I = true)
    (hIq : quiet I.tail = true) (hX : startsSlashes X = true) (hXq : quiet X.tail = true)
    (hXI : ∀ w, X.isPrefixOf (I ++ w) = false) (ins : List Char) (hins : quiet ins = true)
    (s : List Char) :
    occurrences X (replaceLoop I (I ++ ins) 1 s) = occurrences X s := by
  have hIne : I ≠ [] := by
    intro h; subst h; cases hI
  rcases replaceLoop_one hIne (I ++ ins) s with ⟨_, h⟩ | ⟨a, b, hs, _, _, h⟩
  · rw [h]
  · rw [h, hs, List.append_assoc, occurrences_block hX hXq hI hIq (ins ++ b) a,
      occurrences_block hX hXq hI hIq b a, hXI, hXI, occurrences_quiet hX ins b hins]

/-- Replacing the first block `I` by `I` and a quiet text keeps this: `X` is
found and its first occurrence is not the first occurrence of `Y`. -/
theorem first_insert_after {I X Y : List Char} (hI : startsSlashes I = true)
    (hIq : quiet I.tail = true) (hX : startsSlashes X = true) (hXq : quiet X.tail = true)
    (hY : startsSlashes Y = true) (hYq : quiet Y.tail = true)
    (hXI : ∀ w, X.isPrefixOf (I ++ w) = false) (hYI : ∀ w, Y.isPrefixOf (I ++ w) = false)
    (ins : List Char) (hins : quiet ins = true) (s : List Char) (i : Nat)
    (hi : indexChars X s = some i) (hne : indexChars Y s ≠ some i) :
    ∃ i₁, indexChars X (replaceLoop I (I ++ ins) 1 s) = some i₁ ∧
      indexChars Y (replaceLoop I (I ++ ins) 1 s) ≠ some i₁ := by
  have hIne : I ≠ [] := by
    intro h; subst h; cases hI
  have hXne : X ≠ [] := by
    intro h; subst h; cases hX
  have hYne : Y ≠ [] := by
    intro h; subst h; cases hY
  rcases replaceLoop_one hIne (I ++ ins) s with ⟨_, h⟩ | ⟨a, b, hs, _, _, h⟩
  · rw [h]; exact ⟨i, hi, hne⟩
  · have hsX := indexChars_block hX hXq hI hIq b a
    have hsY := indexChars_block hY hYq hI hIq b a
    have hs1X := indexChars_block hX hXq hI hIq (ins ++ b) a
    have hs1Y := indexChars_block hY hYq hI hIq (ins ++ b) a
    rw [← hs] at hsX hsY
    rw [hi] at hsX
    rw [h, List.append_assoc]
    rw [hXI, indexChars_quiet hX ins b hins] at hs1X
    rw [hYI, indexChars_quiet hY ins b hins] at hs1Y
    rw [hXI] at hsX
    rw [hYI] at hsY
    simp only [Bool.false_eq_true, if_false] at hsX hsY hs1X hs1Y
    cases hXa : indexChars X a with
    | some ia =>
      rw [hXa] at hsX hs1X
      have hia : i = ia := Option.some.inj hsX
      subst hia
      refine ⟨i, hs1X, ?_⟩
      have hle := indexChars_some_le hXne a i hXa
      have hpos : 0 < X.length := List.length_pos.mpr hXne
      cases hYa : indexChars Y a with
      | some ja =>
        rw [hYa] at hsY hs1Y
        rw [hs1Y, ← hsY]; exact hne
      | none =>
        rw [hYa] at hs1Y
        rw [hs1Y]
        cases indexChars Y b with
        | none => simp
        | some q => simp; omega
    | none =>
      rw [hXa] at hsX hs1X
      cases hXb : indexChars X b with
      | none => rw [hXb] at hsX; cases hsX
      | some q =>
        rw [hXb] at hsX hs1X
        simp only [Option.map_some', Option.some.injEq] at hsX hs1X
        refine ⟨_, hs1X, ?_⟩
        cases hYa : indexChars Y a with
        | some ja =>
          rw [hYa] at hs1Y
          have hle := indexChars_some_le hYne a ja hYa
          have hpos : 0 < Y.length := List.length_pos.mpr hYne
          rw [hs1Y]
          simp only [Option.map_some', ne_eq, Option.some.injEq]
          omega
        | none =>
          rw [hYa] at hsY hs1Y
          rw [hs1Y]
          cases hYb : indexChars Y b with
          | none => simp
          | some q' =>
            rw [hYb] at hsY
            rw [hsY] at hne
            simp only [Option.map_some', ne_eq, Option.some.injEq] at hne ⊢
            omega

/-- Replacing the first `S`, when it is not an occurrence of `F = S ++ fld`, by
`S`, a quiet text at which `fld` is not found, and `F`: the first `S` stays
where it was and is not an occurrence of `F`, there is one more occurrence of
`F`, and the new text is in the result. -/
theorem first_insert_field {S F fld : List Char} (hS : startsSlashes S = true)
    (hSq : quiet S.tail = true) (hF : startsSlashes F = true) (hFq : quiet F.tail = true)
    (hSF : F = S ++ fld) (ins : List Char) (hins : quiet ins = true)
    (hfld : ∀ w, fld.isPrefixOf (ins ++ w) = false) (s : List Char) (i : Nat)
    (hi : indexChars S s = some i) (hne : indexChars F s ≠ some i) :
    indexChars S (replaceLoop S (S ++ (ins ++ F)) 1 s) = some i ∧
    indexChars F (replaceLoop S (S ++ (ins ++ F)) 1 s) ≠ some i ∧
    occurrences F (replaceLoop S (S ++ (ins ++ F)) 1 s) = occurrences F s + 1 ∧
    ∃ pre post, replaceLoop S (S ++ (ins ++ F)) 1 s = pre ++ (S ++ (ins ++ F)) ++ post := by
  have hSne : S ≠ [] := by
    intro h; subst h; cases hS
  have hFne : F ≠ [] := by
    intro h; subst h; cases hF
  have hpre : S <+: F := ⟨fld, hSF.symm⟩
  have hat : ∀ w, F.isPrefixOf (S ++ w) = fld.isPrefixOf w := by
    intro w
    apply Bool.eq_iff_iff.mpr
    rw [List.isPrefixOf_iff_prefix, List.isPrefixOf_iff_prefix, hSF]
    exact List.prefix_append_right_inj S
  rcases replaceLoop_one hSne (S ++ (ins ++ F)) s with ⟨hnone, _⟩ | ⟨a, b, hs, ha, hidx, h⟩
  · rw [hnone] at hi; cases hi
  · rw [hi] at hidx
    have hia : i = a.length := Option.some.inj hidx
    have hFa := indexChars_none_of_longer hpre a ha
    have hsF := indexChars_block hF hFq hS hSq b a
    rw [← hs, hFa] at hsF
    have hFb : F.isPrefixOf (S ++ b) = false := by
      apply Bool.eq_false_iff.mpr
      intro hp
      rw [hp] at hsF
      simp only [if_true] at hsF
      rw [hsF, hia] at hne
      exact hne rfl
    have hself : S.isPrefixOf (S ++ (ins ++ F ++ b)) = true :=
      List.isPrefixOf_iff_prefix.mpr (List.prefix_append _ _)
    have hFself : F.isPrefixOf (F ++ b) = true :=
      List.isPrefixOf_iff_prefix.mpr (List.prefix_append _ _)
    have hFnew : F.isPrefixOf (S ++ (ins ++ F ++ b)) = false := by
      rw [hat, List.append_assoc]; exact hfld _
    have hres : replaceLoop S (S ++ (ins ++ F)) 1 s = a ++ (S ++ (ins ++ F ++ b)) := by
      rw [h]; simp [List.append_assoc]
    rw [hres]
    refine ⟨?_, ?_, ?_, ⟨a, b, by simp [List.append_assoc]⟩⟩
    · rw [indexChars_block hS hSq hS hSq _ a, ha, hself, hia]; rfl
    · rw [indexChars_block hF hFq hS hSq _ a, hFa, hFnew]
      simp only [Bool.false_eq_true, if_false]
      cases indexChars F (ins ++ F ++ b) with
      | none => simp
      | some q =>
        have hpos : 0 < S.length := List.length_pos.mpr hSne
        simp only [Option.map_some', ne_eq, Option.some.injEq]
        omega
    · rw [occurrences_block hF hFq hS hSq _ a, hFnew, List.append_assoc,
        occurrences_quiet hF ins (F ++ b) hins]
      have h0 := occurrences_block hF hFq hF hFq b []
      simp only [List.nil_append] at h0
      rw [h0, hFself, hs, occurrences_block hF hFq hS hSq b a, hFb]
      simp [occurrences]
      omega

/-! ## `templates/typed`: the field numbers of `genesisProtoModify` -/

set_option maxRecDepth 100000 in
/-- The three genesis placeholders start with two slashes and are quiet after
the first one; the field placeholder is the state placeholder followed by
`Field`; neither of them agrees with the import placeholder. -/
theorem placeholder_shapes :
    (startsSlashes typed.PlaceholderGenesisProtoImport.data = true ∧
      quiet typed.PlaceholderGenesisProtoImport.data.tail = true) ∧
    (startsSlashes typed.PlaceholderGenesisProtoState.data = true ∧
      quiet typed.PlaceholderGenesisProtoState.data.tail = true) ∧
    (startsSlashes typed.PlaceholderGenesisProtoStateField.data = true ∧
      quiet typed.PlaceholderGenesisProtoStateField.data.tail = true) ∧
    typed.PlaceholderGenesisProtoStateField.data
      = typed.PlaceholderGenesisProtoState.data ++ "Field".data ∧
    typed.PlaceholderGenesisProtoState.data.take
        typed.PlaceholderGenesisProtoImport.data.length
      ≠ typed.PlaceholderGenesisProtoImport.data.take
        typed.PlaceholderGenesisProtoState.data.length ∧
    typed.PlaceholderGenesisProtoStateField.data.take
        typed.PlaceholderGenesisProtoImport.data.length
      ≠ typed.PlaceholderGenesisProtoImport.data.take
        typed.PlaceholderGenesisProtoStateField.data.length := by
  decide

/-- `strings.Count` of the field placeholder is the number of positions at
which it occurs. -/
theorem Count_stateField (s : String) :
    Count s typed.PlaceholderGenesisProtoStateField
      = occurrences typed.PlaceholderGenesisProtoStateField.data s.data := by
  obtain ⟨_, _, ⟨hF, hFq⟩, _⟩ := placeholder_shapes
  have hne : typed.PlaceholderGenesisProtoStateField.data ≠ [] := by
    intro h; rw [h] at hF; cases hF
  unfold Count
  rw [if_neg hne]
  exact countLoop_eq_occurrences hF hFq _ _ (Nat.le_refl _)

/-- One run of `genesisProtoModify` on a content whose first state placeholder
is before every field placeholder, for names without slash: the field number,
the new field in the content, the placeholders and the count after the run. -/
theorem genesisProtoContent_step (Title : String → String) (opts : typed.Options)
    (content : String) (i : Nat) (hnames : typed.NamesWithoutSlash Title opts)
    (hstate : indexChars typed.PlaceholderGenesisProtoState.data content.data = some i)
    (hbefore : ∀ j, typed.PlaceholderGenesisProtoStateField.data <+: content.data.drop j →
      i < j) :
    (typed.genesisProtoContent Title opts content).1
      = Count content typed.PlaceholderGenesisProtoStateField + 1 ∧
    (∃ pre post, (typed.genesisProtoContent Title opts content).2.data
      = pre ++ (typed.replacementProtoState Title opts
          (Count content typed.PlaceholderGenesisProtoStateField + 1)).data ++ post) ∧
    (∃ i', indexChars typed.PlaceholderGenesisProtoState.data
        (typed.genesisProtoContent Title opts content).2.data = some i' ∧
      ∀ j, typed.PlaceholderGenesisProtoStateField.data
        <+: (typed.genesisProtoContent Title opts content).2.data.drop j → i' < j) ∧
    Count (typed.genesisProtoContent Title opts content).2
        typed.PlaceholderGenesisProtoStateField
      = Count content typed.PlaceholderGenesisProtoStateField + 1 := by
  obtain ⟨⟨hI, hIq⟩, ⟨hS, hSq⟩, ⟨hF, hFq⟩, hSF, hSI, hFI⟩ := placeholder_shapes
  obtain ⟨hmodule, htype, htitle⟩ := hnames
  have hIne : typed.PlaceholderGenesisProtoImport.data ≠ [] := by
    intro h; rw [h] at hI; cases hI
  have hSne : typed.PlaceholderGenesisProtoState.data ≠ [] := by
    intro h; rw [h] at hS; cases hS
  have hpre : typed.PlaceholderGenesisProtoState.data
      <+: typed.PlaceholderGenesisProtoStateField.data := ⟨_, hSF.symm⟩
  -- the text put after the import placeholder
  have himport : (typed.replacementProtoImport opts).data
      = typed.PlaceholderGenesisProtoImport.data
        ++ (("\nimport \"".data ++ opts.ModuleName.data)
          ++ ('/' :: (opts.TypeName.data ++ ".proto\";".data))) := by
    simp [typed.replacementProtoImport, String.data_append, List.append_assoc]
  have hinsI : quiet (("\nimport \"".data ++ opts.ModuleName.data)
      ++ ('/' :: (opts.TypeName.data ++ ".proto\";".data))) = true := by
    apply quiet_append
    · apply quiet_of_no_slash
      intro h
      rcases List.mem_append.mp h with h | h
      · exact absurd h (by decide)
      · exact hmodule h
    · apply quiet_slash_cons
      · intro h
        rcases List.mem_append.mp h with h | h
        · exact htype h
        · exact absurd h (by decide)
      · simp
  -- the text put between the state placeholder and the field placeholder
  have hstateRepl : ∀ k : Nat, (typed.replacementProtoState Title opts k).data
      = typed.PlaceholderGenesisProtoState.data
        ++ (('\n' :: ("\t\trepeated ".data ++ (Title opts.TypeName).data ++ " ".data
              ++ opts.TypeName.data ++ "List = ".data ++ (toString k).data ++ "; ".data))
          ++ typed.PlaceholderGenesisProtoStateField.data) := by
    intro k
    simp [typed.replacementProtoState, String.data_append, List.append_assoc]
  have hinsS : ∀ k : Nat, quiet ('\n' :: ("\t\trepeated ".data ++ (Title opts.TypeName).data
      ++ " ".data ++ opts.TypeName.data ++ "List = ".data ++ (toString k).data
      ++ "; ".data)) = true := by
    intro k
    apply quiet_of_no_slash
    intro h
    simp only [List.mem_cons, List.mem_append] at h
    rcases h with h | (((((h | h) | h) | h) | h) | h) | h
    · exact absurd h (by decide)
    · exact absurd h (by decide)
    · exact htitle h
    · exact absurd h (by decide)
    · exact htype h
    · exact absurd h (by decide)
    · exact no_slash_toString k h
    · exact absurd h (by decide)
  have hfld : ∀ (k : Nat) (w : List Char), "Field".data.isPrefixOf
      (('\n' :: ("\t\trepeated ".data ++ (Title opts.TypeName).data ++ " ".data
          ++ opts.TypeName.data ++ "List = ".data ++ (toString k).data ++ "; ".data)) ++ w)
      = false := by
    intro k w
    apply Bool.eq_false_iff.mpr
    intro hp
    rw [List.isPrefixOf_iff_prefix] at hp
    obtain ⟨r, hr⟩ := hp
    have := congrArg List.head? hr
    simp at this
  -- the two replacements on the characters
  have hdata1 : (Replace content typed.PlaceholderGenesisProtoImport
      (typed.replacementProtoImport opts) 1).data
      = replaceLoop typed.PlaceholderGenesisProtoImport.data
          (typed.PlaceholderGenesisProtoImport.data
            ++ (("\nimport \"".data ++ opts.ModuleName.data)
              ++ ('/' :: (opts.TypeName.data ++ ".proto\";".data)))) 1 content.data := by
    unfold Replace
    rw [if_neg hIne, himport]
  have hne0 : indexChars typed.PlaceholderGenesisProtoStateField.data content.data ≠ some i :=
    (precedes_iff hpre content.data i hstate).mp hbefore
  obtain ⟨i₁, hi₁, hne₁⟩ := first_insert_after hI hIq hS hSq hF hFq
    (isPrefixOf_block_false hSI) (isPrefixOf_block_false hFI) _ hinsI content.data i hstate hne0
  have hocc1 := occurrences_insert_after hI hIq hF hFq (isPrefixOf_block_false hFI) _ hinsI
    content.data
  rw [← hdata1] at hi₁ hne₁ hocc1
  have hcount1 : Count (Replace content typed.PlaceholderGenesisProtoImport
      (typed.replacementProtoImport opts) 1) typed.PlaceholderGenesisProtoStateField
      = Count content typed.PlaceholderGenesisProtoStateField := by
    rw [Count_stateField, Count_stateField, hocc1]
  have hnumber : (typed.genesisProtoContent Title opts content).1
      = Count content typed.PlaceholderGenesisProtoStateField + 1 := by
    simp only [typed.genesisProtoContent, hcount1]
  have hdata2 : (typed.genesisProtoContent Title opts content).2.data
      = replaceLoop typed.PlaceholderGenesisProtoState.data
          (typed.PlaceholderGenesisProtoState.data
            ++ (('\n' :: ("\t\trepeated ".data ++ (Title opts.TypeName).data ++ " ".data
                  ++ opts.TypeName.data ++ "List = ".data
                  ++ (toString (Count content typed.PlaceholderGenesisProtoStateField + 1)).data
                  ++ "; ".data))
              ++ typed.PlaceholderGenesisProtoStateField.data)) 1
          (Replace content typed.PlaceholderGenesisProtoImport
            (typed.replacementProtoImport opts) 1).data := by
    simp only [typed.genesisProtoContent, hcount1]
    unfold Replace
    rw [if_neg hSne, if_neg hIne, hstateRepl]
  obtain ⟨h2S, h2F, h2occ, pre, post, h2in⟩ := first_insert_field hS hSq hF hFq hSF _
    (hinsS (Count content typed.PlaceholderGenesisProtoStateField + 1))
    (hfld (Count content typed.PlaceholderGenesisProtoStateField + 1)) _ i₁ hi₁ hne₁
  rw [← hdata2] at h2S h2F h2occ h2in
  refine ⟨hnumber, ⟨pre, post, ?_⟩, ⟨i₁, h2S, ?_⟩, ?_⟩
  · rw [h2in, hstateRepl]
  · exact (precedes_iff hpre _ i₁ h2S).mpr h2F
  · rw [Count_stateField, h2occ, hocc1, Count_stateField]

/-- The field numbers of runs in a row, each for names without slash, from a
content whose first state placeholder is before every field placeholder: they
go up one by one from the count of field placeholders plus one. -/
theorem genesisProtoModifyAll_numbers (Title : String → String) :
    ∀ (optsList : List typed.Options) (content : String) (i : Nat),
      (∀ opts ∈ optsList, typed.NamesWithoutSlash Title opts) →
      indexChars typed.PlaceholderGenesisProtoState.data content.data = some i →
      (∀ j, typed.PlaceholderGenesisProtoStateField.data <+: content.data.drop j → i < j) →
      (typed.genesisProtoModifyAll Title optsList content).1
        = List.range' (Count content typed.PlaceholderGenesisProtoStateField + 1)
            optsList.length := by
  intro optsList
  induction optsList with
  | nil => intro content i _ _ _; rfl
  | cons opts rest ih =>
    intro content i hnames hstate hbefore
    obtain ⟨h1, _, ⟨i', hstate', hbefore'⟩, h4⟩ :=
      genesisProtoContent_step Title opts content i
        (hnames opts (List.mem_cons_self _ _)) hstate hbefore
    have := ih (typed.genesisProtoContent Title opts content).2 i'
      (fun o ho => hnames o (List.mem_cons_of_mem _ ho)) hstate' hbefore'
    simp only [typed.genesisProtoModifyAll, List.length_cons, List.range'_succ, this, h1, h4]

set_option maxRecDepth 100000 in
/-- In the fresh `genesis.proto` the state placeholder is found at position 114
and no field placeholder occurs at or before it. -/
theorem freshGenesisProto_state_first :
    indexChars typed.PlaceholderGenesisProtoState.data freshGenesisProto.data = some 114 ∧
    ∀ j, typed.PlaceholderGenesisProtoStateField.data <+: freshGenesisProto.data.drop j →
      114 < j := by
  have hidx : indexChars typed.PlaceholderGenesisProtoState.data freshGenesisProto.data
      = some 114 := by decide
  have hpre : typed.PlaceholderGenesisProtoState.data
      <+: typed.PlaceholderGenesisProtoStateField.data := ⟨"Field".data, by decide⟩
  exact ⟨hidx, (precedes_iff hpre _ 114 hidx).mpr (by decide)⟩

/-- C27 (as amended): in `genesisProtoModify`, for every content of
`genesis.proto` in which the state placeholder occurs and its first occurrence
is before every field placeholder, and for options whose module name, type name
and title form hold no slash: the field number is one plus the number of field
placeholders of the content, the list field with that number and the two
placeholders around it are in the new content, the state placeholder still
occurs before every field placeholder, the number of field placeholders grows
by exactly one, and this content is the one given to the runner; hence `n`
runs in a row give the numbers that follow the number of field placeholders,
`1, 2, ..., n` for a content without field placeholder. -/
theorem genesisProtoModify_field_numbers (Title : String → String) (content : String)
    (i : Nat)
    (hstate : indexChars typed.PlaceholderGenesisProtoState.data content.data = some i)
    (hbefore : ∀ j, typed.PlaceholderGenesisProtoStateField.data <+: content.data.drop j →
      i < j) :
    (∀ opts : typed.Options, typed.NamesWithoutSlash Title opts →
      (typed.genesisProtoContent Title opts content).1
        = Count content typed.PlaceholderGenesisProtoStateField + 1 ∧
      (∃ pre post, (typed.genesisProtoContent Title opts content).2.data
        = pre ++ (typed.replacementProtoState Title opts
            (Count content typed.PlaceholderGenesisProtoStateField + 1)).data ++ post) ∧
      (∃ i', indexChars typed.PlaceholderGenesisProtoState.data
          (typed.genesisProtoContent Title opts content).2.data = some i' ∧
        ∀ j, typed.PlaceholderGenesisProtoStateField.data
          <+: (typed.genesisProtoContent Title opts content).2.data.drop j → i' < j) ∧
      Count (typed.genesisProtoContent Title opts content).2
          typed.PlaceholderGenesisProtoStateField
        = Count content typed.PlaceholderGenesisProtoStateField + 1 ∧
      ∀ r : typed.Runner,
        r.Find ("proto/" ++ opts.ModuleName ++ "/genesis.proto") = .ok content →
        (typed.genesisProtoModify Title opts r).2
          = some ("proto/" ++ opts.ModuleName ++ "/genesis.proto",
                  (typed.genesisProtoContent Title opts content).2)) ∧
    (∀ optsList : List typed.Options,
      (∀ opts ∈ optsList, typed.NamesWithoutSlash Title opts) →
      (typed.genesisProtoModifyAll Title optsList content).1
        = List.range' (Count content typed.PlaceholderGenesisProtoStateField + 1)
            optsList.length ∧
      (Count content typed.PlaceholderGenesisProtoStateField = 0 →
        (typed.genesisProtoModifyAll Title optsList content).1
          = List.range' 1 optsList.length)) := by
  constructor
  · intro opts hnames
    obtain ⟨h1, h2, h3, h4⟩ := genesisProtoContent_step Title opts content i hnames hstate hbefore
    refine ⟨h1, h2, h3, h4, ?_⟩
    intro r hfind
    simp [typed.genesisProtoModify, hfind]
  · intro optsList hnames
    have h := genesisProtoModifyAll_numbers Title optsList content i hnames hstate hbefore
    refine ⟨h, ?_⟩
    intro h0
    rw [h, h0]

set_option maxRecDepth 100000 in
/-- On a fresh `genesis.proto` the type `post` gets the field number 1, and the
types `post` and `comment` scaffolded in a row get the numbers 1 and 2. -/
theorem genesisProtoModify_field_numbers_witness :
    (typed.genesisProtoContent sampleTitle postOptions freshGenesisProto).1 = 1 ∧
    (typed.genesisProtoModifyAll sampleTitle [postOptions, commentOptions]
      freshGenesisProto).1 = [1, 2] :=
  ⟨((genesisProtoModify_field_numbers sampleTitle freshGenesisProto 114
      freshGenesisProto_state_first.1 freshGenesisProto_state_first.2).1
      postOptions ⟨by decide, by decide, by decide⟩).1.trans (by decide),
   ((genesisProtoModify_field_numbers sampleTitle freshGenesisProto 114
      freshGenesisProto_state_first.1 freshGenesisProto_state_first.2).2
      [postOptions, commentOptions] (by
        intro opts hopts
        rcases List.mem_cons.mp hopts with rfl | hopts
        · exact ⟨by decide, by decide, by decide⟩
        · rcases List.mem_cons.mp hopts with rfl | hopts
          · exact ⟨by decide, by decide, by decide⟩
          · cases hopts)).2 (by decide)⟩

set_option maxRecDepth 100000 in
/-- C27 as first stated fails: `Validate` accepts every type name, and for a
type name that holds the text of the field placeholder the import line put in
by the first replacement is counted, so a fresh `genesis.proto`, with no field
placeholder, gets the field number 2, not 1. -/
theorem genesisProtoModify_field_numbers_counterexample :
    ¬ ∀ (Title : String → String) (opts : typed.Options) (content : String) (i : Nat),
      indexChars typed.PlaceholderGenesisProtoState.data content.data = some i →
      (∀ j, typed.PlaceholderGenesisProtoStateField.data <+: content.data.drop j → i < j) →
      (typed.genesisProtoContent Title opts content).1
        = Count content typed.PlaceholderGenesisProtoStateField + 1 := by
  intro hclaim
  have h := hclaim sampleTitle placeholderNameOptions freshGenesisProto 114
    freshGenesisProto_state_first.1 freshGenesisProto_state_first.2
  exact absurd h (by decide)

/-! ## `services/chain`: the max amounts of `Faucet` -/

/-- The inner loop of `Faucet` over entries none of which has the denom. -/
theorem findAmountMax_skip {F : Type} (c : chain.Chain F) (coin denom : String)
    (pre rest : List String) (calls : List chain.FaucetCall)
    (hpre : ∀ x ∈ pre, ∃ a d, c.Parse x = .ok (a, d) ∧ d ≠ denom) :
    chain.findAmountMax c coin denom (pre ++ rest) calls
      = chain.findAmountMax c coin denom rest (calls ++ pre.map chain.FaucetCall.Parse) := by
  induction pre generalizing calls with
  | nil => simp
  | cons x pre ih =>
    obtain ⟨a, d, hx, hd⟩ := hpre x (List.mem_cons_self _ _)
    have hstep : chain.findAmountMax c coin denom (x :: (pre ++ rest)) calls
        = chain.findAmountMax c coin denom (pre ++ rest) (calls ++ [.Parse x]) := by
      simp [chain.findAmountMax, hx, hd]
    rw [List.cons_append, hstep, ih _ (fun y hy => hpre y (List.mem_cons_of_mem _ hy))]
    simp

/-- What a result of the inner loop of `Faucet` says of the list of max
amounts. -/
theorem findAmountMax_cases {F : Type} (c : chain.Chain F) (coin denom : String)
    (coinsMax : List String) (calls : List chain.FaucetCall) :
    (∃ pre coinMax post amount, coinsMax = pre ++ coinMax :: post ∧
      (∀ x ∈ pre, ∃ a d, c.Parse x = .ok (a, d) ∧ d ≠ denom) ∧
      c.Parse coinMax = .ok (amount, denom) ∧
      chain.findAmountMax c coin denom coinsMax calls
        = (.ok amount, calls ++ (pre ++ [coinMax]).map chain.FaucetCall.Parse)) ∨
    ((∀ x ∈ coinsMax, ∃ a d, c.Parse x = .ok (a, d) ∧ d ≠ denom) ∧
      chain.findAmountMax c coin denom coinsMax calls
        = (.ok 0, calls ++ coinsMax.map chain.FaucetCall.Parse)) ∨
    (∃ pre bad post err, coinsMax = pre ++ bad :: post ∧
      (∀ x ∈ pre, ∃ a d, c.Parse x = .ok (a, d) ∧ d ≠ denom) ∧
      c.Parse bad = .error err ∧
      chain.findAmountMax c coin denom coinsMax calls
        = (.error (chain.coinError err coin),
           calls ++ (pre ++ [bad]).map chain.FaucetCall.Parse)) := by
  induction coinsMax generalizing calls with
  | nil => right; left; simp [chain.findAmountMax]
  | cons x xs ih =>
    cases hx : c.Parse x with
    | error err =>
      right; right
      exact ⟨[], x, xs, err, rfl, by simp, hx, by simp [chain.findAmountMax, hx]⟩
    | ok ad =>
      obtain ⟨a, d⟩ := ad
      by_cases hd : d = denom
      · left
        subst hd
        exact ⟨[], x, xs, a, rfl, by simp, hx, by simp [chain.findAmountMax, hx]⟩
      · have hstep : chain.findAmountMax c coin denom (x :: xs) calls
            = chain.findAmountMax c coin denom xs (calls ++ [.Parse x]) := by
          simp [chain.findAmountMax, hx, hd]
        have hxs : ∀ pre : List String,
            (∀ y ∈ pre, ∃ a d, c.Parse y = .ok (a, d) ∧ d ≠ denom) →
            ∀ y ∈ x :: pre, ∃ a d, c.Parse y = .ok (a, d) ∧ d ≠ denom := by
          intro pre hpre y hy
          rcases List.mem_cons.mp hy with rfl | hy
          · exact ⟨a, d, hx, hd⟩
          · exact hpre y hy
        rcases ih (calls ++ [.Parse x]) with
          ⟨pre, cm, post, amount, hsplit, hpre, hcm, hres⟩ | ⟨hall, hres⟩ |
          ⟨pre, bad, post, err, hsplit, hpre, hbad, hres⟩
        · left
          refine ⟨x :: pre, cm, post, amount, by simp [hsplit], hxs pre hpre, hcm, ?_⟩
          rw [hstep, hres]; simp
        · right; left
          refine ⟨hxs xs hall, ?_⟩
          rw [hstep, hres]; simp
        · right; right
          refine ⟨x :: pre, bad, post, err, by simp [hsplit], hxs pre hpre, hbad, ?_⟩
          rw [hstep, hres]; simp

/-- What a successful run of the outer loop of `Faucet` appended: one `Coin`
option per coin, in order, each with a max amount that the inner loop
returned. -/
theorem coinOptions_ok {F : Type} (c : chain.Chain F) (coinsMax coins : List String) :
    ∀ (faucetOptions : List chain.FaucetOption) (calls : List chain.FaucetCall)
      (result : List chain.FaucetOption) (calls' : List chain.FaucetCall),
      chain.coinOptions c coinsMax coins faucetOptions calls = (.ok result, calls') →
      ∃ coinOpts, result = faucetOptions ++ coinOpts ∧
        List.Forall₂ (fun coin opt => ∃ amount denom amountMax k k',
          c.Parse coin = .ok (amount, denom) ∧
          opt = chain.FaucetOption.Coin amount amountMax denom ∧
          chain.findAmountMax c coin denom coinsMax k = (.ok amountMax, k')) coins coinOpts := by
  induction coins with
  | nil =>
    intro faucetOptions calls result calls' h
    simp only [chain.coinOptions, Prod.mk.injEq, Except.ok.injEq] at h
    exact ⟨[], by simp [h.1], List.Forall₂.nil⟩
  | cons coin coins ih =>
    intro faucetOptions calls result calls' h
    unfold chain.coinOptions at h
    cases hp : c.Parse coin with
    | error err => simp [hp] at h
    | ok ad =>
      obtain ⟨amount, denom⟩ := ad
      simp only [hp] at h
      cases hf : chain.findAmountMax c coin denom coinsMax (calls ++ [.Parse coin]) with
      | mk r k' =>
        cases r with
        | error err => simp [hf] at h
        | ok amountMax =>
          simp only [hf] at h
          obtain ⟨coinOpts, hres, hall⟩ := ih _ _ _ _ h
          refine ⟨.Coin amount amountMax denom :: coinOpts, by simp [hres], ?_⟩
          exact List.Forall₂.cons ⟨amount, denom, amountMax, _, _, hp, rfl, hf⟩ hall

/-- The inner loop of `Faucet` returns the amount of the first entry with the
denom when the entries before it have another denom, and 0 when every entry has
another denom. -/
theorem findAmountMax_of_found {F : Type} (c : chain.Chain F) (coin d : String)
    (coinsMax : List String) (amountMax : Nat)
    (h : (∃ pre coinMax post, coinsMax = pre ++ coinMax :: post ∧
          (∀ x ∈ pre, ∃ a d', c.Parse x = .ok (a, d') ∧ d' ≠ d) ∧
          c.Parse coinMax = .ok (amountMax, d)) ∨
        ((∀ x ∈ coinsMax, ∃ a d', c.Parse x = .ok (a, d') ∧ d' ≠ d) ∧ amountMax = 0))
    (calls : List chain.FaucetCall) :
    ∃ calls', chain.findAmountMax c coin d coinsMax calls = (.ok amountMax, calls') := by
  rcases h with ⟨pre, coinMax, post, hsplit, hpre, hmax⟩ | ⟨hall, hzero⟩
  · rw [hsplit, findAmountMax_skip c coin d pre (coinMax :: post) calls hpre]
    simp [chain.findAmountMax, hmax]
  · have := findAmountMax_skip c coin d coinsMax [] calls hall
    rw [List.append_nil] at this
    rw [this, hzero]
    exact ⟨_, rfl⟩

/-- The outer loop of `Faucet` succeeds with one `Coin` option per coin when
every coin is parsed and gets a max amount from the inner loop. -/
theorem coinOptions_of_found {F : Type} (c : chain.Chain F) (coinsMax coins : List String)
    (coinOpts : List chain.FaucetOption)
    (h : List.Forall₂ (fun coin opt => ∃ amount d amountMax,
      c.Parse coin = .ok (amount, d) ∧
      opt = chain.FaucetOption.Coin amount amountMax d ∧
      ((∃ pre coinMax post, coinsMax = pre ++ coinMax :: post ∧
          (∀ x ∈ pre, ∃ a d', c.Parse x = .ok (a, d') ∧ d' ≠ d) ∧
          c.Parse coinMax = .ok (amountMax, d)) ∨
        ((∀ x ∈ coinsMax, ∃ a d', c.Parse x = .ok (a, d') ∧ d' ≠ d) ∧ amountMax = 0)))
      coins coinOpts) :
    ∀ (faucetOptions : List chain.FaucetOption) (calls : List chain.FaucetCall),
      ∃ calls', chain.coinOptions c coinsMax coins faucetOptions calls
        = (.ok (faucetOptions ++ coinOpts), calls') := by
  induction h with
  | nil => intro fo calls; exact ⟨calls, by simp [chain.coinOptions]⟩
  | @cons coin opt coins coinOpts hhead _ ih =>
    intro fo calls
    obtain ⟨amount, d, amountMax, hp, hopt, hmax⟩ := hhead
    obtain ⟨k, hk⟩ := findAmountMax_of_found c coin d coinsMax amountMax hmax
      (calls ++ [.Parse coin])
    obtain ⟨calls', hrest⟩ := ih (fo ++ [.Coin amount amountMax d]) k
    refine ⟨calls', ?_⟩
    unfold chain.coinOptions
    simp only [hp, hk, hrest, hopt]
    simp

/-- When every faucet coin and every entry of the max amounts can be parsed,
every coin has its `Coin` option. -/
theorem coinOptions_found_of_parsed {F : Type} (c : chain.Chain F)
    (coinsMax coins : List String)
    (hcoins : ∀ coin ∈ coins, ∃ a d, c.Parse coin = .ok (a, d))
    (hmax : ∀ x ∈ coinsMax, ∃ a d, c.Parse x = .ok (a, d)) :
    ∃ coinOpts, List.Forall₂ (fun coin opt => ∃ amount d amountMax,
      c.Parse coin = .ok (amount, d) ∧
      opt = chain.FaucetOption.Coin amount amountMax d ∧
      ((∃ pre coinMax post, coinsMax = pre ++ coinMax :: post ∧
          (∀ x ∈ pre, ∃ a d', c.Parse x = .ok (a, d') ∧ d' ≠ d) ∧
          c.Parse coinMax = .ok (amountMax, d)) ∨
        ((∀ x ∈ coinsMax, ∃ a d', c.Parse x = .ok (a, d') ∧ d' ≠ d) ∧ amountMax = 0)))
      coins coinOpts := by
  induction coins with
  | nil => exact ⟨[], List.Forall₂.nil⟩
  | cons coin coins ih =>
    obtain ⟨coinOpts, hall⟩ := ih (fun x hx => hcoins x (List.mem_cons_of_mem _ hx))
    obtain ⟨amount, d, hp⟩ := hcoins coin (List.mem_cons_self _ _)
    rcases findAmountMax_cases c coin d coinsMax [] with
      ⟨pre, cm, post, amt, hsplit, hpre, hcm, _⟩ | ⟨hnone, _⟩ |
      ⟨pre, bad, post, err, hsplit, _, hbad, _⟩
    · exact ⟨.Coin amount amt d :: coinOpts,
        List.Forall₂.cons ⟨amount, d, amt, hp, rfl, Or.inl ⟨pre, cm, post, hsplit, hpre, hcm⟩⟩
          hall⟩
    · exact ⟨.Coin amount 0 d :: coinOpts,
        List.Forall₂.cons ⟨amount, d, 0, hp, rfl, Or.inr ⟨hnone, rfl⟩⟩ hall⟩
    · exfalso
      obtain ⟨a, d', hok⟩ := hmax bad (by rw [hsplit]; simp)
      rw [hok] at hbad
      cases hbad

/-- C28: in `Chain.Faucet`, once the faucet account is found, the options
given to `cosmosfaucet.New` are the three base options followed by one `Coin`
option per faucet coin, in order; for a coin of denom `d` its max amount is the
amount of the first entry of `CoinsMax` whose denom is `d`, no entry after it
having been parsed for this coin, and 0 when every entry has another denom; if
for some faucet coin an entry of `CoinsMax` cannot be parsed while every entry
before it has another denom, `Faucet` returns an error and `cosmosfaucet.New`
is not called; and `cosmosfaucet.New` is called, and its result returned,
whenever every coin is parsed and finds its max amount in this way, with
exactly these options, which is so whenever every coin and every entry of
`CoinsMax` can be parsed. -/
theorem Faucet_max_amounts {F : Type} (c : chain.Chain F) (id name : String)
    (config : conf.Config) (hid : c.ID = .ok id) (hconfig : c.Config = .ok config)
    (hcommands : c.Commands = none) (hname : config.Faucet.Name = some name)
    (haccount : c.ShowAccount name = none) :
    (∀ options, chain.FaucetCall.New options ∈ c.Faucet.2 →
      c.Faucet.1 = c.New options ∧
      ∃ coinOpts,
        options = [.Account name "", .ChainID id,
                   .OpenAPI (c.HTTP (if c.envAPIAddress ≠ "" then c.envAPIAddress
                                     else config.Host.API))] ++ coinOpts ∧
        List.Forall₂ (fun coin opt => ∃ amount d amountMax,
          c.Parse coin = .ok (amount, d) ∧
          opt = chain.FaucetOption.Coin amount amountMax d ∧
          ((∃ pre coinMax post, config.Faucet.CoinsMax = pre ++ coinMax :: post ∧
              (∀ x ∈ pre, ∃ a d', c.Parse x = .ok (a, d') ∧ d' ≠ d) ∧
              c.Parse coinMax = .ok (amountMax, d) ∧
              ∀ calls, (chain.findAmountMax c coin d config.Faucet.CoinsMax calls).2
                = calls ++ (pre ++ [coinMax]).map chain.FaucetCall.Parse) ∨
           ((∀ x ∈ config.Faucet.CoinsMax, ∃ a d', c.Parse x = .ok (a, d') ∧ d' ≠ d) ∧
              amountMax = 0))) config.Faucet.Coins coinOpts) ∧
    (∀ coin amount d pre bad post err, coin ∈ config.Faucet.Coins →
      c.Parse coin = .ok (amount, d) →
      config.Faucet.CoinsMax = pre ++ bad :: post →
      (∀ x ∈ pre, ∃ a d', c.Parse x = .ok (a, d') ∧ d' ≠ d) →
      c.Parse bad = .error err →
      (∃ e, c.Faucet.1 = .error e) ∧ ∀ options, chain.FaucetCall.New options ∉ c.Faucet.2) ∧
    (∀ coinOpts,
      List.Forall₂ (fun coin opt => ∃ amount d amountMax,
        c.Parse coin = .ok (amount, d) ∧
        opt = chain.FaucetOption.Coin amount amountMax d ∧
        ((∃ pre coinMax post, config.Faucet.CoinsMax = pre ++ coinMax :: post ∧
            (∀ x ∈ pre, ∃ a d', c.Parse x = .ok (a, d') ∧ d' ≠ d) ∧
            c.Parse coinMax = .ok (amountMax, d)) ∨
         ((∀ x ∈ config.Faucet.CoinsMax, ∃ a d', c.Parse x = .ok (a, d') ∧ d' ≠ d) ∧
            amountMax = 0))) config.Faucet.Coins coinOpts →
      c.Faucet.1
        = c.New ([.Account name "", .ChainID id,
                  .OpenAPI (c.HTTP (if c.envAPIAddress ≠ "" then c.envAPIAddress
                                    else config.Host.API))] ++ coinOpts) ∧
      chain.FaucetCall.New
          ([.Account name "", .ChainID id,
            .OpenAPI (c.HTTP (if c.envAPIAddress ≠ "" then c.envAPIAddress
                              else config.Host.API))] ++ coinOpts) ∈ c.Faucet.2) ∧
    ((∀ coin ∈ config.Faucet.Coins, ∃ a d, c.Parse coin = .ok (a, d)) →
      (∀ x ∈ config.Faucet.CoinsMax, ∃ a d, c.Parse x = .ok (a, d)) →
      ∃ options, c.Faucet.1 = c.New options ∧ chain.FaucetCall.New options ∈ c.Faucet.2) := by
  have hloop : ∀ calls : List chain.FaucetCall, ∀ options, chain.FaucetCall.New options ∉
      (chain.coinOptions c config.Faucet.CoinsMax config.Faucet.Coins
        [.Account name "", .ChainID id,
         .OpenAPI (c.HTTP (if c.envAPIAddress ≠ "" then c.envAPIAddress
                           else config.Host.API))] []).2 := by
    intro _ options
    suffices h : ∀ (coins : List String) (fo : List chain.FaucetOption)
        (calls : List chain.FaucetCall), chain.FaucetCall.New options ∉ calls →
        chain.FaucetCall.New options ∉
          (chain.coinOptions c config.Faucet.CoinsMax coins fo calls).2 from
      h _ _ [] (by simp)
    have hinner : ∀ (coin d : String) (coinsMax : List String) (calls : List chain.FaucetCall),
        chain.FaucetCall.New options ∉ calls →
        chain.FaucetCall.New options ∉ (chain.findAmountMax c coin d coinsMax calls).2 := by
      intro coin d coinsMax
      induction coinsMax with
      | nil => intro calls h; simpa [chain.findAmountMax] using h
      | cons x xs ih =>
        intro calls h
        unfold chain.findAmountMax
        cases hx : c.Parse x with
        | error err => simpa using h
        | ok ad =>
          obtain ⟨a, d'⟩ := ad
          by_cases hd : d' = d
          · simpa [hd] using h
          · simp only [if_neg hd]
            exact ih _ (by simpa using h)
    intro coins
    induction coins with
    | nil => intro fo calls h; simpa [chain.coinOptions] using h
    | cons coin coins ih =>
      intro fo calls h
      unfold chain.coinOptions
      cases hp : c.Parse coin with
      | error err => simpa using h
      | ok ad =>
        obtain ⟨amount, d⟩ := ad
        have hin := hinner coin d config.Faucet.CoinsMax (calls ++ [.Parse coin])
          (by simpa using h)
        cases hf : chain.findAmountMax c coin d config.Faucet.CoinsMax
            (calls ++ [.Parse coin]) with
        | mk r k' =>
          rw [hf] at hin
          cases r with
          | error err => simpa [hf] using hin
          | ok amountMax =>
            simp only [hf]
            exact ih _ _ hin
  have hfaucet : c.Faucet
      = match chain.coinOptions c config.Faucet.CoinsMax config.Faucet.Coins
          [.Account name "", .ChainID id,
           .OpenAPI (c.HTTP (if c.envAPIAddress ≠ "" then c.envAPIAddress
                             else config.Host.API))] [] with
        | (.error err, calls) => (.error err, calls)
        | (.ok faucetOptions, calls) =>
          (c.New faucetOptions, calls ++ [.New faucetOptions]) := by
    simp [chain.Chain.Faucet, hid, hconfig, hcommands, hname, haccount]
  have hcalled : ∀ coinOpts,
      List.Forall₂ (fun coin opt => ∃ amount d amountMax,
        c.Parse coin = .ok (amount, d) ∧
        opt = chain.FaucetOption.Coin amount amountMax d ∧
        ((∃ pre coinMax post, config.Faucet.CoinsMax = pre ++ coinMax :: post ∧
            (∀ x ∈ pre, ∃ a d', c.Parse x = .ok (a, d') ∧ d' ≠ d) ∧
            c.Parse coinMax = .ok (amountMax, d)) ∨
         ((∀ x ∈ config.Faucet.CoinsMax, ∃ a d', c.Parse x = .ok (a, d') ∧ d' ≠ d) ∧
            amountMax = 0))) config.Faucet.Coins coinOpts →
      c.Faucet.1
        = c.New ([.Account name "", .ChainID id,
                  .OpenAPI (c.HTTP (if c.envAPIAddress ≠ "" then c.envAPIAddress
                                    else config.Host.API))] ++ coinOpts) ∧
      chain.FaucetCall.New
          ([.Account name "", .ChainID id,
            .OpenAPI (c.HTTP (if c.envAPIAddress ≠ "" then c.envAPIAddress
                              else config.Host.API))] ++ coinOpts) ∈ c.Faucet.2 := by
    intro coinOpts hall
    obtain ⟨calls', hco⟩ := coinOptions_of_found c config.Faucet.CoinsMax config.Faucet.Coins
      coinOpts hall
      [.Account name "", .ChainID id,
       .OpenAPI (c.HTTP (if c.envAPIAddress ≠ "" then c.envAPIAddress
                         else config.Host.API))] []
    rw [hfaucet, hco]
    exact ⟨rfl, by simp⟩
  refine ⟨?_, ?_, hcalled, ?_⟩
  rotate_right
  · intro hcoins hmax
    obtain ⟨coinOpts, hall⟩ := coinOptions_found_of_parsed c config.Faucet.CoinsMax
      config.Faucet.Coins hcoins hmax
    exact ⟨_, hcalled coinOpts hall⟩
  · intro options hmem
    rw [hfaucet] at hmem ⊢
    have hno := hloop [] options
    cases hco : chain.coinOptions c config.Faucet.CoinsMax config.Faucet.Coins
        [.Account name "", .ChainID id,
         .OpenAPI (c.HTTP (if c.envAPIAddress ≠ "" then c.envAPIAddress
                           else config.Host.API))] [] with
    | mk r calls =>
      rw [hco] at hno hmem
      cases r with
      | error err => exact absurd hmem hno
      | ok faucetOptions =>
        simp only [List.mem_append, List.mem_singleton, chain.FaucetCall.New.injEq] at hmem
        have hopt : options = faucetOptions := by
          rcases hmem with hmem | hmem
          · exact absurd hmem hno
          · exact hmem
        subst hopt
        obtain ⟨coinOpts, hres, hall⟩ := coinOptions_ok c _ _ _ _ _ _ hco
        refine ⟨rfl, coinOpts, hres, ?_⟩
        refine hall.imp ?_
        rintro coin opt ⟨amount, d, amountMax, k, k', hp, hopt, hf⟩
        refine ⟨amount, d, amountMax, hp, hopt, ?_⟩
        rcases findAmountMax_cases c coin d config.Faucet.CoinsMax k with
          ⟨pre, cm, post, amt, hsplit, hpre, hcm, hres⟩ | ⟨hnone, hres⟩ |
          ⟨pre, bad, post, err, hsplit, hpre, hbad, hres⟩
        · left
          rw [hres] at hf
          have hamt : amt = amountMax := by
            simpa using congrArg Prod.fst hf
          subst hamt
          refine ⟨pre, cm, post, hsplit, hpre, hcm, ?_⟩
          intro calls
          rw [hsplit, findAmountMax_skip c coin d pre (cm :: post) calls hpre]
          simp [chain.findAmountMax, hcm]
        · right
          rw [hres] at hf
          exact ⟨hnone, by simpa using (congrArg Prod.fst hf).symm⟩
        · rw [hres] at hf
          simp at hf
  · intro coin amount d pre bad post err hcoin hp hsplit hpre hbad
    have hfail : ∀ calls, chain.findAmountMax c coin d config.Faucet.CoinsMax calls
        = (.error (chain.coinError err coin),
           calls ++ (pre ++ [bad]).map chain.FaucetCall.Parse) := by
      intro calls
      rw [hsplit, findAmountMax_skip c coin d pre (bad :: post) calls hpre]
      simp [chain.findAmountMax, hbad]
    rw [hfaucet]
    have hno := hloop []
    cases hco : chain.coinOptions c config.Faucet.CoinsMax config.Faucet.Coins
        [.Account name "", .ChainID id,
         .OpenAPI (c.HTTP (if c.envAPIAddress ≠ "" then c.envAPIAddress
                           else config.Host.API))] [] with
    | mk r calls =>
      rw [hco] at hno
      cases r with
      | error e => exact ⟨⟨e, rfl⟩, hno⟩
      | ok faucetOptions =>
        exfalso
        obtain ⟨coinOpts, _, hall⟩ := coinOptions_ok c _ _ _ _ _ _ hco
        have hone : ∀ (coins : List String) (opts : List chain.FaucetOption),
            List.Forall₂ (fun coin opt => ∃ amount denom amountMax k k',
              c.Parse coin = .ok (amount, denom) ∧
              opt = chain.FaucetOption.Coin amount amountMax denom ∧
              chain.findAmountMax c coin denom config.Faucet.CoinsMax k = (.ok amountMax, k'))
              coins opts →
            coin ∈ coins → False := by
          intro coins opts hf2
          induction hf2 with
          | nil => intro h; simp at h
          | @cons x o xs os hxo _ ih =>
            intro hmem
            rcases List.mem_cons.mp hmem with rfl | hmem
            · obtain ⟨amount', d', amountMax, k, k', hp', _, hf⟩ := hxo
              rw [hp] at hp'
              have hd : d = d' := by simpa using congrArg (fun r => match r with
                | .ok (_, d) => d | .error _ => "") hp'
              subst hd
              rw [hfail k] at hf
              simp at hf
            · exact ih hmem
        exact hone _ _ hall hcoin

/-- With the max amounts `50stake`, `10token`, an unparsable entry and
`99token`, the coin `5token` gets the max 10 and `100stake` the max 50, the
entries after the first match not being parsed; with the one entry `50stake`
the coin `5token`, which has no entry, gets the max 0 and the faucet is built;
with the unparsable entry first, `Faucet` fails. -/
theorem Faucet_max_amounts_witness :
    (sampleChain ["50stake", "10token", "oops", "99token"]).Faucet
      = (.ok [.Account "me" "", .ChainID "mars", .OpenAPI "http://:1317",
              .Coin 5 10 "token", .Coin 100 50 "stake"],
         [.Parse "5token", .Parse "50stake", .Parse "10token",
          .Parse "100stake", .Parse "50stake",
          .New [.Account "me" "", .ChainID "mars", .OpenAPI "http://:1317",
                .Coin 5 10 "token", .Coin 100 50 "stake"]]) ∧
    ((sampleChain ["50stake"]).Faucet.1
        = .ok [.Account "me" "", .ChainID "mars", .OpenAPI "http://:1317",
               .Coin 5 0 "token", .Coin 100 50 "stake"] ∧
      chain.FaucetCall.New [.Account "me" "", .ChainID "mars", .OpenAPI "http://:1317",
                            .Coin 5 0 "token", .Coin 100 50 "stake"]
        ∈ (sampleChain ["50stake"]).Faucet.2) ∧
    ((∃ e, (sampleChain ["oops", "10token"]).Faucet.1 = .error e) ∧
      ∀ options, chain.FaucetCall.New options ∉ (sampleChain ["oops", "10token"]).Faucet.2) :=
  ⟨by decide,
   (Faucet_max_amounts (sampleChain ["50stake"]) "mars" "me"
      { Accounts := testAccounts
        Faucet := { Name := some "me", Coins := ["5token", "100stake"]
                    CoinsMax := ["50stake"] }
        Host := { API := ":1317" } } rfl rfl rfl rfl rfl).2.2.1
      [.Coin 5 0 "token", .Coin 100 50 "stake"]
      (List.Forall₂.cons
        ⟨5, "token", 0, by decide, rfl, Or.inr ⟨by
          intro x hx
          have hx' : x = "50stake" := by simpa using hx
          subst hx'
          exact ⟨50, "stake", by decide, by decide⟩, rfl⟩⟩
        (List.Forall₂.cons
          ⟨100, "stake", 50, by decide, rfl,
            Or.inl ⟨[], "50stake", [], rfl, by simp, by decide⟩⟩
          List.Forall₂.nil)),
   (Faucet_max_amounts (sampleChain ["oops", "10token"]) "mars" "me"
      { Accounts := testAccounts
        Faucet := { Name := some "me", Coins := ["5token", "100stake"]
                    CoinsMax := ["oops", "10token"] }
        Host := { API := ":1317" } } rfl rfl rfl rfl rfl).2.1
      "5token" 5 "token" [] "oops" ["10token"] (GoError.other "invalid coin")
      (by decide) (by decide) rfl (by simp) (by decide)⟩

/-! ## `protopath`: `ResolveDependencyPaths` -/

/-- Appending one element at a time is appending the mapped list. -/
theorem foldl_append_singleton {α β : Type} (f : α → β) (xs : List α) (acc : List β) :
    xs.foldl (fun acc x => acc ++ [f x]) acc = acc ++ xs.map f := by
  induction xs generalizing acc with
  | nil => simp
  | cons x xs ih => simp [ih]

/-- The loop of `ResolveDependencyPaths` never returns the error of the length
check. -/
theorem resolveEach_ne_missing (env : protopath.Env) (modules : List protopath.Module)
    (vs : List Version) (i : Nat) (paths : List String) :
    protopath.resolveEach env modules vs i paths ≠ .error .missingProtoModules := by
  induction vs generalizing i paths with
  | nil => simp [protopath.resolveEach]
  | cons v vs ih =>
    unfold protopath.resolveEach
    cases hl : env.locatePath v with
    | error err => simp
    | ok path =>
      cases hg : modules.get? i with
      | none => simp
      | some mod => simp only []; exact ih _ _

/-- The loop of `ResolveDependencyPaths` when every version is located and the
modules from index `i` on are as many as the versions. -/
theorem resolveEach_located (env : protopath.Env) (modules : List protopath.Module)
    (vs : List Version) (dirs : List String)
    (hdirs : List.Forall₂ (fun v dir => env.locatePath v = .ok dir) vs dirs) :
    ∀ (i : Nat) (paths : List String), i + vs.length ≤ modules.length →
      protopath.resolveEach env modules vs i paths
        = .ok (paths ++ (List.zipWith (fun dir (mod : protopath.Module) =>
            mod.includes.map (env.join dir)) dirs (modules.drop i)).flatten) := by
  induction hdirs with
  | nil => intro i paths _; simp [protopath.resolveEach]
  | @cons v dir vs dirs hv _ ih =>
    intro i paths hlen
    have hi : i < modules.length := by simp at hlen; omega
    have hget : modules.get? i = some (modules.get ⟨i, hi⟩) := List.get?_eq_get hi
    have hdrop : modules.drop i = modules.get ⟨i, hi⟩ :: modules.drop (i + 1) := by
      simp
    unfold protopath.resolveEach
    simp only [hv, hget]
    rw [ih (i + 1) _ (by simp at hlen ⊢; omega), hdrop, foldl_append_singleton]
    simp only [List.zipWith_cons_cons, List.flatten_cons, List.append_assoc]

/-- C30: `ResolveDependencyPaths` returns the error "go.mod has missing proto
modules" (and no paths) iff the number of versions matched by the import paths
of the modules differs from the number of modules; otherwise, if every matched
version is located, it returns the global include paths followed, for
i = 0, 1, ..., by the include paths of the i-th module each joined to the
directory of the i-th matched version, so the result has
`len(globalInclude)` plus the total number of include paths entries; and
`modules[i]` is never out of range. -/
theorem ResolveDependencyPaths_result (env : protopath.Env) (versions : List Version)
    (modules : List protopath.Module) :
    (protopath.ResolveDependencyPaths env versions modules = .error .missingProtoModules ↔
      (env.filterVersions versions (modules.map (·.importPath))).length ≠ modules.length) ∧
    ((env.filterVersions versions (modules.map (·.importPath))).length = modules.length →
      (∀ v ∈ env.filterVersions versions (modules.map (·.importPath)),
        ∃ dir, env.locatePath v = .ok dir) →
      ∃ dirs,
        List.Forall₂ (fun v dir => env.locatePath v = .ok dir)
          (env.filterVersions versions (modules.map (·.importPath))) dirs ∧
        protopath.ResolveDependencyPaths env versions modules
          = .ok (env.globalInclude ++ (List.zipWith (fun dir (mod : protopath.Module) =>
              mod.includes.map (env.join dir)) dirs modules).flatten) ∧
        ∀ paths, protopath.ResolveDependencyPaths env versions modules = .ok paths →
          paths.length
            = env.globalInclude.length + (modules.map (·.includes.length)).sum) ∧
    protopath.ResolveDependencyPaths env versions modules ≠ .error .indexOutOfRange := by
  have himp : modules.foldl
      (fun importPaths (mod : protopath.Module) => importPaths ++ [mod.importPath]) []
        = modules.map (·.importPath) := by
    rw [foldl_append_singleton (fun mod : protopath.Module => mod.importPath)]; simp
  have hlocated : ∀ vs : List Version, (∀ v ∈ vs, ∃ dir, env.locatePath v = .ok dir) →
      ∃ dirs, List.Forall₂ (fun v dir => env.locatePath v = .ok dir) vs dirs := by
    intro vs
    induction vs with
    | nil => intro _; exact ⟨[], List.Forall₂.nil⟩
    | cons v vs ih =>
      intro h
      obtain ⟨dir, hdir⟩ := h v (List.mem_cons_self _ _)
      obtain ⟨dirs, hdirs⟩ := ih (fun w hw => h w (List.mem_cons_of_mem _ hw))
      exact ⟨dir :: dirs, List.Forall₂.cons hdir hdirs⟩
  have hsum : ∀ (dirs : List String) (ms : List protopath.Module), dirs.length = ms.length →
      ((List.zipWith (fun dir (mod : protopath.Module) =>
          mod.includes.map (env.join dir)) dirs ms).flatten).length
        = (ms.map (·.includes.length)).sum := by
    intro dirs
    induction dirs with
    | nil => intro ms h; cases ms with
      | nil => simp
      | cons m ms => simp at h
    | cons d dirs ih =>
      intro ms h
      cases ms with
      | nil => simp at h
      | cons m ms =>
        simp only [List.length_cons, Nat.add_right_cancel_iff] at h
        simp [ih ms h]
  refine ⟨?_, ?_, ?_⟩
  · unfold protopath.ResolveDependencyPaths
    simp only [himp]
    constructor
    · intro h hne
      rw [if_neg (not_not.mpr hne)] at h
      exact resolveEach_ne_missing env modules _ 0 _ h
    · intro h
      rw [if_pos h]
  · intro hlen hall
    obtain ⟨dirs, hdirs⟩ := hlocated _ hall
    have hres : protopath.ResolveDependencyPaths env versions modules
        = .ok (env.globalInclude ++ (List.zipWith (fun dir (mod : protopath.Module) =>
            mod.includes.map (env.join dir)) dirs modules).flatten) := by
      unfold protopath.ResolveDependencyPaths
      simp only [himp]
      rw [if_neg (by simpa using hlen), resolveEach_located env modules _ dirs hdirs 0 _
        (by omega)]
      simp
    refine ⟨dirs, hdirs, hres, ?_⟩
    intro paths hp
    rw [hres] at hp
    have hp := Except.ok.inj hp
    subst hp
    rw [List.length_append, hsum dirs modules (by rw [← hdirs.length_eq, hlen])]
  · unfold protopath.ResolveDependencyPaths
    simp only [himp]
    by_cases hlen : (env.filterVersions versions (modules.map (·.importPath))).length
        ≠ modules.length
    · rw [if_pos hlen]; simp
    · rw [if_neg hlen]
      have hlen := not_not.mp hlen
      suffices h : ∀ (vs : List Version) (i : Nat) (paths : List String),
          i + vs.length ≤ modules.length →
          protopath.resolveEach env modules vs i paths ≠ .error .indexOutOfRange from
        h _ 0 _ (by omega)
      intro vs
      induction vs with
      | nil => intro i paths _; simp [protopath.resolveEach]
      | cons v vs ih =>
        intro i paths hle
        have hi : i < modules.length := by simp at hle; omega
        unfold protopath.resolveEach
        cases hl : env.locatePath v with
        | error err => simp
        | ok path =>
          simp only [List.get?_eq_get hi]
          exact ih (i + 1) _ (by simp at hle ⊢; omega)

/-- One required module with two include paths gives the two global paths and
the two joined paths; a module that is not required gives the error of the
length check. -/
theorem ResolveDependencyPaths_result_witness :
    protopath.ResolveDependencyPaths sampleProtoEnv sampleVersions [sdkProtoModule]
      = .ok ["/home/me/local/include", "/home/me/.local/include",
             "/go/pkg/mod/github.com/cosmos/cosmos-sdk@v0.42.4/proto",
             "/go/pkg/mod/github.com/cosmos/cosmos-sdk@v0.42.4/third_party/proto"] ∧
    protopath.ResolveDependencyPaths sampleProtoEnv sampleVersions
      [sdkProtoModule, absentProtoModule] = .error .missingProtoModules :=
  ⟨by
     obtain ⟨dirs, hdirs, hres, _⟩ :=
       (ResolveDependencyPaths_result sampleProtoEnv sampleVersions [sdkProtoModule]).2.1
         (by decide) (by
           intro v hv
           have hvs : sampleProtoEnv.filterVersions sampleVersions
               ([sdkProtoModule].map (·.importPath))
               = [{ Path := "github.com/cosmos/cosmos-sdk", Version := "v0.42.4" }] := by decide
           rw [hvs] at hv
           have hv := List.mem_singleton.mp hv
           subst hv
           exact ⟨"/go/pkg/mod/github.com/cosmos/cosmos-sdk@v0.42.4", by decide⟩)
     rw [hres]
     have hvs : sampleProtoEnv.filterVersions sampleVersions
         ([sdkProtoModule].map (·.importPath))
         = [{ Path := "github.com/cosmos/cosmos-sdk", Version := "v0.42.4" }] := by decide
     rw [hvs] at hdirs
     cases hdirs with
     | cons h hrest =>
       cases hrest
       have h := (Except.ok.inj h).symm
       subst h
       decide,
   (ResolveDependencyPaths_result sampleProtoEnv sampleVersions
      [sdkProtoModule, absentProtoModule]).1.mpr (by decide)⟩

end Starport
